import Mathlib

/-!
# Solar raster rendering pipeline

A shallow embedding of `src/visual.js` (palette construction, normalisation,
RGB compositing) and of the layer assembly in `src/app.mjs`, followed by
theorems about them.

Conventions of the embedding

* A JavaScript number is a `Num`: a rational, or one of the three non-finite
  values `+Infinity`, `-Infinity`, `NaN`. The two zeros are not distinguished;
  a zero divisor is read as `+0`.
* The operators `+ - * /` on `Num` are exact. The binary64 operations of the
  code are `add64`, `sub64`, `mul64`, `div64`: the exact result rounded to the
  nearest binary64 number by `round64`, with overflow to an infinity. They are
  used wherever rounding can change a result (`normalize`, `lerp`,
  `createPalette`, the palette index of `renderPalette`, the alpha product and
  the source index `rgbIdx`). The exact operators stand where the binary64
  result is the same for binary64 operands: the sign of the comparator `x - y`
  of the sort, and `day - 1` on integers.
* Loop counters, widths and lengths are natural numbers; they are the numbers
  of the code up to `2 ^ 53`. The pixel loops read the source raster at the
  exact index `rgbIdxExact`; it is the binary64 index `rgbIdx` of the code for
  a canvas of the raster's own size (`rgbIdx_same_size`), and `rgbIdx` is shown
  to stay inside the raster for a canvas of any size (`floor_scaled_lt`).
* A JavaScript array is a `List`; reading past the end gives `undefined`,
  which is `none` here.
* A JavaScript string is a `String`, processed through its list of characters.
* A thrown exception is the `error` side of `Except JSError`.
-/

namespace Solar

/-! ## Numbers -/

/-- A JavaScript number: a finite value, the two infinities, or NaN. -/
inductive Num where
  | fin (q : ℚ)
  | pinf
  | ninf
  | nan
  deriving DecidableEq

namespace Num

instance instOfNatNum (n : Nat) : OfNat Num n := ⟨fin n⟩

instance : Inhabited Num := ⟨nan⟩

/-- The number that a loop counter, a width or a length denotes. -/
def ofNat (n : Nat) : Num := fin n

/-- The sign of a non-zero rational as an infinity. -/
def infOfSign (q : ℚ) : Num := if 0 < q then pinf else ninf

/-- Unary minus. -/
def neg : Num → Num
  | fin a => fin (-a)
  | pinf => ninf
  | ninf => pinf
  | nan => nan

/-- The `+` of two numbers. -/
def add : Num → Num → Num
  | fin a, fin b => fin (a + b)
  | fin _, pinf => pinf
  | fin _, ninf => ninf
  | pinf, fin _ => pinf
  | pinf, pinf => pinf
  | ninf, fin _ => ninf
  | ninf, ninf => ninf
  | _, _ => nan

/-- The `-` of two numbers. -/
def sub (a b : Num) : Num := add a (neg b)

/-- The `*` of two numbers. -/
def mul : Num → Num → Num
  | fin a, fin b => fin (a * b)
  | fin a, pinf => if a = 0 then nan else infOfSign a
  | fin a, ninf => if a = 0 then nan else infOfSign (-a)
  | pinf, fin b => if b = 0 then nan else infOfSign b
  | ninf, fin b => if b = 0 then nan else infOfSign (-b)
  | pinf, pinf => pinf
  | ninf, ninf => pinf
  | pinf, ninf => ninf
  | ninf, pinf => ninf
  | _, _ => nan

/-- The `/` of two numbers. Division of a finite value by zero gives NaN for
`0/0` and an infinity otherwise. -/
def div : Num → Num → Num
  | fin a, fin b =>
    if b = 0 then (if a = 0 then nan else infOfSign a) else fin (a / b)
  | fin _, pinf => fin 0
  | fin _, ninf => fin 0
  | pinf, fin b => if 0 ≤ b then pinf else ninf
  | ninf, fin b => if 0 ≤ b then ninf else pinf
  | _, _ => nan

/-- The order `≤` of numbers; NaN is comparable with nothing. -/
def le : Num → Num → Prop
  | nan, _ => False
  | _, nan => False
  | ninf, _ => True
  | _, pinf => True
  | fin a, fin b => a ≤ b
  | _, _ => False

instance : LE Num := ⟨le⟩
instance : Neg Num := ⟨neg⟩
instance : Add Num := ⟨add⟩
instance : Sub Num := ⟨sub⟩
instance : Mul Num := ⟨mul⟩
instance : Div Num := ⟨div⟩

/-- The array index a number denotes as a property key: a non-negative
integer; any other number names no element. -/
def toIndex : Num → Option Nat
  | fin q => if 0 ≤ q ∧ ((⌊q⌋₊ : ℕ) : ℚ) = q then some ⌊q⌋₊ else none
  | _ => none

end Num

/-- The element `xs[i]` of an array for a numeric index, `none` for `undefined`. -/
def index {α : Type} (xs : List α) (i : Num) : Option α :=
  match i.toIndex with
  | some k => xs[k]?
  | none => none

/-- ToNumber of an array element: `undefined` becomes NaN. -/
def toNumber : Option Num → Num
  | some x => x
  | none => Num.nan

namespace Math

/-- Math.max of two numbers: NaN when either is NaN. -/
def max : Num → Num → Num
  | .nan, _ => .nan
  | _, .nan => .nan
  | .pinf, _ => .pinf
  | _, .pinf => .pinf
  | .ninf, b => b
  | a, .ninf => a
  | .fin a, .fin b => .fin (if a ≤ b then b else a)

/-- Math.min of two numbers: NaN when either is NaN. -/
def min : Num → Num → Num
  | .nan, _ => .nan
  | _, .nan => .nan
  | .ninf, _ => .ninf
  | _, .ninf => .ninf
  | .pinf, b => b
  | a, .pinf => a
  | .fin a, .fin b => .fin (if a ≤ b then a else b)

/-- Math.floor. -/
def floor : Num → Num
  | .fin a => .fin (⌊a⌋ : ℤ)
  | x => x

/-- Math.ceil. -/
def ceil : Num → Num
  | .fin a => .fin (⌈a⌉ : ℤ)
  | x => x

/-- Math.round: the nearest integer, ties going up. -/
def round : Num → Num
  | .fin a => .fin (⌊a + 1 / 2⌋ : ℤ)
  | x => x

end Math

/-! ## Binary64 rounding -/

/-- The integer nearest to a rational, ties going to the even one. -/
def roundHalfEven (q : ℚ) : ℤ :=
  let f := ⌊q⌋
  if q - f < 1 / 2 then f
  else if 1 / 2 < q - f then f + 1
  else if f % 2 = 0 then f else f + 1

/-- The exponent of the binade of a rational: the `e` with
`2 ^ e ≤ |q| < 2 ^ (e + 1)`, and the least normal exponent `-1022` for zero and
for the subnormal range. -/
def binade (q : ℚ) : ℤ :=
  if q = 0 then -1022 else max (Int.log 2 |q|) (-1022)

/-- A rational rounded to the nearest multiple of the spacing of its binade,
`2 ^ (binade q - 52)`, ties going to the even multiple. -/
def grid (q : ℚ) : ℚ :=
  roundHalfEven (q / 2 ^ (binade q - 52)) * 2 ^ (binade q - 52)

/-- The binary64 number nearest to a rational (round to nearest, ties to even);
an infinity when the rounded magnitude reaches `2 ^ 1024`. -/
def round64 (q : ℚ) : Num :=
  if 2 ^ 1024 ≤ |grid q| then Num.infOfSign q else .fin (grid q)

/-- A rational that is a binary64 number: rounding leaves it unchanged. -/
def isDouble (q : ℚ) : Prop := round64 q = .fin q

/-- A finite result rounded to binary64; the infinities and NaN are kept. -/
def Num.round : Num → Num
  | .fin q => round64 q
  | x => x

/-- The binary64 sum `a + b`. -/
def add64 (a b : Num) : Num := (a + b).round

/-- The binary64 difference `a - b`. -/
def sub64 (a b : Num) : Num := (a - b).round

/-- The binary64 product `a * b`. -/
def mul64 (a b : Num) : Num := (a * b).round

/-- The binary64 quotient `a / b`. -/
def div64 (a b : Num) : Num := (a / b).round

/-- The conversion applied by a store into a `Uint8ClampedArray`: NaN becomes 0,
the value is clamped to `[0, 255]` and rounded to the nearest integer, ties
going to the even one. -/
def toUint8Clamp : Num → Nat
  | .fin q =>
    if q ≤ 0 then 0
    else if 255 ≤ q then 255
    else
      let f := ⌊q⌋₊
      if q - f < 1 / 2 then f
      else if 1 / 2 < q - f then f + 1
      else if f % 2 = 0 then f else f + 1
  | .pinf => 255
  | .ninf => 0
  | .nan => 0

/-! ## Errors -/

/-- The exceptions the modelled code can raise. -/
inductive JSError where
  | typeError
  | indexSizeError
  | error (message : String)
  | response (payload : String)
  deriving DecidableEq

/-! ## Data model -/

/-- The lat/lon rectangle of a raster. -/
structure Bounds where
  north : Num
  south : Num
  east : Num
  west : Num
  deriving DecidableEq

/-- The object `downloadGeoTIFF` returns: dimensions, bands, bounds. -/
structure Raster where
  width : Nat
  height : Nat
  rasters : List (List Num)
  bounds : Bounds
  deriving DecidableEq

/-- The rendered canvas: its dimensions and its RGBA bytes, row by row, four
per pixel (the `ImageData.data` put on it). -/
structure Canvas where
  width : Nat
  height : Nat
  data : List Nat
  deriving DecidableEq

/-- An `{r, g, b}` colour. -/
structure RGB where
  r : Num
  g : Num
  b : Num
  deriving DecidableEq

/-! ## `src/visual.js` -/

/-- `clamp(x, min, max)`. -/
def clamp (x min max : Num) : Num :=
  Math.min (Math.max x min) max

/-- `lerp(x, y, t)`. -/
def lerp (x y t : Num) : Num :=
  add64 x (mul64 t (sub64 y x))

/-- `normalize(x, max, min)`; the defaults `max = 1`, `min = 0` are supplied
by the caller. -/
def normalize (x max min : Num) : Num :=
  let y := div64 (sub64 x min) (sub64 max min)
  clamp y 0 1

/-- The characters `parseInt` skips at the start of its argument (white space
and line terminators). -/
def isStrWhiteSpace (c : Char) : Bool :=
  [0x9, 0xA, 0xB, 0xC, 0xD, 0x20, 0xA0, 0x1680, 0x2028, 0x2029, 0x202F, 0x205F,
    0x3000, 0xFEFF].contains c.toNat || (0x2000 ≤ c.toNat && c.toNat ≤ 0x200A)

/-- The value of a hexadecimal digit, `none` for any other character. -/
def hexValue (c : Char) : Option Nat :=
  let n := c.toNat
  if 48 ≤ n ∧ n ≤ 57 then some (n - 48)
  else if 97 ≤ n ∧ n ≤ 102 then some (n - 87)
  else if 65 ≤ n ∧ n ≤ 70 then some (n - 55)
  else none

/-- The number denoted by a list of hexadecimal digits. -/
def hexNumber (digits : List Char) : Nat :=
  digits.foldl (fun acc c => 16 * acc + (hexValue c).getD 0) 0

/-- `parseInt(s, 16)`: skip leading white space, read an optional sign and an
optional `0x`, then the longest run of hexadecimal digits; NaN when that run
is empty. -/
def parseInt16 (s : List Char) : Num :=
  let s1 := s.dropWhile isStrWhiteSpace
  let negative : Bool := s1.head? = some '-'
  let s2 := if s1.head? = some '-' ∨ s1.head? = some '+' then s1.drop 1 else s1
  let s3 := if s2.take 2 = ['0', 'x'] ∨ s2.take 2 = ['0', 'X'] then s2.drop 2 else s2
  let digits := s3.takeWhile (fun c => (hexValue c).isSome)
  if digits = [] then Num.nan
  else if negative then Num.fin (-(hexNumber digits : ℚ))
  else Num.fin (hexNumber digits : ℚ)

/-- `s.substring(a, b)` for `a ≤ b`. -/
def substring (s : List Char) (a b : Nat) : List Char :=
  (s.take b).drop a

/-- `colorToRGB(color)`. -/
def colorToRGB (color : String) : RGB :=
  let hex := if color.toList.head? = some '#' then color.toList.drop 1 else color.toList
  ⟨parseInt16 (substring hex 0 2), parseInt16 (substring hex 2 4),
    parseInt16 (substring hex 4 6)⟩

/-- A well-formed anchor colour: six hexadecimal digits, with or without a
leading `#`. -/
def wellFormedHex (color : String) : Bool :=
  let hex := if color.toList.head? = some '#' then color.toList.drop 1 else color.toList
  hex.length = 6 && hex.all (fun c => (hexValue c).isSome)

/-- One entry of the palette: the body of the `map` callback of
`createPalette`. Reading `.r` of a missing anchor is a TypeError. -/
def paletteEntry (rgb : List RGB) (step : Num) (i : Nat) : Except JSError RGB :=
  let idx := mul64 (Num.ofNat i) step
  let lower := Math.floor idx
  let upper := Math.ceil idx
  match index rgb lower, index rgb upper with
  | some lo, some up =>
    .ok ⟨lerp lo.r up.r (sub64 idx lower), lerp lo.g up.g (sub64 idx lower),
      lerp lo.b up.b (sub64 idx lower)⟩
  | _, _ => .error .typeError

/-- `createPalette(hexColors)`. -/
def createPalette (hexColors : List String) : Except JSError (List RGB) :=
  let rgb := hexColors.map colorToRGB
  let size := 256
  let step : Num := div64 (sub64 (Num.ofNat rgb.length) 1) (sub64 (Num.ofNat size) 1)
  (List.range size).mapM (paletteEntry rgb step)

/-- The band `r.rasters[k]`; using a missing band is a TypeError. -/
def band (r : Raster) (k : Nat) : Except JSError (List Num) :=
  match r.rasters[k]? with
  | some b => .ok b
  | none => .error .typeError

/-- The four stores of one iteration of the pixel loop of `renderRGB`. A store
past the end of the buffer has no effect. -/
def writePixel (img : List Nat) (imgIdx : Nat) (r g b a : Nat) : List Nat :=
  (((img.set (imgIdx + 0) r).set (imgIdx + 1) g).set (imgIdx + 2) b).set (imgIdx + 3) a

/-- The source index `rgbIdx` that `renderRGB` computes in binary64 for the
output pixel `(x, y)` of a canvas of the given size:
`Math.floor(y * dh) * rgb.width + Math.floor(x * dw)` with `dw`, `dh` the
rounded quotients of the sizes. -/
def rgbIdx (rgbWidth rgbHeight width height x y : Nat) : Num :=
  let dw := div64 (Num.ofNat rgbWidth) (Num.ofNat width)
  let dh := div64 (Num.ofNat rgbHeight) (Num.ofNat height)
  add64 (mul64 (Math.floor (mul64 (Num.ofNat y) dh)) (Num.ofNat rgbWidth))
    (Math.floor (mul64 (Num.ofNat x) dw))

/-- The same index with every operation exact: row `⌊y * rh / oh⌋`, column
`⌊x * rw / ow⌋`. For a canvas of the raster's own size, of at most `2 ^ 53`
samples, it is `rgbIdx` (`rgbIdx_same_size`); for a canvas of another size
`rgbIdx` can name the sample before, as for a raster 30 samples wide on a
canvas 22 pixels wide at `x = 11`. -/
def rgbIdxExact (rgbWidth rgbHeight width height x y : Nat) : Num :=
  let dw := Num.ofNat rgbWidth / Num.ofNat width
  let dh := Num.ofNat rgbHeight / Num.ofNat height
  Math.floor (Num.ofNat y * dh) * Num.ofNat rgbWidth + Math.floor (Num.ofNat x * dw)

/-- The two nested loops of `renderRGB` over the image data `img`. The bands
are looked up once, before the loops. The source index is read as
`rgbIdxExact`: the loops are used below for the size of the canvas, its alpha
bytes and the pixels of a canvas of the raster's own size, where it is the
index of the code; the index of the code for any size is `rgbIdx`. -/
def renderLoop (rgbWidth rgbHeight width height : Nat) (red green blue : List Num)
    (alpha : Option (List Num)) (img : List Nat) : List Nat :=
  (List.range height).foldl (fun img y =>
    (List.range width).foldl (fun img x =>
      let rgbIdx := rgbIdxExact rgbWidth rgbHeight width height x y
      let maskIdx := y * width + x
      let imgIdx := y * width * 4 + x * 4
      writePixel img imgIdx
        (toUint8Clamp (toNumber (index red rgbIdx)))
        (toUint8Clamp (toNumber (index green rgbIdx)))
        (toUint8Clamp (toNumber (index blue rgbIdx)))
        (match alpha with
          | some m => toUint8Clamp (mul64 (toNumber m[maskIdx]?) 255)
          | none => 255)) img) img

/-- `renderRGB(rgb, mask)`. `getImageData` refuses an empty rectangle; the
fresh image data is transparent black. -/
def renderRGB (rgb : Raster) (mask : Option Raster) : Except JSError Canvas :=
  let width := match mask with
    | some m => m.width
    | none => rgb.width
  let height := match mask with
    | some m => m.height
    | none => rgb.height
  if width = 0 ∨ height = 0 then .error .indexSizeError
  else
    match band rgb 0, band rgb 1, band rgb 2,
      (match mask with
        | some m => (band m 0).map some
        | none => .ok none) with
    | .ok red, .ok green, .ok blue, .ok alpha =>
      .ok ⟨width, height,
        renderLoop rgb.width rgb.height width height red green blue alpha
          (List.replicate (width * height * 4) 0)⟩
    | _, _, _, _ => .error .typeError

/-- The options object of `renderPalette`; an absent field is `none`. -/
structure PaletteOptions where
  data : Raster
  mask : Option Raster
  colors : Option (List String)
  min : Option Num
  max : Option Num
  index : Option Nat

/-- The channel of the palette entry `palette[i]`; a missing entry is a
TypeError. -/
def paletteChannel (palette : List RGB) (channel : RGB → Num) (i : Num) :
    Except JSError Num :=
  match index palette i with
  | some c => .ok (channel c)
  | none => .error .typeError

/-- `renderPalette(options)`. -/
def renderPalette (o : PaletteOptions) : Except JSError Canvas :=
  match createPalette (o.colors.getD ["000000", "ffffff"]) with
  | .error e => .error e
  | .ok palette =>
    match band o.data (o.index.getD 0) with
    | .error e => .error e
    | .ok values =>
      let indices := (values.map (fun x => normalize x (o.max.getD 1) (o.min.getD 0))).map
        (fun x => Math.round (mul64 x (sub64 (Num.ofNat palette.length) 1)))
      match indices.mapM (paletteChannel palette RGB.r),
        indices.mapM (paletteChannel palette RGB.g),
        indices.mapM (paletteChannel palette RGB.b) with
      | .ok rs, .ok gs, .ok bs =>
        renderRGB ⟨o.data.width, o.data.height, [rs, gs, bs], o.data.bounds⟩ o.mask
      | _, _, _ => .error .typeError

/-! ## `src/app.mjs` -/

/-- `s.includes(t)`: `t` occurs somewhere in `s`. -/
def includes : List Char → List Char → Bool
  | [], t => t.isEmpty
  | c :: s, t => t.isPrefixOf (c :: s) || includes s t

/-- The network as `downloadGeoTIFF` sees it: what fetching a URL, checking the
status, decoding the GeoTIFF and reprojecting its bounding box gives, a raster
or the error that is thrown. -/
abbrev Network := String → Except JSError Raster

/-- The URL `downloadGeoTIFF` passes to `fetch` (its `solarUrl`). -/
def solarUrl (url apiKey : String) : String :=
  if includes url.toList "solar.googleapis.com".toList then url ++ "&key=" ++ apiKey else url

/-- `downloadGeoTIFF(url, apiKey)`: the URL fetched, and the outcome. -/
def downloadGeoTIFF (net : Network) (url apiKey : String) : String × Except JSError Raster :=
  (solarUrl url apiKey, net (solarUrl url apiKey))

/-- Modelled from the spec: the host a URL targets, the part of
`scheme://[userinfo@]host[:port]` between the user information and the port.
The source has no such function; it is used only to state which host a
request goes to. -/
def urlHost (url : String) : String :=
  let rec afterScheme : List Char → List Char
    | ':' :: '/' :: '/' :: rest => rest
    | _ :: rest => afterScheme rest
    | [] => []
  let authority := (afterScheme url.toList).takeWhile (fun c => c != '/' && c != '?' && c != '#')
  let hostPort := ((authority.splitOn '@').getLast?).getD []
  String.mk (hostPort.takeWhile (fun c => c != ':'))

/-- The `urls` argument of `getLayer`: the Data Layers response. -/
structure Urls where
  maskUrl : String
  dsmUrl : String
  rgbUrl : String
  annualFluxUrl : String
  monthlyFluxUrl : String
  hourlyShadeUrls : List String

/-- The colour lists `app.mjs` uses without defining them. -/
structure Palettes where
  binaryPalette : List String
  rainbowPalette : List String
  ironPalette : List String
  sunlightPalette : List String

/-- The `palette` field of a layer: its colours and the two legend labels. -/
structure Legend where
  colors : List String
  min : String
  max : String
  deriving DecidableEq

/-- The object a layer handler returns. `render` takes `showRoofOnly`, `month`
and `day`. -/
structure Layer where
  id : String
  bounds : Bounds
  palette : Option Legend
  render : Bool → Num → Num → Except JSError (List Canvas)

/-- An array literal or a `map` whose elements are computed in order: the first
exception ends it. -/
def collect {α : Type} (xs : List (Except JSError α)) : Except JSError (List α) :=
  xs.mapM id

/-- ToUint32 of a number: truncate, then reduce modulo `2^32`. -/
def toUint32 : Num → Nat
  | .fin q => ((if 0 ≤ q then ⌊q⌋ else ⌈q⌉) % 2 ^ 32).toNat
  | _ => 0

/-- The signed 32-bit integer with the given low 32 bits. -/
def int32 (u : Nat) : Int :=
  if u % 2 ^ 32 < 2 ^ 31 then (u % 2 ^ 32 : Nat) else (u % 2 ^ 32 : Nat) - 2 ^ 32

/-- The operator `a << b` on numbers. -/
def shiftLeft (a b : Num) : Num :=
  .fin (int32 (toUint32 a * 2 ^ (toUint32 b % 32)))

/-- The operator `a & b` on numbers. -/
def bitAnd (a b : Num) : Num :=
  .fin (int32 (toUint32 a &&& toUint32 b))

/-- Whether a comparator result puts its first argument no later than its
second: a result that is negative or zero, NaN counting as zero. -/
def notAfter : Num → Bool
  | .fin q => q ≤ 0
  | .ninf => true
  | .pinf => false
  | .nan => true

/-- `xs.sort(cmp)`: a stable sort by the comparator; only the sign of the
comparator's result is used. For a comparator that is not a consistent order
the result is one of the orders an engine may give. -/
def sort (cmp : Num → Num → Num) (xs : List Num) : List Num :=
  xs.insertionSort (fun a b => notAfter (cmp a b) = true)

/-- `x.toFixed(fractionDigits)`. From `10^21` on the result is the general
number-to-string conversion of the magnitude, which is a parameter. -/
def toFixed (bigToString : ℚ → String) (x : Num) (fractionDigits : Nat) : String :=
  match x with
  | .nan => "NaN"
  | .pinf => "Infinity"
  | .ninf => "-Infinity"
  | .fin q =>
    let s := if q < 0 then "-" else ""
    if (10 : ℚ) ^ 21 ≤ |q| then s ++ bigToString |q|
    else
      let n := ⌊|q| * 10 ^ fractionDigits + 1 / 2⌋₊
      let m := (Nat.repr n).toList
      let m := if m.length ≤ fractionDigits
        then List.replicate (fractionDigits + 1 - m.length) '0' ++ m else m
      let m := if fractionDigits = 0 then m
        else m.take (m.length - fractionDigits) ++ ['.'] ++ m.drop (m.length - fractionDigits)
      s ++ String.mk m

/-- The layer built by the `mask` handler from the downloaded mask. -/
def maskLayer (pal : Palettes) (layerId : String) (mask : Raster) : Layer :=
  let colors := pal.binaryPalette
  ⟨layerId, mask.bounds, some ⟨colors, "No roof", "Roof"⟩,
    fun showRoofOnly _ _ => collect [
      renderPalette ⟨mask, if showRoofOnly then some mask else none, some colors,
        none, none, none⟩]⟩

/-- The layer built by the `dsm` handler from the downloaded mask and
elevation rasters. -/
def dsmLayer (bigToString : ℚ → String) (pal : Palettes) (layerId : String)
    (mask data : Raster) : Except JSError Layer :=
  match data.rasters[0]? with
  | none => .error .typeError
  | some values =>
    let sortedValues := sort (fun x y => x - y) values
    match sortedValues[0]?, sortedValues.getLast? with
    | some minValue, some maxValue =>
      let colors := pal.rainbowPalette
      .ok ⟨layerId, mask.bounds,
        some ⟨colors, toFixed bigToString minValue 1 ++ " m",
          toFixed bigToString maxValue 1 ++ " m"⟩,
        fun showRoofOnly _ _ => collect [
          renderPalette ⟨data, if showRoofOnly then some mask else none, some colors,
            sortedValues[0]?, sortedValues.getLast?, none⟩]⟩
    | _, _ => .error .typeError

/-- The layer built by the `rgb` handler. -/
def rgbLayer (layerId : String) (mask data : Raster) : Layer :=
  ⟨layerId, mask.bounds, none,
    fun showRoofOnly _ _ => collect [
      renderRGB data (if showRoofOnly then some mask else none)]⟩

/-- The layer built by the `annualFlux` handler. -/
def annualFluxLayer (pal : Palettes) (layerId : String) (mask data : Raster) : Layer :=
  let colors := pal.ironPalette
  ⟨layerId, mask.bounds, some ⟨colors, "Shady", "Sunny"⟩,
    fun showRoofOnly _ _ => collect [
      renderPalette ⟨data, if showRoofOnly then some mask else none, some colors,
        some 0, some 1800, none⟩]⟩

/-- The layer built by the `monthlyFlux` handler. -/
def monthlyFluxLayer (pal : Palettes) (layerId : String) (mask data : Raster) : Layer :=
  let colors := pal.ironPalette
  ⟨layerId, mask.bounds, some ⟨colors, "Shady", "Sunny"⟩,
    fun showRoofOnly _ _ => collect ((List.range 12).map (fun month =>
      renderPalette ⟨data, if showRoofOnly then some mask else none, some colors,
        some 0, some 200, some month⟩))⟩

/-- The raster the `hourlyShade` layer renders for a month and a day: every
sample `x` of every band of `months[month]` replaced by `x & (1 << (day - 1))`.
A missing month is a TypeError. -/
def shadeData (months : List Raster) (month day : Num) : Except JSError Raster :=
  match index months month with
  | none => .error .typeError
  | some m =>
    .ok ⟨m.width, m.height,
      m.rasters.map (fun values => values.map (fun x => bitAnd x (shiftLeft 1 (day - 1)))),
      m.bounds⟩

/-- The layer built by the `hourlyShade` handler. -/
def hourlyShadeLayer (pal : Palettes) (layerId : String) (mask : Raster)
    (months : List Raster) : Layer :=
  let colors := pal.sunlightPalette
  ⟨layerId, mask.bounds, some ⟨colors, "Shade", "Sun"⟩,
    fun showRoofOnly month day => collect ((List.range 24).map (fun hour =>
      match shadeData months month day with
      | .error e => .error e
      | .ok data =>
        renderPalette ⟨data, if showRoofOnly then some mask else none, some colors,
          some 0, some 1, some hour⟩))⟩

/-- What running a handler does: the URLs it fetches, in order, and the layer
it resolves to or the error it rejects with. -/
structure Run where
  fetched : List String
  result : Except JSError Layer

/-- `Promise.all` over downloads: every request is issued; the result is the
list of rasters, or the first error. -/
def promiseAll (ds : List (String × Except JSError Raster)) :
    List String × Except JSError (List Raster) :=
  (ds.map Prod.fst, collect (ds.map Prod.snd))

/-- The object `get` of `getLayer`: its six own keys, in order, each with its
handler. -/
def handlers (bigToString : ℚ → String) (pal : Palettes) (net : Network)
    (layerId : String) (urls : Urls) (apiKey : String) : List (String × (Unit → Run)) :=
  [("mask", fun _ =>
      let d := downloadGeoTIFF net urls.maskUrl apiKey
      ⟨[d.1], d.2.map (maskLayer pal layerId)⟩),
   ("dsm", fun _ =>
      let all := promiseAll [downloadGeoTIFF net urls.maskUrl apiKey,
        downloadGeoTIFF net urls.dsmUrl apiKey]
      ⟨all.1, match all.2 with
        | .ok [mask, data] => dsmLayer bigToString pal layerId mask data
        | .ok _ => .error .typeError
        | .error e => .error e⟩),
   ("rgb", fun _ =>
      let all := promiseAll [downloadGeoTIFF net urls.maskUrl apiKey,
        downloadGeoTIFF net urls.rgbUrl apiKey]
      ⟨all.1, match all.2 with
        | .ok [mask, data] => .ok (rgbLayer layerId mask data)
        | .ok _ => .error .typeError
        | .error e => .error e⟩),
   ("annualFlux", fun _ =>
      let all := promiseAll [downloadGeoTIFF net urls.maskUrl apiKey,
        downloadGeoTIFF net urls.annualFluxUrl apiKey]
      ⟨all.1, match all.2 with
        | .ok [mask, data] => .ok (annualFluxLayer pal layerId mask data)
        | .ok _ => .error .typeError
        | .error e => .error e⟩),
   ("monthlyFlux", fun _ =>
      let all := promiseAll [downloadGeoTIFF net urls.maskUrl apiKey,
        downloadGeoTIFF net urls.monthlyFluxUrl apiKey]
      ⟨all.1, match all.2 with
        | .ok [mask, data] => .ok (monthlyFluxLayer pal layerId mask data)
        | .ok _ => .error .typeError
        | .error e => .error e⟩),
   ("hourlyShade", fun _ =>
      let all := promiseAll (downloadGeoTIFF net urls.maskUrl apiKey ::
        urls.hourlyShadeUrls.map (fun url => downloadGeoTIFF net url apiKey))
      ⟨all.1, match all.2 with
        | .ok (mask :: months) => .ok (hourlyShadeLayer pal layerId mask months)
        | .ok [] => .error .typeError
        | .error e => .error e⟩)]

/-- The property names every object inherits from `Object.prototype`; the
operator `in` finds them as well as the own keys. -/
def objectPrototypeKeys : List String :=
  ["constructor", "__defineGetter__", "__defineSetter__", "hasOwnProperty",
    "__lookupGetter__", "__lookupSetter__", "isPrototypeOf", "propertyIsEnumerable",
    "toString", "valueOf", "__proto__", "toLocaleString"]

/-- What a call of `getLayer` does. -/
inductive Dispatch where
  | threw (e : JSError)
  | called (key : String) (run : Run)
  | inherited (name : String)

/-- The URLs fetched during a call of `getLayer`. -/
def Dispatch.fetched : Dispatch → List String
  | .threw _ => []
  | .called _ run => run.fetched
  | .inherited _ => []

/-- `getLayer(layerId, urls, apiKey)`; an `undefined` id is `none`. It throws
before any handler runs, or calls `get[layerId]`: one of the six handlers, or
a member inherited from `Object.prototype`, whose effect is not modelled. -/
def getLayer (bigToString : ℚ → String) (pal : Palettes) (net : Network)
    (layerId : Option String) (urls : Urls) (apiKey : String) : Dispatch :=
  match layerId with
  | none => .threw (.error "layerId is undefined or empty")
  | some id =>
    let get := handlers bigToString pal net id urls apiKey
    let keys := get.map Prod.fst
    if id = "" then .threw (.error "layerId is undefined or empty")
    else if ¬ (id ∈ keys ∨ id ∈ objectPrototypeKeys) then
      .threw (.error ("Invalid layerId: " ++ id ++ ". Available types are: "
        ++ ", ".intercalate keys))
    else
      match get.lookup id with
      | some handler => .called id (handler ())
      | none => .inherited id

/-! # Theorems -/

open Num

/-! ## Arithmetic on finite numbers -/

@[simp] theorem Num.ofNat_eq (n : Nat) : Num.ofNat n = .fin n := rfl

@[simp] theorem Num.lit_eq (n : Nat) : (OfNat.ofNat n : Num) = .fin n := rfl

@[simp] theorem Num.fin_add (a b : ℚ) : (Num.fin a + Num.fin b : Num) = .fin (a + b) := rfl

@[simp] theorem Num.fin_sub (a b : ℚ) : (Num.fin a - Num.fin b : Num) = .fin (a - b) := by
  show Num.add (.fin a) (Num.neg (.fin b)) = _
  simp [Num.add, Num.neg, sub_eq_add_neg]

@[simp] theorem Num.fin_mul (a b : ℚ) : (Num.fin a * Num.fin b : Num) = .fin (a * b) := rfl

theorem Num.fin_div (a b : ℚ) (hb : b ≠ 0) : (Num.fin a / Num.fin b : Num) = .fin (a / b) := by
  show Num.div (.fin a) (.fin b) = _
  simp [Num.div, hb]

theorem Num.fin_div_zero (a : ℚ) :
    (Num.fin a / Num.fin 0 : Num) = if a = 0 then .nan else Num.infOfSign a := by
  show Num.div (.fin a) (.fin 0) = _
  simp [Num.div]

@[simp] theorem Num.fin_le (a b : ℚ) : (Num.fin a ≤ Num.fin b) ↔ a ≤ b := Iff.rfl

@[simp] theorem floor_fin (a : ℚ) : Math.floor (.fin a) = .fin (⌊a⌋ : ℤ) := rfl

@[simp] theorem ceil_fin (a : ℚ) : Math.ceil (.fin a) = .fin (⌈a⌉ : ℤ) := rfl

@[simp] theorem round_fin (a : ℚ) : Math.round (.fin a) = .fin (⌊a + 1 / 2⌋ : ℤ) := rfl

@[simp] theorem max_fin (a b : ℚ) : Math.max (.fin a) (.fin b) = .fin (max a b) := by
  simp only [Math.max, max_def]

@[simp] theorem min_fin (a b : ℚ) : Math.min (.fin a) (.fin b) = .fin (min a b) := by
  simp only [Math.min, min_def]

theorem clamp_fin (x lo hi : ℚ) : clamp (.fin x) (.fin lo) (.fin hi) = .fin (min (max x lo) hi) := by
  simp [clamp]

/-! ## Rounding to the nearest integer -/

theorem roundHalfEven_cases (q : ℚ) :
    roundHalfEven q = ⌊q⌋ ∧ q - ⌊q⌋ ≤ 1 / 2 ∨ roundHalfEven q = ⌊q⌋ + 1 ∧ 1 / 2 ≤ q - ⌊q⌋ := by
  unfold roundHalfEven
  simp only
  split_ifs with h1 h2 h3
  · exact Or.inl ⟨rfl, le_of_lt h1⟩
  · exact Or.inr ⟨rfl, le_of_lt h2⟩
  · exact Or.inl ⟨rfl, le_of_not_lt h2⟩
  · exact Or.inr ⟨rfl, le_of_not_lt h1⟩

theorem roundHalfEven_sub_le (q : ℚ) : |(roundHalfEven q : ℚ) - q| ≤ 1 / 2 := by
  have hf := Int.floor_le q
  have hl := Int.lt_floor_add_one q
  rw [abs_le]
  rcases roundHalfEven_cases q with ⟨h, hh⟩ | ⟨h, hh⟩
  · rw [h]; constructor <;> linarith
  · rw [h]; push_cast; constructor <;> linarith

theorem roundHalfEven_of_near (q : ℚ) (z : ℤ) (h : |q - z| < 1 / 2) : roundHalfEven q = z := by
  rw [abs_lt] at h
  have hf := Int.floor_le q
  have hl := Int.lt_floor_add_one q
  rcases roundHalfEven_cases q with ⟨hr, hh⟩ | ⟨hr, hh⟩
  · rw [hr]
    have h1 : (⌊q⌋ : ℚ) < (z : ℚ) + 1 := by linarith
    have h2 : (z : ℚ) < (⌊q⌋ : ℚ) + 1 := by linarith
    have h1' : ⌊q⌋ < z + 1 := by exact_mod_cast h1
    have h2' : z < ⌊q⌋ + 1 := by exact_mod_cast h2
    omega
  · rw [hr]
    have h1 : (⌊q⌋ : ℚ) + 1 < (z : ℚ) + 1 := by linarith
    have h2 : (z : ℚ) < (⌊q⌋ : ℚ) + 1 + 1 := by linarith
    have h1' : ⌊q⌋ + 1 < z + 1 := by exact_mod_cast h1
    have h2' : z < ⌊q⌋ + 1 + 1 := by exact_mod_cast h2
    omega

theorem roundHalfEven_intCast (z : ℤ) : roundHalfEven (z : ℚ) = z :=
  roundHalfEven_of_near _ z (by simp)

theorem roundHalfEven_mono {p q : ℚ} (h : p ≤ q) : roundHalfEven p ≤ roundHalfEven q := by
  have hfl : ⌊p⌋ ≤ ⌊q⌋ := Int.floor_mono h
  by_cases hlt : ⌊p⌋ < ⌊q⌋
  · rcases roundHalfEven_cases p with ⟨hp, -⟩ | ⟨hp, -⟩ <;>
      rcases roundHalfEven_cases q with ⟨hq, -⟩ | ⟨hq, -⟩ <;> rw [hp, hq] <;> omega
  · have heq : ⌊p⌋ = ⌊q⌋ := le_antisymm hfl (not_lt.mp hlt)
    unfold roundHalfEven
    simp only [heq]
    have hsub : p - (⌊q⌋ : ℚ) ≤ q - (⌊q⌋ : ℚ) := by linarith
    split_ifs <;> first | omega | (exfalso; linarith)

/-! ## Binades and the binary64 grid -/

theorem two_zpow_pos (z : ℤ) : (0 : ℚ) < 2 ^ z := zpow_pos (by norm_num) z

theorem two_zpow_le {a b : ℤ} (h : a ≤ b) : (2 : ℚ) ^ a ≤ 2 ^ b :=
  zpow_le_zpow_right₀ (by norm_num) h

theorem two_zpow_succ (z : ℤ) : (2 : ℚ) ^ (z + 1) = 2 ^ z * 2 := by
  rw [zpow_add₀ (by norm_num), zpow_one]

theorem binade_ge (q : ℚ) : -1022 ≤ binade q := by
  unfold binade
  split_ifs
  · exact le_refl _
  · exact le_max_right _ _

theorem log_two_le (q : ℚ) (hq : 0 < q) : (2 : ℚ) ^ Int.log 2 q ≤ q := by
  have := Int.zpow_log_le_self (b := 2) (r := q) (by norm_num) hq
  simpa using this

theorem lt_log_two_succ (q : ℚ) : q < (2 : ℚ) ^ (Int.log 2 q + 1) := by
  have := Int.lt_zpow_succ_log_self (b := 2) (by norm_num) q
  simpa using this

theorem abs_lt_binade (q : ℚ) : |q| < 2 ^ (binade q + 1) := by
  unfold binade
  split_ifs with h
  · rw [h, abs_zero]; exact two_zpow_pos _
  · exact lt_of_lt_of_le (lt_log_two_succ |q|)
      (two_zpow_le (by have := le_max_left (Int.log 2 |q|) (-1022); omega))

theorem binade_le_abs (q : ℚ) (h : (2 : ℚ) ^ (-1022 : ℤ) ≤ |q|) : 2 ^ binade q ≤ |q| := by
  have hpos : 0 < |q| := lt_of_lt_of_le (two_zpow_pos _) h
  have hq : q ≠ 0 := abs_pos.mp hpos
  have hlog : (-1022 : ℤ) ≤ Int.log 2 |q| := by
    have := (Int.zpow_le_iff_le_log (b := 2) (x := -1022) (r := |q|) (by norm_num) hpos).mp
      (by simpa using h)
    exact this
  unfold binade
  rw [if_neg hq, max_eq_left hlog]
  exact log_two_le _ hpos

theorem binade_le_abs_of_ne (q : ℚ) (h : binade q ≠ -1022) : 2 ^ binade q ≤ |q| := by
  unfold binade at h ⊢
  split_ifs at h ⊢ with hq
  · exact absurd rfl h
  · have hpos : 0 < |q| := abs_pos.mpr hq
    have hmax : max (Int.log 2 |q|) (-1022) = Int.log 2 |q| := by
      rcases le_total (Int.log 2 |q|) (-1022) with hle | hle
      · rw [max_eq_right hle] at h; exact absurd rfl h
      · exact max_eq_left hle
    rw [hmax]
    exact log_two_le _ hpos

theorem binade_eq (q : ℚ) (e : ℤ) (he : -1022 ≤ e) (hlo : (2 : ℚ) ^ e ≤ |q|)
    (hhi : |q| < 2 ^ (e + 1)) : binade q = e := by
  have hpos : 0 < |q| := lt_of_lt_of_le (two_zpow_pos _) hlo
  have hq : q ≠ 0 := abs_pos.mp hpos
  have h1 : e ≤ Int.log 2 |q| :=
    (Int.zpow_le_iff_le_log (b := 2) (by norm_num) hpos).mp (by simpa using hlo)
  have h2 : Int.log 2 |q| < e + 1 :=
    (Int.lt_zpow_iff_log_lt (b := 2) (by norm_num) hpos).mp (by simpa using hhi)
  unfold binade
  rw [if_neg hq, max_eq_left (by omega)]
  omega

theorem binade_zero : binade 0 = -1022 := by
  unfold binade; simp

/-- The spacing of the grid in the binade of `q`. -/
theorem spacing_pos (q : ℚ) : (0 : ℚ) < 2 ^ (binade q - 52) := two_zpow_pos _

theorem spacing_mul (b : ℤ) : (2 : ℚ) ^ (b - 52) * 2 ^ (53 : ℤ) = 2 ^ (b + 1) := by
  rw [← zpow_add₀ (by norm_num)]
  congr 1
  ring

theorem spacing_mul' (b : ℤ) : (2 : ℚ) ^ (b - 52) * 2 ^ (52 : ℤ) = 2 ^ b := by
  rw [← zpow_add₀ (by norm_num)]
  congr 1
  ring

theorem grid_sub_le (q : ℚ) : |grid q - q| ≤ 2 ^ (binade q - 52) / 2 := by
  have hu := spacing_pos q
  have h := roundHalfEven_sub_le (q / 2 ^ (binade q - 52))
  have hq : q = q / 2 ^ (binade q - 52) * 2 ^ (binade q - 52) := by
    field_simp
  unfold grid
  calc |(roundHalfEven (q / 2 ^ (binade q - 52)) : ℚ) * 2 ^ (binade q - 52) - q|
      = |((roundHalfEven (q / 2 ^ (binade q - 52)) : ℚ) - q / 2 ^ (binade q - 52))
          * 2 ^ (binade q - 52)| := by
        congr 1
        rw [sub_mul, ← hq]
    _ = |(roundHalfEven (q / 2 ^ (binade q - 52)) : ℚ) - q / 2 ^ (binade q - 52)|
          * 2 ^ (binade q - 52) := by
        rw [abs_mul, abs_of_pos hu]
    _ ≤ 1 / 2 * 2 ^ (binade q - 52) := mul_le_mul_of_nonneg_right h (le_of_lt hu)
    _ = 2 ^ (binade q - 52) / 2 := by ring

/-- Rounding on a fixed grid is monotone. -/
theorem onGrid_mono (u : ℚ) (hu : 0 < u) {p q : ℚ} (h : p ≤ q) :
    (roundHalfEven (p / u) : ℚ) * u ≤ (roundHalfEven (q / u) : ℚ) * u := by
  have hdiv : p / u ≤ q / u := div_le_div_of_nonneg_right h (le_of_lt hu)
  have := roundHalfEven_mono hdiv
  exact mul_le_mul_of_nonneg_right (by exact_mod_cast this) (le_of_lt hu)

theorem onGrid_int (u : ℚ) (hu : 0 < u) (z : ℤ) :
    (roundHalfEven ((z : ℚ) * u / u) : ℚ) * u = z * u := by
  rw [mul_div_assoc, div_self (ne_of_gt hu), mul_one, roundHalfEven_intCast]

theorem grid_le_top (q : ℚ) : grid q ≤ 2 ^ (binade q + 1) := by
  have hu := spacing_pos q
  have hq : q ≤ (2 ^ 53 : ℤ) * 2 ^ (binade q - 52) := by
    have := abs_lt_binade q
    have h2 : ((2 ^ 53 : ℤ) : ℚ) * 2 ^ (binade q - 52) = 2 ^ (binade q + 1) := by
      rw [mul_comm]
      have := spacing_mul (binade q)
      push_cast
      rw [← this]
      norm_num
    rw [h2]
    exact le_of_lt (lt_of_le_of_lt (le_abs_self q) this)
  have := onGrid_mono _ hu hq
  rw [onGrid_int _ hu] at this
  have h2 : ((2 ^ 53 : ℤ) : ℚ) * 2 ^ (binade q - 52) = 2 ^ (binade q + 1) := by
    rw [mul_comm]
    have := spacing_mul (binade q)
    push_cast
    rw [← this]
    norm_num
  rw [h2] at this
  exact this

theorem grid_ge_bot (q : ℚ) : -(2 ^ (binade q + 1)) ≤ grid q := by
  have hu := spacing_pos q
  have h2 : ((-(2 ^ 53) : ℤ) : ℚ) * 2 ^ (binade q - 52) = -(2 ^ (binade q + 1)) := by
    have := spacing_mul (binade q)
    push_cast
    rw [← this]
    norm_num
    ring
  have hq : ((-(2 ^ 53) : ℤ) : ℚ) * 2 ^ (binade q - 52) ≤ q := by
    rw [h2]
    have := abs_lt_binade q
    have := neg_abs_le q
    linarith
  have := onGrid_mono _ hu hq
  rw [onGrid_int _ hu, h2] at this
  exact this

theorem grid_abs_le (q : ℚ) : |grid q| ≤ 2 ^ (binade q + 1) :=
  abs_le.mpr ⟨grid_ge_bot q, grid_le_top q⟩

theorem grid_ge_of_pos (q : ℚ) (h : 2 ^ binade q ≤ q) : 2 ^ binade q ≤ grid q := by
  have hu := spacing_pos q
  have h2 : ((2 ^ 52 : ℤ) : ℚ) * 2 ^ (binade q - 52) = 2 ^ binade q := by
    have := spacing_mul' (binade q)
    push_cast
    rw [← this]
    norm_num
    ring
  have hq' : ((2 ^ 52 : ℤ) : ℚ) * 2 ^ (binade q - 52) ≤ q := by rw [h2]; exact h
  have := onGrid_mono _ hu hq'
  rw [onGrid_int _ hu, h2] at this
  exact this

theorem grid_le_of_neg (q : ℚ) (h : 2 ^ binade q ≤ -q) : grid q ≤ -(2 ^ binade q) := by
  have hu := spacing_pos q
  have h2 : ((-(2 ^ 52) : ℤ) : ℚ) * 2 ^ (binade q - 52) = -(2 ^ binade q) := by
    have := spacing_mul' (binade q)
    push_cast
    rw [← this]
    norm_num
    ring
  have hq' : q ≤ ((-(2 ^ 52) : ℤ) : ℚ) * 2 ^ (binade q - 52) := by rw [h2]; linarith
  have := onGrid_mono _ hu hq'
  rw [onGrid_int _ hu, h2] at this
  exact this

theorem grid_zero : grid 0 = 0 := by
  unfold grid
  rw [zero_div, show ((0 : ℚ)) = ((0 : ℤ) : ℚ) by norm_num, roundHalfEven_intCast]
  simp

theorem grid_nonneg (q : ℚ) (hq : 0 ≤ q) : 0 ≤ grid q := by
  have hu := spacing_pos q
  have := onGrid_mono _ hu (show ((0 : ℤ) : ℚ) * 2 ^ (binade q - 52) ≤ q by simpa using hq)
  rw [onGrid_int _ hu] at this
  simpa using this

theorem grid_nonpos (q : ℚ) (hq : q ≤ 0) : grid q ≤ 0 := by
  have hu := spacing_pos q
  have := onGrid_mono _ hu (show q ≤ ((0 : ℤ) : ℚ) * 2 ^ (binade q - 52) by simpa using hq)
  rw [onGrid_int _ hu] at this
  simpa using this

/-- Rounding to the binary64 grid is monotone. -/
theorem grid_mono {p q : ℚ} (h : p ≤ q) : grid p ≤ grid q := by
  rcases lt_trichotomy (binade p) (binade q) with hb | hb | hb
  · -- `q` lies in a higher binade, so it is positive
    have hne : binade q ≠ -1022 := by have := binade_ge p; omega
    have hqabs := binade_le_abs_of_ne q hne
    have hpabs := abs_lt_binade p
    have hstep : (2 : ℚ) ^ (binade p + 1) ≤ 2 ^ binade q := two_zpow_le (by omega)
    have hqpos : 0 < q := by
      by_contra hneg
      push_neg at hneg
      have h1 : |q| = -q := abs_of_nonpos hneg
      have h2 : |p| = -p := abs_of_nonpos (le_trans h hneg)
      rw [h1] at hqabs
      rw [h2] at hpabs
      linarith
    rw [abs_of_pos hqpos] at hqabs
    calc grid p ≤ 2 ^ (binade p + 1) := grid_le_top p
      _ ≤ 2 ^ binade q := hstep
      _ ≤ grid q := grid_ge_of_pos q hqabs
  · unfold grid
    rw [hb]
    exact onGrid_mono _ (two_zpow_pos _) h
  · have hne : binade p ≠ -1022 := by have := binade_ge q; omega
    have hpabs := binade_le_abs_of_ne p hne
    have hqabs := abs_lt_binade q
    have hstep : (2 : ℚ) ^ (binade q + 1) ≤ 2 ^ binade p := two_zpow_le (by omega)
    have hpneg : p < 0 := by
      by_contra hpos
      push_neg at hpos
      have h1 : |p| = p := abs_of_nonneg hpos
      have h2 : |q| = q := abs_of_nonneg (le_trans hpos h)
      rw [h1] at hpabs
      rw [h2] at hqabs
      linarith
    rw [abs_of_neg hpneg] at hpabs
    calc grid p ≤ -(2 ^ binade p) := grid_le_of_neg p hpabs
      _ ≤ -(2 ^ (binade q + 1)) := by linarith
      _ ≤ grid q := grid_ge_bot q

/-- A rational within half a spacing of a multiple of the spacing of its
binade rounds to that multiple. -/
theorem grid_eval (q : ℚ) (e z : ℤ) (he : binade q = e)
    (hz : |q / 2 ^ (e - 52) - z| < 1 / 2) : grid q = z * 2 ^ (e - 52) := by
  unfold grid
  rw [he, roundHalfEven_of_near _ z hz]

/-- A multiple of the spacing of its own binade is not changed by rounding. -/
theorem grid_exact (q : ℚ) (z : ℤ) (hz : q = z * 2 ^ (binade q - 52)) : grid q = q := by
  have hu := spacing_pos q
  unfold grid
  have : q / 2 ^ (binade q - 52) = z := div_eq_of_eq_mul (ne_of_gt hu) hz
  rw [this, roundHalfEven_intCast]
  exact hz.symm

/-! ## Binary64 rounding -/

theorem round64_fin (q : ℚ) (h : |grid q| < 2 ^ 1024) : round64 q = .fin (grid q) := by
  unfold round64
  rw [if_neg (not_le.mpr h)]

theorem binade_le_of_lt (q : ℚ) (e : ℤ) (he : -1022 ≤ e) (h : |q| < 2 ^ (e + 1)) :
    binade q ≤ e := by
  by_cases hb : binade q = -1022
  · omega
  · have h1 := binade_le_abs_of_ne q hb
    have h2 : (2 : ℚ) ^ binade q < 2 ^ (e + 1) := lt_of_le_of_lt h1 h
    have := (zpow_lt_zpow_iff_right₀ (by norm_num : (1 : ℚ) < 2)).mp h2
    omega

theorem round64_of_lt (q : ℚ) (h : |q| < 2 ^ (1023 : ℤ)) : round64 q = .fin (grid q) := by
  apply round64_fin
  have hb := binade_le_of_lt q 1022 (by norm_num) (by simpa using h)
  have h1 := grid_abs_le q
  have h2 : (2 : ℚ) ^ (binade q + 1) ≤ 2 ^ (1023 : ℤ) := two_zpow_le (by omega)
  have h3 : (2 : ℚ) ^ (1023 : ℤ) < 2 ^ 1024 := by norm_num
  linarith

theorem round64_zero : round64 0 = .fin 0 := by
  rw [round64_of_lt 0 (by simp [two_zpow_pos]), grid_zero]

/-- A multiple of `2 ^ j` of magnitude below `2 ^ (j + 53)` is on the grid. -/
theorem grid_dyadic (m j : ℤ) (hj : -1074 ≤ j) (h : |(m : ℚ) * 2 ^ j| < 2 ^ (j + 53)) :
    grid ((m : ℚ) * 2 ^ j) = (m : ℚ) * 2 ^ j := by
  have hb : binade ((m : ℚ) * 2 ^ j) ≤ j + 52 :=
    binade_le_of_lt _ (j + 52) (by omega) (by
      have : j + 52 + 1 = j + 53 := by ring
      rw [this]; exact h)
  obtain ⟨k, hk⟩ : ∃ k : ℕ, (k : ℤ) = j - (binade ((m : ℚ) * 2 ^ j) - 52) :=
    ⟨(j - (binade ((m : ℚ) * 2 ^ j) - 52)).toNat, Int.toNat_of_nonneg (by omega)⟩
  apply grid_exact _ (m * 2 ^ k)
  have hj' : j = (k : ℤ) + (binade ((m : ℚ) * 2 ^ j) - 52) := by omega
  have hpow : (2 : ℚ) ^ j = 2 ^ (k : ℤ) * 2 ^ (binade ((m : ℚ) * 2 ^ j) - 52) := by
    rw [← zpow_add₀ (by norm_num)]
    congr 1
  push_cast
  rw [mul_assoc, ← zpow_natCast (2 : ℚ) k, ← hpow]

theorem round64_dyadic (m j : ℤ) (hj : -1074 ≤ j) (hj' : j ≤ 970)
    (h : |(m : ℚ) * 2 ^ j| < 2 ^ (j + 53)) :
    round64 ((m : ℚ) * 2 ^ j) = .fin ((m : ℚ) * 2 ^ j) := by
  have hlt : |(m : ℚ) * 2 ^ j| < 2 ^ (1023 : ℤ) :=
    lt_of_lt_of_le h (two_zpow_le (by omega))
  rw [round64_of_lt _ hlt, grid_dyadic m j hj h]

/-- Integers of magnitude below `2 ^ 53` are binary64 numbers. -/
theorem round64_intCast (z : ℤ) (h : |(z : ℚ)| < 2 ^ (53 : ℤ)) : round64 (z : ℚ) = .fin (z : ℚ) := by
  have := round64_dyadic z 0 (by norm_num) (by norm_num) (by simpa using h)
  simpa using this

theorem round64_natCast (n : ℕ) (h : n ≤ 2 ^ 53) : round64 (n : ℚ) = .fin (n : ℚ) := by
  rcases Nat.lt_or_ge n (2 ^ 53) with hlt | hge
  · have := round64_intCast (n : ℤ) (by
      rw [abs_of_nonneg (by positivity)]
      have : ((n : ℤ) : ℚ) = (n : ℚ) := by norm_cast
      rw [this]
      exact_mod_cast hlt)
    simpa using this
  · have hn : n = 2 ^ 53 := le_antisymm h hge
    subst hn
    have := round64_dyadic (2 ^ 52) 1 (by norm_num) (by norm_num) (by norm_num)
    norm_num at this ⊢
    exact this

theorem round64_one : round64 1 = .fin 1 := by
  have := round64_natCast 1 (by norm_num)
  simpa using this

/-! ## The order of numbers -/

theorem Num.le_refl_fin (a : ℚ) : Num.fin a ≤ Num.fin a := le_refl a

theorem Num.fin_le_pinf (a : ℚ) : Num.fin a ≤ Num.pinf := trivial

theorem Num.ninf_le_fin (a : ℚ) : Num.ninf ≤ Num.fin a := trivial

theorem Num.pinf_le_pinf : Num.pinf ≤ Num.pinf := trivial

theorem Num.ninf_le_ninf : Num.ninf ≤ Num.ninf := trivial

theorem Num.ninf_le_pinf : Num.ninf ≤ Num.pinf := trivial

theorem round64_cases (q : ℚ) :
    (round64 q = .fin (grid q) ∧ |grid q| < 2 ^ 1024) ∨
    (round64 q = .pinf ∧ 0 < q ∧ 2 ^ 1024 ≤ grid q) ∨
    (round64 q = .ninf ∧ q < 0 ∧ grid q ≤ -(2 ^ 1024)) := by
  unfold round64
  by_cases h : (2 : ℚ) ^ 1024 ≤ |grid q|
  · rw [if_pos h]
    right
    rcases lt_trichotomy q 0 with hq | hq | hq
    · right
      have hg := grid_nonpos q (le_of_lt hq)
      rw [abs_of_nonpos hg] at h
      refine ⟨by simp [Num.infOfSign, not_lt.mpr (le_of_lt hq)], hq, by linarith⟩
    · exfalso
      rw [hq, grid_zero, abs_zero] at h
      have : (0 : ℚ) < 2 ^ 1024 := by positivity
      linarith
    · left
      have hg := grid_nonneg q (le_of_lt hq)
      rw [abs_of_nonneg hg] at h
      exact ⟨by simp [Num.infOfSign, hq], hq, h⟩
  · rw [if_neg h]
    exact Or.inl ⟨rfl, not_le.mp h⟩

/-- Rounding to binary64 is monotone. -/
theorem round64_mono {p q : ℚ} (h : p ≤ q) : round64 p ≤ round64 q := by
  have hg := grid_mono h
  have hpow : (0 : ℚ) < 2 ^ 1024 := by positivity
  rcases round64_cases p with ⟨hp, hpb⟩ | ⟨hp, -, hpb⟩ | ⟨hp, -, hpb⟩ <;>
    rcases round64_cases q with ⟨hq, hqb⟩ | ⟨hq, -, hqb⟩ | ⟨hq, -, hqb⟩ <;> rw [hp, hq]
  · exact hg
  · trivial
  · exfalso
    rw [abs_lt] at hpb
    linarith
  · exfalso
    rw [abs_lt] at hqb
    linarith
  · trivial
  · exfalso; linarith
  · trivial
  · trivial
  · trivial

theorem round64_ne_nan (q : ℚ) : round64 q ≠ .nan := by
  rcases round64_cases q with ⟨h, -⟩ | ⟨h, -⟩ | ⟨h, -⟩ <;> rw [h] <;> simp

/-- The relative error of rounding a positive normal number is at most `2 ^ -53`. -/
theorem round64_rel (q : ℚ) (hlo : (2 : ℚ) ^ (-1022 : ℤ) ≤ q) (hhi : q < 2 ^ (1023 : ℤ)) :
    round64 q = .fin (grid q) ∧ q * (1 - 2 ^ (-53 : ℤ)) ≤ grid q ∧
      grid q ≤ q * (1 + 2 ^ (-53 : ℤ)) := by
  have hpos : 0 < q := lt_of_lt_of_le (two_zpow_pos _) hlo
  have habs : |q| = q := abs_of_pos hpos
  refine ⟨round64_of_lt q (by rw [habs]; exact hhi), ?_⟩
  have hb := binade_le_abs q (by rw [habs]; exact hlo)
  rw [habs] at hb
  have herr := grid_sub_le q
  have hhalf : (2 : ℚ) ^ (binade q - 52) / 2 = 2 ^ binade q * 2 ^ (-53 : ℤ) := by
    rw [← zpow_add₀ (by norm_num)]
    have : binade q + -53 = (binade q - 52) + (-1) := by ring
    rw [this, zpow_add₀ (by norm_num)]
    norm_num
    ring
  rw [hhalf, abs_le] at herr
  have hu : (0 : ℚ) < 2 ^ (-53 : ℤ) := two_zpow_pos _
  have hmul : (2 : ℚ) ^ binade q * 2 ^ (-53 : ℤ) ≤ q * 2 ^ (-53 : ℤ) :=
    mul_le_mul_of_nonneg_right hb (le_of_lt hu)
  constructor <;> nlinarith [herr.1, herr.2]

/-! ## The binary64 operations -/

theorem add64_fin (a b : ℚ) : add64 (.fin a) (.fin b) = round64 (a + b) := rfl

theorem sub64_fin (a b : ℚ) : sub64 (.fin a) (.fin b) = round64 (a - b) := by
  show Num.round (Num.fin a - Num.fin b) = _
  rw [Num.fin_sub]; rfl

theorem mul64_fin (a b : ℚ) : mul64 (.fin a) (.fin b) = round64 (a * b) := rfl

theorem div64_fin (a b : ℚ) (hb : b ≠ 0) : div64 (.fin a) (.fin b) = round64 (a / b) := by
  show Num.round (Num.fin a / Num.fin b) = _
  rw [Num.fin_div _ _ hb]; rfl

theorem Num.zero_eq : (0 : Num) = .fin 0 := by
  show Num.fin ((0 : ℕ) : ℚ) = _
  norm_num

theorem Num.one_eq : (1 : Num) = .fin 1 := by
  show Num.fin ((1 : ℕ) : ℚ) = _
  norm_num

theorem Num.le_not_nan {x y : Num} (h : x ≤ y) : x ≠ .nan ∧ y ≠ .nan := by
  constructor
  · intro hx; subst hx; cases y <;> exact h
  · intro hy; subst hy; cases x <;> exact h

theorem Num.le_refl' (x : Num) (hx : x ≠ .nan) : x ≤ x := by
  cases x with
  | fin q => exact le_refl q
  | pinf => trivial
  | ninf => trivial
  | nan => exact absurd rfl hx

theorem Num.le_trans' {x y z : Num} (h1 : x ≤ y) (h2 : y ≤ z) : x ≤ z := by
  cases x <;> cases y <;> cases z <;>
    first
      | exact le_trans (α := ℚ) h1 h2
      | trivial

theorem sub64_pinf (c : ℚ) : sub64 .pinf (.fin c) = .pinf := by
  simp [sub64, Num.round, HSub.hSub, Sub.sub, Num.sub, Num.add, Num.neg]

theorem sub64_ninf (c : ℚ) : sub64 .ninf (.fin c) = .ninf := by
  simp [sub64, Num.round, HSub.hSub, Sub.sub, Num.sub, Num.add, Num.neg]

theorem round64_le_pinf (q : ℚ) : round64 q ≤ Num.pinf := by
  rcases round64_cases q with ⟨hr, -⟩ | ⟨hr, -⟩ | ⟨hr, -⟩ <;> rw [hr] <;> trivial

theorem ninf_le_round64 (q : ℚ) : Num.ninf ≤ round64 q := by
  rcases round64_cases q with ⟨hr, -⟩ | ⟨hr, -⟩ | ⟨hr, -⟩ <;> rw [hr] <;> trivial

theorem sub64_mono_left (c : ℚ) {x y : Num} (h : x ≤ y) :
    sub64 x (.fin c) ≤ sub64 y (.fin c) := by
  cases x with
  | nan => exact absurd rfl (Num.le_not_nan h).1
  | ninf =>
    cases y with
    | nan => exact absurd h (fun h' => h')
    | ninf => rw [sub64_ninf]; trivial
    | pinf => rw [sub64_ninf, sub64_pinf]; trivial
    | fin q =>
      rw [sub64_ninf, sub64_fin]
      exact ninf_le_round64 _
  | pinf =>
    cases y with
    | nan => exact absurd h (fun h' => h')
    | ninf => exact absurd h (fun h' => h')
    | pinf => rw [sub64_pinf]; trivial
    | fin q => exact absurd h (fun h' => h')
  | fin p =>
    cases y with
    | nan => exact absurd h (fun h' => h')
    | ninf => exact absurd h (fun h' => h')
    | pinf =>
      rw [sub64_pinf, sub64_fin]
      exact round64_le_pinf _
    | fin q =>
      rw [sub64_fin, sub64_fin]
      exact round64_mono (by have : p ≤ q := h; linarith)

theorem div64_mono_left (d : ℚ) (hd : 0 < d) {x y : Num} (h : x ≤ y) :
    div64 x (.fin d) ≤ div64 y (.fin d) := by
  have hne : d ≠ 0 := ne_of_gt hd
  have hpinf : div64 .pinf (.fin d) = .pinf := by
    show Num.round (Num.div .pinf (.fin d)) = _
    simp [Num.div, le_of_lt hd, Num.round]
  have hninf : div64 .ninf (.fin d) = .ninf := by
    show Num.round (Num.div .ninf (.fin d)) = _
    simp [Num.div, le_of_lt hd, Num.round]
  cases x with
  | nan => exact absurd rfl (Num.le_not_nan h).1
  | ninf =>
    rw [hninf]
    cases y with
    | nan => exact absurd h (fun h' => h')
    | ninf => rw [hninf]; trivial
    | pinf => rw [hpinf]; trivial
    | fin q =>
      rw [div64_fin _ _ hne]
      rcases round64_cases (q / d) with ⟨hr, -⟩ | ⟨hr, -⟩ | ⟨hr, -⟩ <;> rw [hr] <;> trivial
  | pinf =>
    cases y with
    | nan => exact absurd h (fun h' => h')
    | ninf => exact absurd h (fun h' => h')
    | pinf => rw [hpinf]; trivial
    | fin q => exact absurd h (fun h' => h')
  | fin p =>
    cases y with
    | nan => exact absurd h (fun h' => h')
    | ninf => exact absurd h (fun h' => h')
    | pinf =>
      rw [hpinf, div64_fin _ _ hne]
      rcases round64_cases (p / d) with ⟨hr, -⟩ | ⟨hr, -⟩ | ⟨hr, -⟩ <;> rw [hr] <;> trivial
    | fin q =>
      rw [div64_fin _ _ hne, div64_fin _ _ hne]
      exact round64_mono (div_le_div_of_nonneg_right h (le_of_lt hd))

/-- The value of `clamp(y, 0, 1)` for a number that is not NaN. -/
theorem clamp_unit (y : Num) (hy : y ≠ .nan) :
    ∃ v : ℚ, clamp y 0 1 = .fin v ∧ 0 ≤ v ∧ v ≤ 1 ∧
      (∀ q, y = .fin q → v = min (max q 0) 1) ∧ (y = .pinf → v = 1) ∧ (y = .ninf → v = 0) := by
  rw [Num.zero_eq, Num.one_eq]
  cases y with
  | nan => exact absurd rfl hy
  | fin q =>
    refine ⟨min (max q 0) 1, clamp_fin q 0 1, le_min (le_max_right _ _) zero_le_one,
      min_le_right _ _, ?_, ?_, ?_⟩
    · intro q' hq'; injection hq' with hq'; rw [hq']
    · intro h; cases h
    · intro h; cases h
  | pinf =>
    refine ⟨1, by simp [clamp, Math.max, Math.min], zero_le_one, le_refl _, ?_, ?_, ?_⟩
    · intro q' hq'; cases hq'
    · intro _; rfl
    · intro h; cases h
  | ninf =>
    refine ⟨0, by simp [clamp, Math.max, Math.min], le_refl _, zero_le_one, ?_, ?_, ?_⟩
    · intro q' hq'; cases hq'
    · intro h; cases h
    · intro _; rfl

theorem clamp_unit_mono {y z : Num} (h : y ≤ z) : clamp y 0 1 ≤ clamp z 0 1 := by
  obtain ⟨hy, hz⟩ := Num.le_not_nan h
  obtain ⟨v, hv, hv0, hv1, hvq, hvp, hvn⟩ := clamp_unit y hy
  obtain ⟨w, hw, hw0, hw1, hwq, hwp, hwn⟩ := clamp_unit z hz
  rw [hv, hw]
  show v ≤ w
  cases y with
  | nan => exact absurd rfl hy
  | ninf => rw [hvn rfl]; exact hw0
  | pinf =>
    cases z with
    | pinf => rw [hvp rfl, hwp rfl]
    | nan => exact absurd rfl hz
    | ninf => exact absurd h (fun h' => h')
    | fin q => exact absurd h (fun h' => h')
  | fin p =>
    cases z with
    | pinf => rw [hwp rfl]; exact hv1
    | nan => exact absurd rfl hz
    | ninf => exact absurd h (fun h' => h')
    | fin q =>
      rw [hvq p rfl, hwq q rfl]
      have hpq : p ≤ q := h
      exact min_le_min (max_le_max hpq le_rfl) le_rfl

/-- A binary64 number is a multiple of the least subnormal `2 ^ -1074`. -/
theorem isDouble_multiple (q : ℚ) (h : isDouble q) : ∃ m : ℤ, q = m * 2 ^ (-1074 : ℤ) := by
  unfold isDouble at h
  have hg : grid q = q := by
    rcases round64_cases q with ⟨hr, -⟩ | ⟨hr, -⟩ | ⟨hr, -⟩
    · rw [hr] at h; injection h
    · rw [hr] at h; cases h
    · rw [hr] at h; cases h
  have hb := binade_ge q
  obtain ⟨k, hk⟩ : ∃ k : ℕ, (k : ℤ) = binade q - 52 + 1074 :=
    ⟨(binade q - 52 + 1074).toNat, Int.toNat_of_nonneg (by omega)⟩
  refine ⟨roundHalfEven (q / 2 ^ (binade q - 52)) * 2 ^ k, ?_⟩
  have hpow : (2 : ℚ) ^ (binade q - 52) = 2 ^ (k : ℤ) * 2 ^ (-1074 : ℤ) := by
    rw [← zpow_add₀ (by norm_num)]
    congr 1
    omega
  conv_lhs => rw [← hg]
  unfold grid
  rw [hpow]
  push_cast
  rw [zpow_natCast]
  ring

theorem round64_least : round64 (2 ^ (-1074 : ℤ)) = .fin (2 ^ (-1074 : ℤ)) := by
  have := round64_dyadic 1 (-1074) (by norm_num) (by norm_num) (by
    rw [Int.cast_one, one_mul, abs_of_pos (two_zpow_pos _)]
    exact zpow_lt_zpow_right₀ (by norm_num) (by norm_num))
  simpa using this

/-- The difference of two distinct binary64 numbers does not round to zero. -/
theorem round64_sub_pos (lo hi : ℚ) (h : lo < hi) (hlo : isDouble lo) (hhi : isDouble hi)
    (hfin : round64 (hi - lo) ≠ .pinf) :
    ∃ d : ℚ, 0 < d ∧ round64 (hi - lo) = .fin d := by
  obtain ⟨ml, hml⟩ := isDouble_multiple lo hlo
  obtain ⟨mh, hmh⟩ := isDouble_multiple hi hhi
  have hu : (0 : ℚ) < 2 ^ (-1074 : ℤ) := two_zpow_pos _
  have hm : ml < mh := by
    by_contra hcon
    push_neg at hcon
    have : (mh : ℚ) ≤ (ml : ℚ) := by exact_mod_cast hcon
    have := mul_le_mul_of_nonneg_right this (le_of_lt hu)
    rw [← hml, ← hmh] at this
    linarith
  have hge : (2 : ℚ) ^ (-1074 : ℤ) ≤ hi - lo := by
    have h1 : (1 : ℚ) ≤ (mh : ℚ) - (ml : ℚ) := by
      have : ml + 1 ≤ mh := hm
      have : ((ml + 1 : ℤ) : ℚ) ≤ (mh : ℚ) := by exact_mod_cast this
      push_cast at this
      linarith
    have := mul_le_mul_of_nonneg_right h1 (le_of_lt hu)
    rw [one_mul, sub_mul, ← hml, ← hmh] at this
    exact this
  have hmono := round64_mono hge
  rw [round64_least] at hmono
  rcases round64_cases (hi - lo) with ⟨hr, -⟩ | ⟨hr, -⟩ | ⟨hr, hneg, -⟩
  · rw [hr] at hmono
    exact ⟨grid (hi - lo), lt_of_lt_of_le hu hmono, hr⟩
  · exact absurd hr hfin
  · exfalso; linarith

/-- Evaluation of `round64` at a rational of a known binade: the result is the
multiple `z` of the spacing that is within half a spacing of it. -/
theorem round64_eval (q : ℚ) (e z : ℤ) (he : -1022 ≤ e) (he' : e ≤ 1022)
    (hlo : (2 : ℚ) ^ e ≤ |q|) (hhi : |q| < 2 ^ (e + 1))
    (hz : |q / 2 ^ (e - 52) - z| < 1 / 2) : round64 q = .fin (z * 2 ^ (e - 52)) := by
  have hb := binade_eq q e he hlo hhi
  rw [round64_of_lt q (lt_of_lt_of_le hhi (two_zpow_le (by omega))), grid_eval q e z hb hz]

theorem fl_30_22 : round64 ((30 : ℚ) / 22) = .fin (6141272219141585 / 2 ^ 52) := by
  have := round64_eval ((30 : ℚ) / 22) 0 6141272219141585 (by norm_num) (by norm_num)
    (by rw [abs_of_pos (by norm_num)]; norm_num)
    (by rw [abs_of_pos (by norm_num)]; norm_num)
    (by rw [abs_lt]; constructor <;> norm_num)
  rw [this]
  congr 1
  norm_num

theorem fl_11_30_22 :
    round64 (11 * (6141272219141585 / 2 ^ 52)) = .fin (8444249301319679 / 2 ^ 49) := by
  have := round64_eval (11 * (6141272219141585 / 2 ^ 52)) 3 8444249301319679 (by norm_num)
    (by norm_num)
    (by rw [abs_of_pos (by norm_num)]; norm_num)
    (by rw [abs_of_pos (by norm_num)]; norm_num)
    (by rw [abs_lt]; constructor <;> norm_num)
  rw [this]
  congr 1
  norm_num

/-! ## The pixel loops -/

theorem writePixel_length (img : List Nat) (i r g b a : Nat) :
    (writePixel img i r g b a).length = img.length := by
  simp [writePixel]

theorem writePixel_other (img : List Nat) (i r g b a j : Nat) (h : j < i ∨ i + 4 ≤ j) :
    (writePixel img i r g b a)[j]? = img[j]? := by
  unfold writePixel
  rw [List.getElem?_set_ne (by omega), List.getElem?_set_ne (by omega),
    List.getElem?_set_ne (by omega), List.getElem?_set_ne (by omega)]

theorem writePixel_self (img : List Nat) (i r g b a : Nat) (h : i + 4 ≤ img.length) :
    (writePixel img i r g b a)[i]? = some r ∧ (writePixel img i r g b a)[i + 1]? = some g ∧
    (writePixel img i r g b a)[i + 2]? = some b ∧ (writePixel img i r g b a)[i + 3]? = some a := by
  unfold writePixel
  refine ⟨?_, ?_, ?_, ?_⟩
  · rw [List.getElem?_set_ne (by omega), List.getElem?_set_ne (by omega),
      List.getElem?_set_ne (by omega), Nat.add_zero, List.getElem?_set_self (by omega)]
  · rw [List.getElem?_set_ne (by omega), List.getElem?_set_ne (by omega),
      List.getElem?_set_self (by simp; omega)]
  · rw [List.getElem?_set_ne (by omega), List.getElem?_set_self (by simp; omega)]
  · rw [List.getElem?_set_self (by simp; omega)]

/-- The inner loop over `x` writes the pixels `base .. base + n - 1` and
leaves every other byte as it was. -/
theorem innerLoop_spec (base : Nat) (r g b a : Nat → Nat) (n : Nat) (img : List Nat) :
    ((List.range n).foldl (fun img x =>
        writePixel img (base * 4 + x * 4) (r x) (g x) (b x) (a x)) img).length = img.length ∧
    (∀ j, j < base * 4 ∨ base * 4 + n * 4 ≤ j →
      ((List.range n).foldl (fun img x =>
        writePixel img (base * 4 + x * 4) (r x) (g x) (b x) (a x)) img)[j]? = img[j]?) ∧
    (base * 4 + n * 4 ≤ img.length → ∀ x, x < n →
      ((List.range n).foldl (fun img x =>
        writePixel img (base * 4 + x * 4) (r x) (g x) (b x) (a x)) img)[base * 4 + x * 4]?
          = some (r x) ∧
      ((List.range n).foldl (fun img x =>
        writePixel img (base * 4 + x * 4) (r x) (g x) (b x) (a x)) img)[base * 4 + x * 4 + 1]?
          = some (g x) ∧
      ((List.range n).foldl (fun img x =>
        writePixel img (base * 4 + x * 4) (r x) (g x) (b x) (a x)) img)[base * 4 + x * 4 + 2]?
          = some (b x) ∧
      ((List.range n).foldl (fun img x =>
        writePixel img (base * 4 + x * 4) (r x) (g x) (b x) (a x)) img)[base * 4 + x * 4 + 3]?
          = some (a x)) := by
  induction n with
  | zero => simp
  | succ n ih =>
    obtain ⟨ihlen, ihother, ihself⟩ := ih
    simp only [List.range_succ, List.foldl_append, List.foldl_cons, List.foldl_nil]
    refine ⟨?_, ?_, ?_⟩
    · rw [writePixel_length, ihlen]
    · intro j hj
      rw [writePixel_other _ _ _ _ _ _ _ (by omega)]
      exact ihother j (by omega)
    · intro hlen x hx
      by_cases hxn : x = n
      · subst hxn
        exact writePixel_self _ _ _ _ _ _ (by rw [ihlen]; omega)
      · have hx' : x < n := by omega
        obtain ⟨h0, h1, h2, h3⟩ := ihself (by omega) x hx'
        refine ⟨?_, ?_, ?_, ?_⟩
        · rw [writePixel_other _ _ _ _ _ _ _ (by omega)]; exact h0
        · rw [writePixel_other _ _ _ _ _ _ _ (by omega)]; exact h1
        · rw [writePixel_other _ _ _ _ _ _ _ (by omega)]; exact h2
        · rw [writePixel_other _ _ _ _ _ _ _ (by omega)]; exact h3

/-- The two nested loops write every pixel of the first `m` rows. -/
theorem outerLoop_spec (w : Nat) (r g b a : Nat → Nat → Nat) (m : Nat) (img : List Nat) :
    ((List.range m).foldl (fun img y => (List.range w).foldl (fun img x =>
        writePixel img (y * w * 4 + x * 4) (r y x) (g y x) (b y x) (a y x)) img) img).length
      = img.length ∧
    (∀ j, m * w * 4 ≤ j →
      ((List.range m).foldl (fun img y => (List.range w).foldl (fun img x =>
        writePixel img (y * w * 4 + x * 4) (r y x) (g y x) (b y x) (a y x)) img) img)[j]?
        = img[j]?) ∧
    (m * w * 4 ≤ img.length → ∀ y x, y < m → x < w →
      ((List.range m).foldl (fun img y => (List.range w).foldl (fun img x =>
        writePixel img (y * w * 4 + x * 4) (r y x) (g y x) (b y x) (a y x)) img) img)[
          y * w * 4 + x * 4]? = some (r y x) ∧
      ((List.range m).foldl (fun img y => (List.range w).foldl (fun img x =>
        writePixel img (y * w * 4 + x * 4) (r y x) (g y x) (b y x) (a y x)) img) img)[
          y * w * 4 + x * 4 + 1]? = some (g y x) ∧
      ((List.range m).foldl (fun img y => (List.range w).foldl (fun img x =>
        writePixel img (y * w * 4 + x * 4) (r y x) (g y x) (b y x) (a y x)) img) img)[
          y * w * 4 + x * 4 + 2]? = some (b y x) ∧
      ((List.range m).foldl (fun img y => (List.range w).foldl (fun img x =>
        writePixel img (y * w * 4 + x * 4) (r y x) (g y x) (b y x) (a y x)) img) img)[
          y * w * 4 + x * 4 + 3]? = some (a y x)) := by
  induction m with
  | zero => simp
  | succ m ih =>
    obtain ⟨ihlen, ihother, ihself⟩ := ih
    simp only [List.range_succ, List.foldl_append, List.foldl_cons, List.foldl_nil]
    have hrow := innerLoop_spec (m * w) (r m) (g m) (b m) (a m) w
      ((List.range m).foldl (fun img y => (List.range w).foldl (fun img x =>
        writePixel img (y * w * 4 + x * 4) (r y x) (g y x) (b y x) (a y x)) img) img)
    obtain ⟨hlen, hother, hself⟩ := hrow
    have hsucc : (m + 1) * w * 4 = m * w * 4 + w * 4 := by ring
    refine ⟨?_, ?_, ?_⟩
    · rw [hlen, ihlen]
    · intro j hj
      rw [hother j (by omega)]
      exact ihother j (by omega)
    · intro hle y x hy hx
      by_cases hym : y = m
      · subst hym
        exact hself (by rw [ihlen]; omega) x hx
      · have hy' : y < m := by omega
        have hrows : (y + 1) * w ≤ m * w := Nat.mul_le_mul_right w hy'
        have hyw : (y + 1) * w = y * w + w := by ring
        obtain ⟨h0, h1, h2, h3⟩ := ihself (by omega) y x hy' hx
        refine ⟨?_, ?_, ?_, ?_⟩
        · rw [hother _ (by omega)]; exact h0
        · rw [hother _ (by omega)]; exact h1
        · rw [hother _ (by omega)]; exact h2
        · rw [hother _ (by omega)]; exact h3

/-! ## Indices -/

theorem toIndex_natCast (n : Nat) : Num.toIndex (.fin (n : ℚ)) = some n := by
  simp [Num.toIndex]

theorem index_natCast {α : Type} (xs : List α) (n : Nat) : index xs (.fin (n : ℚ)) = xs[n]? := by
  simp [index, toIndex_natCast]

theorem index_nan {α : Type} (xs : List α) : index xs .nan = none := rfl

/-- The exact source index in closed form: row `⌊y * rh / oh⌋`, column
`⌊x * rw / ow⌋`, both computed by integer division. -/
theorem rgbIdxExact_eq (rw rh ow oh x y : Nat) (how : 0 < ow) (hoh : 0 < oh) :
    rgbIdxExact rw rh ow oh x y = .fin ((y * rh / oh * rw + x * rw / ow : ℕ) : ℚ) := by
  have how' : (ow : ℚ) ≠ 0 := by exact_mod_cast (Nat.pos_iff_ne_zero.mp how)
  have hoh' : (oh : ℚ) ≠ 0 := by exact_mod_cast (Nat.pos_iff_ne_zero.mp hoh)
  have hy : ⌊(y : ℚ) * ((rh : ℚ) / (oh : ℚ))⌋ = ((y * rh / oh : ℕ) : ℤ) := by
    rw [← mul_div_assoc]
    have := Rat.floor_natCast_div_natCast (y * rh) oh
    push_cast at this ⊢
    exact this
  have hx : ⌊(x : ℚ) * ((rw : ℚ) / (ow : ℚ))⌋ = ((x * rw / ow : ℕ) : ℤ) := by
    rw [← mul_div_assoc]
    have := Rat.floor_natCast_div_natCast (x * rw) ow
    push_cast at this ⊢
    exact this
  simp only [rgbIdxExact, Num.ofNat_eq, Num.fin_div _ _ how', Num.fin_div _ _ hoh', Num.fin_mul,
    floor_fin, Num.fin_add, hy, hx]
  push_cast
  rfl

theorem div_scale_lt (a n m : Nat) (h : a < m) (hn : 0 < n) : a * n / m < n := by
  have hm : 0 < m := by omega
  rw [Nat.div_lt_iff_lt_mul hm]
  calc a * n < m * n := Nat.mul_lt_mul_of_pos_right h hn
    _ = n * m := Nat.mul_comm m n

theorem cell_lt (row col w h : Nat) (hr : row < h) (hc : col < w) : row * w + col < w * h := by
  calc row * w + col < row * w + w := by omega
    _ = (row + 1) * w := by ring
    _ ≤ h * w := Nat.mul_le_mul_right w hr
    _ = w * h := Nat.mul_comm h w

/-! ## `renderRGB` -/

/-- When the canvas is not empty and the bands exist, `renderRGB` returns the
canvas painted by the pixel loops. -/
theorem renderRGB_ok (rgb : Raster) (red green blue : List Num)
    (h0 : rgb.rasters[0]? = some red) (h1 : rgb.rasters[1]? = some green)
    (h2 : rgb.rasters[2]? = some blue) :
    (0 < rgb.width → 0 < rgb.height →
      renderRGB rgb none = .ok ⟨rgb.width, rgb.height,
        renderLoop rgb.width rgb.height rgb.width rgb.height red green blue none
          (List.replicate (rgb.width * rgb.height * 4) 0)⟩) ∧
    (∀ (m : Raster) (a : List Num), m.rasters[0]? = some a → 0 < m.width → 0 < m.height →
      renderRGB rgb (some m) = .ok ⟨m.width, m.height,
        renderLoop rgb.width rgb.height m.width m.height red green blue (some a)
          (List.replicate (m.width * m.height * 4) 0)⟩) := by
  constructor
  · intro hw hh
    have : ¬ (rgb.width = 0 ∨ rgb.height = 0) := by omega
    simp [renderRGB, band, h0, h1, h2, this]
  · intro m a ha hw hh
    have : ¬ (m.width = 0 ∨ m.height = 0) := by omega
    simp [renderRGB, band, h0, h1, h2, ha, this, Except.map]

/-- The bytes of the pixel `(x, y)` after the loops of `renderRGB`. -/
theorem renderLoop_pixel (rw rh w h : Nat) (red green blue : List Num)
    (alpha : Option (List Num)) (x y : Nat) (hx : x < w) (hy : y < h) :
    (renderLoop rw rh w h red green blue alpha (List.replicate (w * h * 4) 0)).length
      = w * h * 4 ∧
    (renderLoop rw rh w h red green blue alpha (List.replicate (w * h * 4) 0))[
        (y * w + x) * 4]? = some (toUint8Clamp (toNumber (index red (rgbIdxExact rw rh w h x y)))) ∧
    (renderLoop rw rh w h red green blue alpha (List.replicate (w * h * 4) 0))[
        (y * w + x) * 4 + 1]?
      = some (toUint8Clamp (toNumber (index green (rgbIdxExact rw rh w h x y)))) ∧
    (renderLoop rw rh w h red green blue alpha (List.replicate (w * h * 4) 0))[
        (y * w + x) * 4 + 2]?
      = some (toUint8Clamp (toNumber (index blue (rgbIdxExact rw rh w h x y)))) ∧
    (renderLoop rw rh w h red green blue alpha (List.replicate (w * h * 4) 0))[
        (y * w + x) * 4 + 3]?
      = some (match alpha with
          | some m => toUint8Clamp (mul64 (toNumber m[y * w + x]?) 255)
          | none => 255) := by
  have hspec := outerLoop_spec w
    (fun y x => toUint8Clamp (toNumber (index red (rgbIdxExact rw rh w h x y))))
    (fun y x => toUint8Clamp (toNumber (index green (rgbIdxExact rw rh w h x y))))
    (fun y x => toUint8Clamp (toNumber (index blue (rgbIdxExact rw rh w h x y))))
    (fun y x => match alpha with
      | some m => toUint8Clamp (mul64 (toNumber m[y * w + x]?) 255)
      | none => 255)
    h (List.replicate (w * h * 4) 0)
  obtain ⟨hlen, -, hself⟩ := hspec
  have hsize : h * w * 4 ≤ (List.replicate (w * h * 4) 0).length := by
    rw [List.length_replicate, Nat.mul_comm h w]
  have hidx : (y * w + x) * 4 = y * w * 4 + x * 4 := by ring
  obtain ⟨p0, p1, p2, p3⟩ := hself hsize y x hy hx
  rw [hidx]
  refine ⟨?_, p0, p1, p2, p3⟩
  exact hlen.trans (List.length_replicate _ _)

theorem toUint8Clamp_natCast (n : Nat) (h : n ≤ 255) : toUint8Clamp (.fin (n : ℚ)) = n := by
  unfold toUint8Clamp
  by_cases h0 : n = 0
  · subst h0; simp
  · have hpos : ¬ ((n : ℚ) ≤ 0) := by
      push_neg; exact_mod_cast Nat.pos_of_ne_zero h0
    by_cases h255 : n = 255
    · subst h255; simp
    · have hlt : ¬ ((255 : ℚ) ≤ (n : ℚ)) := by
        push_neg
        have : n < 255 := by omega
        exact_mod_cast this
      simp [hpos, hlt]

theorem collect_single {α : Type} (a : α) : collect [(.ok a : Except JSError α)] = .ok [a] := rfl

/-- C1. For an RGB raster (three bands) and an optional mask (with its band),
all of positive dimensions, `renderRGB` returns a canvas whose width and
height are the mask's when a mask is given and the raster's otherwise; its
buffer holds four bytes for every pixel, and without a mask the alpha byte of
every pixel is 255. -/
theorem renderRGB_dimensions (rgb : Raster) (mask : Option Raster)
    (hbands : 3 ≤ rgb.rasters.length) (hw : 0 < rgb.width) (hh : 0 < rgb.height)
    (hmask : ∀ m, mask = some m → 0 < m.width ∧ 0 < m.height ∧ 0 < m.rasters.length) :
    ∃ c, renderRGB rgb mask = .ok c ∧
      c.width = (match mask with
        | some m => m.width
        | none => rgb.width) ∧
      c.height = (match mask with
        | some m => m.height
        | none => rgb.height) ∧
      c.data.length = c.width * c.height * 4 ∧
      (mask = none → ∀ x y, x < c.width → y < c.height →
        c.data[(y * c.width + x) * 4 + 3]? = some 255) := by
  have h0 : rgb.rasters[0]? = some (rgb.rasters[0]) := List.getElem?_eq_getElem (by omega)
  have h1 : rgb.rasters[1]? = some (rgb.rasters[1]) := List.getElem?_eq_getElem (by omega)
  have h2 : rgb.rasters[2]? = some (rgb.rasters[2]) := List.getElem?_eq_getElem (by omega)
  obtain ⟨hnone, hsome⟩ := renderRGB_ok rgb _ _ _ h0 h1 h2
  cases mask with
  | none =>
    refine ⟨_, hnone hw hh, rfl, rfl, ?_, ?_⟩
    · exact (renderLoop_pixel rgb.width rgb.height rgb.width rgb.height _ _ _ none 0 0 hw hh).1
    · intro _ x y hx hy
      exact (renderLoop_pixel rgb.width rgb.height rgb.width rgb.height _ _ _ none
        x y hx hy).2.2.2.2
  | some m =>
    obtain ⟨hmw, hmh, hmb⟩ := hmask m rfl
    have ha : m.rasters[0]? = some (m.rasters[0]) := List.getElem?_eq_getElem (by omega)
    refine ⟨_, hsome m _ ha hmw hmh, rfl, rfl, ?_, ?_⟩
    · dsimp only
      exact (renderLoop_pixel rgb.width rgb.height m.width m.height _ _ _ _ 0 0 hmw hmh).1
    · intro h; cases h

theorem renderRGB_dimensions_witness :
    ∃ c, renderRGB ⟨2, 1, [[.fin 1, .fin 2], [.fin 3, .fin 4], [.fin 5, .fin 6]],
        ⟨.fin 1, .fin 0, .fin 1, .fin 0⟩⟩ none = .ok c ∧
      c.width = 2 ∧ c.height = 1 ∧ c.data.length = 8 ∧ c.data[7]? = some 255 := by
  obtain ⟨c, hc, hw, hh, hlen, ha⟩ := renderRGB_dimensions
    ⟨2, 1, [[.fin 1, .fin 2], [.fin 3, .fin 4], [.fin 5, .fin 6]],
      ⟨.fin 1, .fin 0, .fin 1, .fin 0⟩⟩ none (by decide) (by decide) (by decide)
    (by intro m h; cases h)
  simp only at hw hh
  refine ⟨c, hc, hw, hh, ?_, ?_⟩
  · rw [hlen, hw, hh]
  · have := ha rfl 1 0 (by omega) (by omega)
    rw [hw] at this
    exact this

theorem rgbIdxExact_same_size (w h x y : Nat) (hx : x < w) (hy : y < h) :
    rgbIdxExact w h w h x y = .fin ((y * w + x : ℕ) : ℚ) := by
  rw [rgbIdxExact_eq w h w h x y (by omega) (by omega),
    Nat.mul_div_cancel y (by omega : 0 < h), Nat.mul_div_cancel x (by omega : 0 < w)]

theorem toUint8Clamp_mask (a : Num) (h : a = .fin 0 ∨ a = .fin 1) :
    ∃ n : ℕ, a = .fin n ∧ toUint8Clamp (mul64 (toNumber (some a)) 255) = 255 * n := by
  have h255 : (255 : Num) = .fin ((255 : ℕ) : ℚ) := rfl
  rcases h with h | h
  · refine ⟨0, by rw [h]; norm_num, ?_⟩
    subst h
    have hz : mul64 (toNumber (some (Num.fin 0))) 255 = .fin 0 := by
      show Num.round (Num.fin 0 * 255) = _
      rw [h255, Num.fin_mul, zero_mul]
      exact round64_zero
    rw [hz]
    simp [toUint8Clamp]
  · refine ⟨1, by rw [h]; norm_num, ?_⟩
    subst h
    have hz : mul64 (toNumber (some (Num.fin 1))) 255 = .fin ((255 : ℕ) : ℚ) := by
      show Num.round (Num.fin 1 * 255) = _
      rw [h255, Num.fin_mul, one_mul]
      exact round64_natCast 255 (by norm_num)
    rw [hz, toUint8Clamp_natCast 255 (le_refl _)]

/-- C2 (amended). For a three-band raster and a mask of the same size `w × h`,
with band samples integers in `[0, 255]` and mask samples in `{0, 1}`, the rgb
layer's render returns exactly one canvas, `renderRGB(data, mask)` when
`showRoofOnly` is set and `renderRGB(data, undefined)` otherwise. It is `w × h`,
its R, G, B bytes at every pixel are the samples of the three bands at
`y * w + x`, and its alpha byte is `255 * mask.rasters[0][y * w + x]` when
`showRoofOnly` is set and `255` otherwise. -/
theorem rgbLayer_render_pixels (layerId : String) (data mask : Raster) (w h : Nat)
    (red green blue alpha : List Num) (month day : Num) (showRoofOnly : Bool)
    (hw : 0 < w) (hh : 0 < h)
    (hdata : data.width = w ∧ data.height = h ∧ data.rasters = [red, green, blue])
    (hmask : mask.width = w ∧ mask.height = h ∧ mask.rasters[0]? = some alpha)
    (hlen : red.length = w * h ∧ green.length = w * h ∧ blue.length = w * h ∧
      alpha.length = w * h)
    (hbytes : ∀ v, v ∈ red ∨ v ∈ green ∨ v ∈ blue → ∃ n : ℕ, n ≤ 255 ∧ v = .fin n)
    (hbits : ∀ v ∈ alpha, v = .fin 0 ∨ v = .fin 1) :
    ∃ c, (rgbLayer layerId mask data).render showRoofOnly month day = .ok [c] ∧
      renderRGB data (if showRoofOnly then some mask else none) = .ok c ∧
      c.width = w ∧ c.height = h ∧
      ∀ x y, x < w → y < h → ∃ r g b a : ℕ,
        red[y * w + x]? = some (.fin r) ∧ green[y * w + x]? = some (.fin g) ∧
        blue[y * w + x]? = some (.fin b) ∧ alpha[y * w + x]? = some (.fin a) ∧
        c.data[(y * w + x) * 4]? = some r ∧ c.data[(y * w + x) * 4 + 1]? = some g ∧
        c.data[(y * w + x) * 4 + 2]? = some b ∧
        c.data[(y * w + x) * 4 + 3]? = some (if showRoofOnly then 255 * a else 255) := by
  obtain ⟨hdw, hdh, hdr⟩ := hdata
  obtain ⟨hmw, hmh, hmr⟩ := hmask
  obtain ⟨hlr, hlg, hlb, hla⟩ := hlen
  have h0 : data.rasters[0]? = some red := by rw [hdr]; rfl
  have h1 : data.rasters[1]? = some green := by rw [hdr]; rfl
  have h2 : data.rasters[2]? = some blue := by rw [hdr]; rfl
  obtain ⟨hnone, hsome⟩ := renderRGB_ok data red green blue h0 h1 h2
  have hrender : ∃ c, renderRGB data (if showRoofOnly then some mask else none) = .ok c ∧
      c.width = w ∧ c.height = h ∧
      c.data = renderLoop w h w h red green blue (if showRoofOnly then some alpha else none)
        (List.replicate (w * h * 4) 0) := by
    cases showRoofOnly with
    | true =>
      have := hsome mask alpha hmr (by omega) (by omega)
      rw [hmw, hmh, hdw, hdh] at this
      exact ⟨_, this, rfl, rfl, rfl⟩
    | false =>
      have := hnone (by omega) (by omega)
      rw [hdw, hdh] at this
      exact ⟨_, this, rfl, rfl, rfl⟩
  obtain ⟨c, hc, hcw, hch, hcd⟩ := hrender
  refine ⟨c, ?_, hc, hcw, hch, ?_⟩
  · show collect [renderRGB data (if showRoofOnly then some mask else none)] = _
    rw [hc]; rfl
  · intro x y hx hy
    have hcell : y * w + x < w * h := cell_lt y x w h hy hx
    obtain ⟨-, p0, p1, p2, p3⟩ := renderLoop_pixel w h w h red green blue
      (if showRoofOnly then some alpha else none) x y hx hy
    rw [rgbIdxExact_same_size w h x y hx hy, index_natCast] at p0 p1 p2
    have hr : red[y * w + x]? = some red[y * w + x] := List.getElem?_eq_getElem (by omega)
    have hg : green[y * w + x]? = some green[y * w + x] := List.getElem?_eq_getElem (by omega)
    have hb : blue[y * w + x]? = some blue[y * w + x] := List.getElem?_eq_getElem (by omega)
    have ha : alpha[y * w + x]? = some alpha[y * w + x] := List.getElem?_eq_getElem (by omega)
    obtain ⟨r, hr255, hrv⟩ := hbytes _ (Or.inl (List.getElem_mem (by omega : y * w + x < red.length)))
    obtain ⟨g, hg255, hgv⟩ := hbytes _
      (Or.inr (Or.inl (List.getElem_mem (by omega : y * w + x < green.length))))
    obtain ⟨b, hb255, hbv⟩ := hbytes _
      (Or.inr (Or.inr (List.getElem_mem (by omega : y * w + x < blue.length))))
    obtain ⟨a, hav, haclamp⟩ := toUint8Clamp_mask _
      (hbits _ (List.getElem_mem (by omega : y * w + x < alpha.length)))
    rw [hr, hrv] at p0
    rw [hg, hgv] at p1
    rw [hb, hbv] at p2
    refine ⟨r, g, b, a, by rw [hr, hrv], by rw [hg, hgv], by rw [hb, hbv], by rw [ha, hav], ?_, ?_,
      ?_, ?_⟩
    · rw [hcd, p0]; simp [toNumber, toUint8Clamp_natCast r hr255]
    · rw [hcd, p1]; simp [toNumber, toUint8Clamp_natCast g hg255]
    · rw [hcd, p2]; simp [toNumber, toUint8Clamp_natCast b hb255]
    · rw [hcd, p3]
      cases showRoofOnly with
      | true => simp only [if_true]; rw [ha, haclamp]
      | false => simp

theorem rgbLayer_render_pixels_witness :
    ∃ c, (rgbLayer "rgb"
        ⟨2, 2, [[.fin 1, .fin 1, .fin 1, .fin 1]], ⟨.fin 1, .fin 0, .fin 1, .fin 0⟩⟩
        ⟨2, 2, [[.fin 1, .fin 2, .fin 3, .fin 4], [.fin 5, .fin 6, .fin 7, .fin 8],
          [.fin 9, .fin 10, .fin 11, .fin 12]], ⟨.fin 1, .fin 0, .fin 1, .fin 0⟩⟩).render
          true 0 0 = .ok [c] ∧ c.width = 2 ∧ c.height = 2 := by
  obtain ⟨c, hc, -, hw, hh, -⟩ := rgbLayer_render_pixels "rgb"
    ⟨2, 2, [[.fin 1, .fin 2, .fin 3, .fin 4], [.fin 5, .fin 6, .fin 7, .fin 8],
      [.fin 9, .fin 10, .fin 11, .fin 12]], ⟨.fin 1, .fin 0, .fin 1, .fin 0⟩⟩
    ⟨2, 2, [[.fin 1, .fin 1, .fin 1, .fin 1]], ⟨.fin 1, .fin 0, .fin 1, .fin 0⟩⟩
    2 2 [.fin 1, .fin 2, .fin 3, .fin 4] [.fin 5, .fin 6, .fin 7, .fin 8]
    [.fin 9, .fin 10, .fin 11, .fin 12] [.fin 1, .fin 1, .fin 1, .fin 1] 0 0 true
    (by decide) (by decide) ⟨rfl, rfl, rfl⟩ ⟨rfl, rfl, rfl⟩ ⟨rfl, rfl, rfl, rfl⟩
    (by
      intro v hv
      simp only [List.mem_cons, List.mem_singleton, List.not_mem_nil, or_false] at hv
      rcases hv with (h | h | h | h) | (h | h | h | h) | (h | h | h | h)
      · exact ⟨1, by decide, by rw [h]; norm_num⟩
      · exact ⟨2, by decide, by rw [h]; norm_num⟩
      · exact ⟨3, by decide, by rw [h]; norm_num⟩
      · exact ⟨4, by decide, by rw [h]; norm_num⟩
      · exact ⟨5, by decide, by rw [h]; norm_num⟩
      · exact ⟨6, by decide, by rw [h]; norm_num⟩
      · exact ⟨7, by decide, by rw [h]; norm_num⟩
      · exact ⟨8, by decide, by rw [h]; norm_num⟩
      · exact ⟨9, by decide, by rw [h]; norm_num⟩
      · exact ⟨10, by decide, by rw [h]; norm_num⟩
      · exact ⟨11, by decide, by rw [h]; norm_num⟩
      · exact ⟨12, by decide, by rw [h]; norm_num⟩)
    (by
      intro v hv
      simp only [List.mem_cons, List.mem_singleton, List.not_mem_nil, or_false, or_self] at hv
      exact Or.inr hv)
  exact ⟨c, hc, hw, hh⟩

/-- C2, as stated, fails when `showRoofOnly` is off: for a `1 × 1` raster whose
mask sample is 0 the rgb layer renders one canvas whose alpha byte is 255, not
`255 * 0`. -/
theorem rgbLayer_render_unmasked_alpha :
    ∃ c, (rgbLayer "rgb" ⟨1, 1, [[.fin 0]], ⟨.fin 1, .fin 0, .fin 1, .fin 0⟩⟩
        ⟨1, 1, [[.fin 10], [.fin 20], [.fin 30]], ⟨.fin 1, .fin 0, .fin 1, .fin 0⟩⟩).render
          false 0 0 = .ok [c] ∧
      c.data[3]? = some 255 ∧ c.data[3]? ≠ some (255 * 0) := by
  obtain ⟨hnone, -⟩ := renderRGB_ok
    ⟨1, 1, [[.fin 10], [.fin 20], [.fin 30]], ⟨.fin 1, .fin 0, .fin 1, .fin 0⟩⟩
    [.fin 10] [.fin 20] [.fin 30] rfl rfl rfl
  have hc := hnone (by decide) (by decide)
  have hpix := (renderLoop_pixel 1 1 1 1 [.fin 10] [.fin 20] [.fin 30] none 0 0
    (by decide) (by decide)).2.2.2.2
  have hpix3 : (renderLoop 1 1 1 1 [.fin 10] [.fin 20] [.fin 30] none
      (List.replicate (1 * 1 * 4) 0))[3]? = some 255 := hpix
  refine ⟨⟨1, 1, renderLoop 1 1 1 1 [.fin 10] [.fin 20] [.fin 30] none
    (List.replicate (1 * 1 * 4) 0)⟩, ?_, hpix3, ?_⟩
  · show collect [renderRGB _ none] = _
    rw [hc]; rfl
  · rw [hpix3]; decide

/-! ## `normalize` -/

theorem normalize_eq (x hi lo : Num) :
    normalize x hi lo = clamp (div64 (sub64 x lo) (sub64 hi lo)) 0 1 := rfl

theorem clamp_zero : clamp (.fin 0) 0 1 = .fin 0 := by
  rw [Num.zero_eq, Num.one_eq, clamp_fin]; norm_num

theorem clamp_one : clamp (.fin 1) 0 1 = .fin 1 := by
  rw [Num.zero_eq, Num.one_eq, clamp_fin]; norm_num

theorem sub64_not_nan (x : Num) (c : ℚ) (hx : x ≠ .nan) : sub64 x (.fin c) ≠ .nan := by
  cases x with
  | nan => exact absurd rfl hx
  | fin q => rw [sub64_fin]; exact round64_ne_nan _
  | pinf => rw [sub64_pinf]; simp
  | ninf => rw [sub64_ninf]; simp

theorem div64_not_nan (x : Num) (d : ℚ) (hd : 0 < d) (hx : x ≠ .nan) :
    div64 x (.fin d) ≠ .nan := by
  cases x with
  | nan => exact absurd rfl hx
  | fin q => rw [div64_fin _ _ (ne_of_gt hd)]; exact round64_ne_nan _
  | pinf =>
    have : div64 .pinf (.fin d) = .pinf := by
      show Num.round (Num.div .pinf (.fin d)) = _
      simp [Num.div, le_of_lt hd, Num.round]
    rw [this]; simp
  | ninf =>
    have : div64 .ninf (.fin d) = .ninf := by
      show Num.round (Num.div .ninf (.fin d)) = _
      simp [Num.div, le_of_lt hd, Num.round]
    rw [this]; simp

/-- The binary64 number `2 ^ 1023`, and the overflow of `2 ^ 1023 - (-(2 ^ 1023))`. -/
theorem round64_two_pow_1024 : round64 (2 ^ (1023 : ℤ) - -(2 ^ (1023 : ℤ))) = .pinf := by
  have hq : (2 : ℚ) ^ (1023 : ℤ) - -(2 ^ (1023 : ℤ)) = 2 ^ (1024 : ℤ) := by
    rw [show (1024 : ℤ) = 1023 + 1 by norm_num, two_zpow_succ]; ring
  rw [hq]
  have hpos : (0 : ℚ) < 2 ^ (1024 : ℤ) := two_zpow_pos _
  have hb : binade ((2 : ℚ) ^ (1024 : ℤ)) = 1024 :=
    binade_eq _ 1024 (by norm_num) (by rw [abs_of_pos hpos])
      (by rw [abs_of_pos hpos]; exact zpow_lt_zpow_right₀ (by norm_num) (by norm_num))
  have hg : (2 : ℚ) ^ (1024 : ℤ) ≤ grid (2 ^ (1024 : ℤ)) := by
    have := grid_ge_of_pos ((2 : ℚ) ^ (1024 : ℤ)) (by rw [hb])
    rwa [hb] at this
  unfold round64
  rw [if_pos (by
    rw [abs_of_pos (lt_of_lt_of_le hpos hg)]
    have : ((2 : ℚ) ^ (1024 : ℕ)) = 2 ^ (1024 : ℤ) := (zpow_natCast 2 1024).symm
    rw [this]; exact hg)]
  simp [Num.infOfSign, hpos]

/-- C4 (amended). For a range of binary64 numbers `min < max` whose width
`max - min` does not overflow, `normalize(x, max, min)` is the binary64
quotient `(x - min) / (max - min)` clamped to `[0, 1]`: it is NaN for a NaN
`x`, it is `0` at `min` and `1` at `max`, it lies in `[0, 1]` for every `x`
that is not NaN (the infinities included) and it is monotonic non-decreasing
in `x`. -/
theorem normalize_clamped_monotone (lo hi : ℚ) (h : lo < hi) (hlo : isDouble lo)
    (hhi : isDouble hi) (hfin : round64 (hi - lo) ≠ .pinf) :
    (∀ x : Num, normalize x (.fin hi) (.fin lo)
      = clamp (div64 (sub64 x (.fin lo)) (sub64 (.fin hi) (.fin lo))) 0 1) ∧
    normalize .nan (.fin hi) (.fin lo) = .nan ∧
    normalize (.fin lo) (.fin hi) (.fin lo) = .fin 0 ∧
    normalize (.fin hi) (.fin hi) (.fin lo) = .fin 1 ∧
    (∀ x : Num, x ≠ .nan →
      Num.fin 0 ≤ normalize x (.fin hi) (.fin lo) ∧
      normalize x (.fin hi) (.fin lo) ≤ Num.fin 1) ∧
    (∀ x y : Num, x ≤ y →
      normalize x (.fin hi) (.fin lo) ≤ normalize y (.fin hi) (.fin lo)) := by
  obtain ⟨d, hd, hdeq⟩ := round64_sub_pos lo hi h hlo hhi hfin
  have hden : sub64 (.fin hi) (.fin lo) = .fin d := by rw [sub64_fin, hdeq]
  refine ⟨fun x => rfl, ?_, ?_, ?_, ?_, ?_⟩
  · rw [normalize_eq, hden]
    have : div64 (sub64 .nan (.fin lo)) (.fin d) = .nan := rfl
    rw [this]; rfl
  · rw [normalize_eq, hden, sub64_fin, sub_self, round64_zero, div64_fin _ _ (ne_of_gt hd),
      zero_div, round64_zero]
    exact clamp_zero
  · rw [normalize_eq, hden, div64_fin _ _ (ne_of_gt hd), div_self (ne_of_gt hd), round64_one]
    exact clamp_one
  · intro x hx
    rw [normalize_eq, hden]
    obtain ⟨v, hv, hv0, hv1, -⟩ := clamp_unit _ (div64_not_nan _ d hd (sub64_not_nan x lo hx))
    rw [hv]
    exact ⟨hv0, hv1⟩
  · intro x y hxy
    rw [normalize_eq, normalize_eq, hden]
    exact clamp_unit_mono (div64_mono_left d hd (sub64_mono_left lo hxy))

theorem normalize_clamped_monotone_witness :
    (0 : ℚ) < 1800 ∧ isDouble 0 ∧ isDouble 1800 ∧
      normalize (.fin 0) (.fin 1800) (.fin 0) = .fin 0 ∧
      normalize (.fin 1800) (.fin 1800) (.fin 0) = .fin 1 := by
  have h0 : isDouble 0 := round64_zero
  have h1800 : isDouble 1800 := by
    have := round64_natCast 1800 (by norm_num)
    unfold isDouble
    exact_mod_cast this
  have h := normalize_clamped_monotone 0 1800 (by norm_num) h0 h1800 (by
    rw [sub_zero, h1800]; simp)
  exact ⟨by norm_num, h0, h1800, h.2.2.1, h.2.2.2.1⟩

/-- C4, as stated, fails for some `x` and some ranges with `min < max`:
`normalize(NaN, 10, 0)` is NaN, not a value in `[0, 1]`; and for the binary64
range `min = -(2 ^ 1023)`, `max = 2 ^ 1023` both differences at `x = max`
overflow to `Infinity`, so the result is NaN instead of `1`. -/
theorem normalize_nan_results :
    normalize .nan (.fin 10) (.fin 0) = .nan ∧
    -(2 ^ (1023 : ℤ)) < (2 : ℚ) ^ (1023 : ℤ) ∧
    normalize (.fin (2 ^ (1023 : ℤ))) (.fin (2 ^ (1023 : ℤ))) (.fin (-(2 ^ (1023 : ℤ))))
      = .nan := by
  refine ⟨rfl, ?_, ?_⟩
  · have := two_zpow_pos 1023
    linarith
  · rw [normalize_eq, sub64_fin, round64_two_pow_1024]
    rfl

/-! ## The source index of `renderRGB` in binary64 -/

/-- The rounding errors of `x * (n / d)` for `1 ≤ x < d`: with `s` the rounded
quotient and relative error `ε ≤ 1 / (4 * d)`, the product `p = x * s` is at
least `n * 2 * ε`, at most `2 * n`, and a `t` within relative error `ε` above
`p` is below `n`. -/
theorem scaled_bounds (n d x q s p ε : ℚ) (hε : 0 < ε) (hε' : ε ≤ 1 / 8) (hn : 0 < n)
    (hd : 0 < d) (hx : 1 ≤ x) (hxd : x + 1 ≤ d) (hdε : d * (4 * ε) ≤ 1) (hq : q = n / d)
    (hslo : q * (1 - ε) ≤ s) (hshi : s ≤ q * (1 + ε)) (hp : p = x * s) :
    n * (2 * ε) ≤ p ∧ p ≤ n * 2 ∧ ∀ t, t ≤ p * (1 + ε) → t < n := by
  have hqpos : 0 < q := by rw [hq]; exact div_pos hn hd
  have hqlo : n * (4 * ε) ≤ q := by
    rw [hq, le_div_iff₀ hd]
    calc n * (4 * ε) * d = n * (d * (4 * ε)) := by ring
      _ ≤ n * 1 := mul_le_mul_of_nonneg_left hdε (le_of_lt hn)
      _ = n := mul_one n
  have hdq : d * q = n := by rw [hq]; field_simp
  have hspos : 0 < s := lt_of_lt_of_le (mul_pos hqpos (by linarith)) hslo
  have hxq : x * q ≤ n - q := by
    have : x * q ≤ (d - 1) * q := mul_le_mul_of_nonneg_right (by linarith) (le_of_lt hqpos)
    have h2 : (d - 1) * q = n - q := by rw [sub_mul, hdq, one_mul]
    linarith
  have hxq' : x * q ≤ n * (1 - 4 * ε) := by linarith
  have h14 : 0 ≤ 1 - 4 * ε := by linarith
  have hpup : p ≤ n * (1 - 4 * ε) * (1 + ε) := by
    rw [hp]
    calc x * s ≤ x * (q * (1 + ε)) := mul_le_mul_of_nonneg_left hshi (by linarith)
      _ = x * q * (1 + ε) := by ring
      _ ≤ n * (1 - 4 * ε) * (1 + ε) := mul_le_mul_of_nonneg_right hxq' (by linarith)
  have hn14 : 0 ≤ n * (1 - 4 * ε) := mul_nonneg (le_of_lt hn) h14
  refine ⟨?_, ?_, ?_⟩
  · have h1 : s ≤ p := by
      rw [hp]
      calc s = 1 * s := (one_mul s).symm
        _ ≤ x * s := mul_le_mul_of_nonneg_right hx (le_of_lt hspos)
    have h2 : q * (1 / 2) ≤ q * (1 - ε) :=
      mul_le_mul_of_nonneg_left (by linarith) (le_of_lt hqpos)
    linarith
  · have h1 : n * (1 - 4 * ε) * (1 + ε) ≤ n * (1 - 4 * ε) * 2 :=
      mul_le_mul_of_nonneg_left (by linarith) hn14
    have h2 : n * (1 - 4 * ε) ≤ n * 1 := mul_le_mul_of_nonneg_left (by linarith) (le_of_lt hn)
    linarith
  · intro t ht
    have h1 : p * (1 + ε) ≤ n * (1 - 4 * ε) * (1 + ε) * (1 + ε) :=
      mul_le_mul_of_nonneg_right hpup (by linarith)
    have h2 : (1 - 4 * ε) * (1 + ε) * (1 + ε) < 1 := by
      nlinarith [mul_pos hε hε, mul_pos (mul_pos hε hε) hε]
    have h3 := mul_lt_mul_of_pos_left h2 hn
    have h4 : n * ((1 - 4 * ε) * (1 + ε) * (1 + ε)) = n * (1 - 4 * ε) * (1 + ε) * (1 + ε) := by
      ring
    linarith

/-- The column (or row) `Math.floor(x * (n / d))` that binary64 gives for a
position `x < d` is below `n`. -/
theorem floor_scaled_lt (n d x : ℕ) (hn : 0 < n) (hn' : n ≤ 2 ^ 53) (hd : d ≤ 2 ^ 51)
    (hx : x < d) :
    ∃ c : ℕ, c < n ∧
      Math.floor (mul64 (Num.ofNat x) (div64 (Num.ofNat n) (Num.ofNat d))) = .fin (c : ℚ) := by
  have hdpos : 0 < d := by omega
  have hdq : (0 : ℚ) < (d : ℚ) := by exact_mod_cast hdpos
  have hnq : (0 : ℚ) < (n : ℚ) := by exact_mod_cast hn
  have hn1 : (1 : ℚ) ≤ (n : ℚ) := by exact_mod_cast hn
  have hd1 : (1 : ℚ) ≤ (d : ℚ) := by exact_mod_cast hdpos
  have hd51 : (d : ℚ) ≤ 2 ^ (51 : ℤ) := by
    have e : (2 : ℚ) ^ (51 : ℤ) = ((2 ^ 51 : ℕ) : ℚ) := by norm_num
    rw [e]; exact_mod_cast hd
  have hn53 : (n : ℚ) ≤ 2 ^ (53 : ℤ) := by
    have e : (2 : ℚ) ^ (53 : ℤ) = ((2 ^ 53 : ℕ) : ℚ) := by norm_num
    rw [e]; exact_mod_cast hn'
  -- the unit roundoff, as an opaque number
  obtain ⟨ε, hεdef⟩ : ∃ ε : ℚ, ε = 2 ^ (-53 : ℤ) := ⟨_, rfl⟩
  have hε : 0 < ε := by rw [hεdef]; exact two_zpow_pos _
  have hε8 : ε ≤ 1 / 8 := by
    rw [hεdef]
    have := two_zpow_le (show (-53 : ℤ) ≤ -3 by norm_num)
    have e : (2 : ℚ) ^ (-3 : ℤ) = 1 / 8 := by norm_num
    rw [e] at this
    exact this
  have h51ε : (2 : ℚ) ^ (51 : ℤ) * (4 * ε) = 1 := by
    rw [hεdef, show (4 : ℚ) = 2 ^ (2 : ℤ) by norm_num, ← zpow_add₀ (by norm_num),
      ← zpow_add₀ (by norm_num)]
    norm_num
  have hdε : (d : ℚ) * (4 * ε) ≤ 1 := by
    rw [← h51ε]
    exact mul_le_mul_of_nonneg_right hd51 (by linarith)
  have h52 : (2 : ℚ) ^ (-52 : ℤ) = 2 * ε := by
    rw [hεdef, show (-52 : ℤ) = 1 + -53 by norm_num, zpow_add₀ (by norm_num), zpow_one]
  have h54 : (2 : ℚ) ^ (54 : ℤ) = 2 ^ (53 : ℤ) * 2 := by
    rw [show (54 : ℤ) = 53 + 1 by norm_num, two_zpow_succ]
  -- the quotient
  have hqpos : (0 : ℚ) < (n : ℚ) / d := div_pos hnq hdq
  have hqlo : (2 : ℚ) ^ (-1022 : ℤ) ≤ (n : ℚ) / d := by
    rw [le_div_iff₀ hdq]
    have h1 : (2 : ℚ) ^ (-1022 : ℤ) ≤ 2 ^ (-51 : ℤ) := two_zpow_le (by norm_num)
    have h2 : (2 : ℚ) ^ (-51 : ℤ) * 2 ^ (51 : ℤ) = 1 := by
      rw [← zpow_add₀ (by norm_num)]; norm_num
    calc (2 : ℚ) ^ (-1022 : ℤ) * d ≤ 2 ^ (-51 : ℤ) * 2 ^ (51 : ℤ) :=
          mul_le_mul h1 hd51 (le_of_lt hdq) (le_of_lt (two_zpow_pos _))
      _ = 1 := h2
      _ ≤ n := hn1
  have hqhi : (n : ℚ) / d < 2 ^ (1023 : ℤ) := by
    have h1 : (n : ℚ) / d ≤ n := div_le_self (le_of_lt hnq) hd1
    have h2 : (2 : ℚ) ^ (53 : ℤ) < 2 ^ (1023 : ℤ) :=
      zpow_lt_zpow_right₀ (by norm_num) (by norm_num)
    exact lt_of_le_of_lt (le_trans h1 hn53) h2
  obtain ⟨hs, hslo, hshi⟩ := round64_rel _ hqlo hqhi
  rw [← hεdef] at hslo hshi
  have hdw : div64 (Num.ofNat n) (Num.ofNat d) = .fin (grid ((n : ℚ) / d)) := by
    rw [Num.ofNat_eq, Num.ofNat_eq, div64_fin _ _ (ne_of_gt hdq), hs]
  rw [hdw, Num.ofNat_eq, mul64_fin]
  rcases Nat.eq_zero_or_pos x with hx0 | hxpos
  · subst hx0
    refine ⟨0, hn, ?_⟩
    rw [Nat.cast_zero, zero_mul, round64_zero, floor_fin]
    simp
  · have hxq : (1 : ℚ) ≤ (x : ℚ) := by exact_mod_cast hxpos
    have hxd : (x : ℚ) + 1 ≤ (d : ℚ) := by exact_mod_cast hx
    obtain ⟨hplo, hpup, hlt⟩ := scaled_bounds n d x _ _ _ ε hε hε8 hnq hdq hxq hxd hdε rfl
      hslo hshi rfl
    have hplo' : (2 : ℚ) ^ (-1022 : ℤ) ≤ (x : ℚ) * grid ((n : ℚ) / d) := by
      have h1 : (2 : ℚ) ^ (-1022 : ℤ) ≤ 2 ^ (-52 : ℤ) := two_zpow_le (by norm_num)
      have h2 : 1 * (2 * ε) ≤ (n : ℚ) * (2 * ε) :=
        mul_le_mul_of_nonneg_right hn1 (by linarith)
      rw [h52] at h1
      linarith
    have hphi : (x : ℚ) * grid ((n : ℚ) / d) < 2 ^ (1023 : ℤ) := by
      have h1 : (n : ℚ) * 2 ≤ 2 ^ (54 : ℤ) := by
        rw [h54]; exact mul_le_mul_of_nonneg_right hn53 (by norm_num)
      have h2 : (2 : ℚ) ^ (54 : ℤ) < 2 ^ (1023 : ℤ) :=
        zpow_lt_zpow_right₀ (by norm_num) (by norm_num)
      exact lt_of_le_of_lt (le_trans hpup h1) h2
    obtain ⟨ht, -, hthi⟩ := round64_rel _ hplo' hphi
    rw [← hεdef] at hthi
    have htlt := hlt _ hthi
    have hppos : 0 < (x : ℚ) * grid ((n : ℚ) / d) := lt_of_lt_of_le (two_zpow_pos _) hplo'
    have htnn : 0 ≤ grid ((x : ℚ) * grid ((n : ℚ) / d)) := grid_nonneg _ (le_of_lt hppos)
    have hfl0 : 0 ≤ ⌊grid ((x : ℚ) * grid ((n : ℚ) / d))⌋ := Int.floor_nonneg.mpr htnn
    have hfln : ⌊grid ((x : ℚ) * grid ((n : ℚ) / d))⌋ < (n : ℤ) := by
      rw [Int.floor_lt]
      exact_mod_cast htlt
    refine ⟨⌊grid ((x : ℚ) * grid ((n : ℚ) / d))⌋.toNat, by omega, ?_⟩
    rw [ht, floor_fin]
    congr 1
    have : ((⌊grid ((x : ℚ) * grid ((n : ℚ) / d))⌋.toNat : ℤ) : ℚ)
        = ((⌊grid ((x : ℚ) * grid ((n : ℚ) / d))⌋ : ℤ) : ℚ) := by
      rw [Int.toNat_of_nonneg hfl0]
    rw [← this]
    norm_cast

/-- For a canvas of the raster's own size, of at most `2 ^ 53` samples, the
binary64 index is the exact one, `y * w + x`. -/
theorem rgbIdx_same_size (w h x y : Nat) (hx : x < w) (hy : y < h) (hsize : w * h ≤ 2 ^ 53) :
    rgbIdx w h w h x y = rgbIdxExact w h w h x y := by
  have hw : 0 < w := by omega
  have hh : 0 < h := by omega
  have hcell : y * w + x < w * h := cell_lt y x w h hy hx
  have hwq : (w : ℚ) ≠ 0 := by exact_mod_cast (ne_of_gt hw)
  have hhq : (h : ℚ) ≠ 0 := by exact_mod_cast (ne_of_gt hh)
  have hx53 : x ≤ 2 ^ 53 := by omega
  have hy53 : y ≤ 2 ^ 53 := by
    have : y ≤ y * w := Nat.le_mul_of_pos_right y hw
    omega
  have hfloor : ∀ n : ℕ, Math.floor (.fin (n : ℚ)) = .fin (n : ℚ) := by
    intro n
    rw [floor_fin, Int.floor_natCast]
    norm_cast
  rw [rgbIdxExact_same_size w h x y hx hy]
  show add64 (mul64 (Math.floor (mul64 (Num.ofNat y) (div64 (Num.ofNat h) (Num.ofNat h))))
    (Num.ofNat w)) (Math.floor (mul64 (Num.ofNat x) (div64 (Num.ofNat w) (Num.ofNat w)))) = _
  rw [Num.ofNat_eq, Num.ofNat_eq, Num.ofNat_eq, Num.ofNat_eq, div64_fin _ _ hwq,
    div64_fin _ _ hhq, div_self hwq, div_self hhq, round64_one, mul64_fin, mul64_fin, mul_one,
    mul_one, round64_natCast x hx53, round64_natCast y hy53, hfloor, hfloor, mul64_fin]
  have h1 : ((y : ℚ) * (w : ℚ)) = ((y * w : ℕ) : ℚ) := by push_cast; rfl
  rw [h1, round64_natCast _ (by omega), add64_fin]
  have h2 : (((y * w : ℕ) : ℚ) + (x : ℚ)) = ((y * w + x : ℕ) : ℚ) := by push_cast; rfl
  rw [h2, round64_natCast _ (by omega)]

/-- C10 (amended). For a source raster of positive size `rw × rh` of at most
`2 ^ 53` samples and an output of size `ow × oh` with both sides at most
`2 ^ 51`, the source index `renderRGB` computes in binary64 for the output
pixel `(x, y)` is `r * rw + c` for the row `r = Math.floor(y * dh) < rh` and the
column `c = Math.floor(x * dw) < rw`; it is below `rw * rh`, so the read from a
band of that length is one of its elements. -/
theorem rgbIdx_in_bounds (rw rh ow oh x y : Nat) (hrw : 0 < rw) (hrh : 0 < rh)
    (hx : x < ow) (hy : y < oh) (hsize : rw * rh ≤ 2 ^ 53) (how : ow ≤ 2 ^ 51)
    (hoh : oh ≤ 2 ^ 51) :
    ∃ r c : ℕ, r < rh ∧ c < rw ∧
      Math.floor (mul64 (Num.ofNat y) (div64 (Num.ofNat rh) (Num.ofNat oh))) = .fin (r : ℚ) ∧
      Math.floor (mul64 (Num.ofNat x) (div64 (Num.ofNat rw) (Num.ofNat ow))) = .fin (c : ℚ) ∧
      rgbIdx rw rh ow oh x y = .fin ((r * rw + c : ℕ) : ℚ) ∧
      r * rw + c < rw * rh ∧
      ∀ values : List Num, values.length = rw * rh →
        ∃ v, index values (rgbIdx rw rh ow oh x y) = some v ∧ v ∈ values := by
  have hrw53 : rw ≤ 2 ^ 53 := le_trans (Nat.le_mul_of_pos_right rw hrh) hsize
  have hrh53 : rh ≤ 2 ^ 53 := le_trans (Nat.le_mul_of_pos_left rh hrw) hsize
  obtain ⟨r, hr, hrow⟩ := floor_scaled_lt rh oh y hrh hrh53 hoh hy
  obtain ⟨c, hc, hcol⟩ := floor_scaled_lt rw ow x hrw hrw53 how hx
  have hcell : r * rw + c < rw * rh := cell_lt r c rw rh hr hc
  have hprod : r * rw ≤ 2 ^ 53 := by
    have : r * rw ≤ rh * rw := Nat.mul_le_mul_right rw (le_of_lt hr)
    rw [Nat.mul_comm rh rw] at this
    omega
  have hidx : rgbIdx rw rh ow oh x y = .fin ((r * rw + c : ℕ) : ℚ) := by
    show add64 (mul64 (Math.floor (mul64 (Num.ofNat y) (div64 (Num.ofNat rh) (Num.ofNat oh))))
      (Num.ofNat rw)) (Math.floor (mul64 (Num.ofNat x) (div64 (Num.ofNat rw) (Num.ofNat ow)))) = _
    rw [hrow, hcol, Num.ofNat_eq, mul64_fin]
    have h1 : ((r : ℚ) * (rw : ℚ)) = ((r * rw : ℕ) : ℚ) := by push_cast; rfl
    rw [h1, round64_natCast _ hprod, add64_fin]
    have h2 : (((r * rw : ℕ) : ℚ) + (c : ℚ)) = ((r * rw + c : ℕ) : ℚ) := by push_cast; rfl
    rw [h2, round64_natCast _ (by omega)]
  refine ⟨r, c, hr, hc, hrow, hcol, hidx, hcell, ?_⟩
  intro values hlen
  rw [hidx, index_natCast]
  have hlt : r * rw + c < values.length := by rw [hlen]; exact hcell
  exact ⟨values[r * rw + c], List.getElem?_eq_getElem hlt, List.getElem_mem hlt⟩

theorem rgbIdx_in_bounds_witness :
    ∃ r c : ℕ, r < 3 ∧ c < 5 ∧ rgbIdx 5 3 2 7 1 6 = .fin ((r * 5 + c : ℕ) : ℚ) ∧
      r * 5 + c < 5 * 3 := by
  obtain ⟨r, c, hr, hc, -, -, hidx, hlt, -⟩ := rgbIdx_in_bounds 5 3 2 7 1 6 (by decide)
    (by decide) (by decide) (by decide) (by norm_num) (by norm_num) (by norm_num)
  exact ⟨r, c, hr, hc, hidx, hlt⟩

/-- C10, as stated, names an index the code does not compute. For a raster
30 samples wide and an output 22 pixels wide, at `x = 11` the exact index is
`⌊11 * 30 / 22⌋ = 15`, but `dw = 30 / 22` rounds down in binary64, `11 * dw` is
`14.999999999999998`, and the code reads sample 14. -/
theorem rgbIdx_rounds_below_exact :
    rgbIdx 30 1 22 1 11 0 = .fin 14 ∧
    ⌊((0 : ℚ) * 1) / 1⌋ * 30 + ⌊((11 : ℚ) * 30) / 22⌋ = 15 := by
  constructor
  · show add64 (mul64 (Math.floor (mul64 (Num.ofNat 0) (div64 (Num.ofNat 1) (Num.ofNat 1))))
      (Num.ofNat 30)) (Math.floor (mul64 (Num.ofNat 11) (div64 (Num.ofNat 30) (Num.ofNat 22))))
      = _
    simp only [Num.ofNat_eq, Nat.cast_ofNat, Nat.cast_zero, Nat.cast_one]
    rw [div64_fin _ _ (by norm_num), div64_fin _ _ (by norm_num), fl_30_22, div_one,
      round64_one, mul64_fin, mul64_fin, zero_mul, round64_zero, fl_11_30_22, floor_fin,
      floor_fin]
    have h0 : ((⌊(0 : ℚ)⌋ : ℤ) : ℚ) = 0 := by norm_num
    have h14 : ((⌊(8444249301319679 : ℚ) / 2 ^ 49⌋ : ℤ) : ℚ) = 14 := by
      have : ⌊(8444249301319679 : ℚ) / 2 ^ 49⌋ = 14 := by
        rw [Int.floor_eq_iff]; constructor <;> norm_num
      rw [this]; norm_num
    rw [h0, h14, mul64_fin, zero_mul, round64_zero, add64_fin, zero_add]
    have := round64_natCast 14 (by norm_num)
    exact_mod_cast this
  · have h1 : ((0 : ℚ) * 1) / 1 = ((0 : ℤ) : ℚ) := by norm_num
    have h2 : ((11 : ℚ) * 30) / 22 = ((15 : ℤ) : ℚ) := by norm_num
    rw [h1, h2, Int.floor_intCast, Int.floor_intCast]
    norm_num

/-! ## The index of the last palette entry -/

/-- Evaluation of `255 * (k / 255)` in binary64 from the two mantissas. -/
theorem anchor_eval (k : ℕ) (es zs e2 z2 : ℤ)
    (hes : -1022 ≤ es ∧ es ≤ 1022) (he2 : -1022 ≤ e2 ∧ e2 ≤ 1022)
    (h1 : (2 : ℚ) ^ es ≤ (k : ℚ) / 255 ∧ (k : ℚ) / 255 < 2 ^ (es + 1))
    (h2 : -(1 / 2) < (k : ℚ) / 255 / 2 ^ (es - 52) - (zs : ℚ) ∧
      (k : ℚ) / 255 / 2 ^ (es - 52) - (zs : ℚ) < 1 / 2)
    (h3 : (2 : ℚ) ^ e2 ≤ 255 * ((zs : ℚ) * 2 ^ (es - 52)) ∧
      255 * ((zs : ℚ) * 2 ^ (es - 52)) < 2 ^ (e2 + 1))
    (h4 : -(1 / 2) < 255 * ((zs : ℚ) * 2 ^ (es - 52)) / 2 ^ (e2 - 52) - (z2 : ℚ) ∧
      255 * ((zs : ℚ) * 2 ^ (es - 52)) / 2 ^ (e2 - 52) - (z2 : ℚ) < 1 / 2)
    (h5 : (z2 : ℚ) * 2 ^ (e2 - 52) = k) :
    round64 (255 * grid ((k : ℚ) / 255)) = .fin (k : ℚ) := by
  have hq : 0 < (k : ℚ) / 255 := lt_of_lt_of_le (two_zpow_pos _) h1.1
  have hb : binade ((k : ℚ) / 255) = es :=
    binade_eq _ es hes.1 (by rw [abs_of_pos hq]; exact h1.1) (by rw [abs_of_pos hq]; exact h1.2)
  rw [grid_eval _ es zs hb (abs_lt.mpr h2)]
  have hp : 0 < 255 * ((zs : ℚ) * 2 ^ (es - 52)) := lt_of_lt_of_le (two_zpow_pos _) h3.1
  rw [round64_eval _ e2 z2 he2.1 he2.2 (by rw [abs_of_pos hp]; exact h3.1)
    (by rw [abs_of_pos hp]; exact h3.2) (abs_lt.mpr h4), h5]

/-- The generic case: `k` strictly inside a binade and `k / 255` in the binade
eight below. The error of the quotient, at most `2 ^ (e - 61)`, times 255 stays
below half the spacing `2 ^ (e - 52)` at `k`. -/
theorem anchor_generic (k e : ℕ) (he : e ≤ 52) (hlo : 2 ^ e < k) (hhi : k < 2 ^ (e + 1))
    (hq : 128 * k < 255 * 2 ^ e) :
    round64 (255 * grid ((k : ℚ) / 255)) = .fin (k : ℚ) := by
  obtain ⟨u, hu⟩ : ∃ u : ℚ, u = 2 ^ ((e : ℤ) - 61) := ⟨_, rfl⟩
  have hupos : 0 < u := by rw [hu]; exact two_zpow_pos _
  have hpow : ∀ (j : ℕ) (z : ℤ), z = (e : ℤ) - 61 + j → (2 : ℚ) ^ z = 2 ^ j * u := by
    intro j z hz
    rw [hz, zpow_add₀ (by norm_num), zpow_natCast, ← hu]; ring
  have he0 : (2 : ℚ) ^ (e : ℤ) = 2 ^ 61 * u := hpow 61 _ (by push_cast; ring)
  have he1 : (2 : ℚ) ^ ((e : ℤ) + 1) = 2 ^ 62 * u := hpow 62 _ (by push_cast; ring)
  have he8 : (2 : ℚ) ^ ((e : ℤ) - 8) = 2 ^ 53 * u := hpow 53 _ (by push_cast; ring)
  have he7 : (2 : ℚ) ^ ((e : ℤ) - 8 + 1) = 2 ^ 54 * u := hpow 54 _ (by push_cast; ring)
  have he60 : (2 : ℚ) ^ ((e : ℤ) - 8 - 52) = 2 ^ 1 * u := hpow 1 _ (by push_cast; ring)
  have he52 : (2 : ℚ) ^ ((e : ℤ) - 52) = 2 ^ 9 * u := hpow 9 _ (by push_cast; ring)
  have hu9 : 2 ^ 9 * u ≤ 1 := by
    rw [← he52]
    have := two_zpow_le (show (e : ℤ) - 52 ≤ 0 by omega)
    simpa using this
  -- the hypotheses as rational inequalities in `u`
  have hnat : ((2 ^ e : ℕ) : ℚ) = 2 ^ 61 * u := by
    rw [Nat.cast_pow, Nat.cast_ofNat, ← zpow_natCast]; exact he0
  have hlo' : 2 ^ 61 * u + 1 ≤ (k : ℚ) := by
    have : ((2 ^ e + 1 : ℕ) : ℚ) ≤ (k : ℚ) := by exact_mod_cast hlo
    rw [Nat.cast_add, hnat] at this
    simpa using this
  have hhi' : (k : ℚ) + 1 ≤ 2 ^ 62 * u := by
    have : ((k + 1 : ℕ) : ℚ) ≤ ((2 * 2 ^ e : ℕ) : ℚ) := by
      have : k + 1 ≤ 2 * 2 ^ e := by rw [pow_succ] at hhi; omega
      exact_mod_cast this
    rw [Nat.cast_add, Nat.cast_mul, hnat] at this
    have h2 : (2 : ℚ) ^ 62 = 2 * 2 ^ 61 := by norm_num
    rw [h2]
    push_cast at this
    linarith
  have hq' : 128 * (k : ℚ) < 255 * (2 ^ 61 * u) := by
    have : ((128 * k : ℕ) : ℚ) < ((255 * 2 ^ e : ℕ) : ℚ) := by exact_mod_cast hq
    rw [Nat.cast_mul, Nat.cast_mul, hnat] at this
    exact_mod_cast this
  -- the quotient and its binade
  obtain ⟨q, hqdef⟩ : ∃ q : ℚ, q = (k : ℚ) / 255 := ⟨_, rfl⟩
  rw [← hqdef]
  have hq255 : 255 * q = k := by rw [hqdef]; field_simp
  have hqlo : 2 ^ 53 * u ≤ q := by
    have h : (2 : ℚ) ^ 61 = 256 * 2 ^ 53 := by norm_num
    rw [h] at hlo'
    have hp : (0 : ℚ) < 2 ^ 53 * u := mul_pos (by norm_num) hupos
    linarith
  have hqhi : q < 2 ^ 54 * u := by
    have h : (2 : ℚ) ^ 61 = 128 * 2 ^ 54 := by norm_num
    rw [h] at hq'
    linarith
  have hqpos : 0 < q := lt_of_lt_of_le (mul_pos (by norm_num) hupos) hqlo
  have hbq : binade q = (e : ℤ) - 8 :=
    binade_eq q _ (by omega) (by rw [abs_of_pos hqpos, he8]; exact hqlo)
      (by rw [abs_of_pos hqpos, he7]; exact hqhi)
  have herr := grid_sub_le q
  rw [hbq, he60, abs_le] at herr
  obtain ⟨s, hsdef⟩ : ∃ s : ℚ, s = grid q := ⟨_, rfl⟩
  rw [← hsdef] at herr ⊢
  -- the product and its binade
  have hplo : 2 ^ 61 * u ≤ 255 * s := by
    have h : (2 : ℚ) ^ 9 = 512 := by norm_num
    rw [h] at hu9
    linarith
  have hphi : 255 * s < 2 ^ 62 * u := by
    have h : (2 : ℚ) ^ 9 = 512 := by norm_num
    rw [h] at hu9
    linarith
  have hppos : 0 < 255 * s := lt_of_lt_of_le (mul_pos (by norm_num) hupos) hplo
  have hm : ((2 : ℚ) ^ (52 - e)) * (2 ^ 9 * u) = 1 := by
    rw [← he52, ← zpow_natCast, ← zpow_add₀ (by norm_num)]
    have : ((52 - e : ℕ) : ℤ) + ((e : ℤ) - 52) = 0 := by omega
    rw [this, zpow_zero]
  have hwpos : (0 : ℚ) < 2 ^ 9 * u := mul_pos (by norm_num) hupos
  have hz : |255 * s / 2 ^ ((e : ℤ) - 52) - ((k * 2 ^ (52 - e) : ℕ) : ℤ)| < 1 / 2 := by
    rw [he52]
    have hcast : ((((k * 2 ^ (52 - e) : ℕ) : ℤ)) : ℚ) = (k : ℚ) / (2 ^ 9 * u) := by
      rw [eq_div_iff (ne_of_gt hwpos)]
      push_cast
      rw [mul_assoc, hm, mul_one]
    rw [hcast, ← sub_div, abs_lt]
    have h : (2 : ℚ) ^ 9 = 512 := by norm_num
    rw [h] at hwpos ⊢
    constructor
    · rw [lt_div_iff₀ hwpos]; linarith
    · rw [div_lt_iff₀ hwpos]; linarith
  rw [round64_eval (255 * s) e _ (by omega) (by omega)
    (by rw [abs_of_pos hppos, he0]; exact hplo) (by rw [abs_of_pos hppos, he1]; exact hphi) hz]
  congr 1
  rw [he52]
  push_cast
  rw [mul_assoc, hm, mul_one]

/-! ## The exceptional cases, by evaluation -/

theorem anchor_1 : round64 (255 * grid ((((1 : ℕ) : ℚ)) / 255)) = .fin ((1 : ℕ) : ℚ) :=
  anchor_eval 1 (-8) 4521260802379792 (-1) 9007199254740992 (by norm_num) (by norm_num)
    (by norm_num) (by norm_num) (by norm_num) (by norm_num) (by norm_num)

theorem anchor_2 : round64 (255 * grid ((((2 : ℕ) : ℚ)) / 255)) = .fin ((2 : ℕ) : ℚ) :=
  anchor_eval 2 (-7) 4521260802379792 0 9007199254740992 (by norm_num) (by norm_num)
    (by norm_num) (by norm_num) (by norm_num) (by norm_num) (by norm_num)

theorem anchor_4 : round64 (255 * grid ((((4 : ℕ) : ℚ)) / 255)) = .fin ((4 : ℕ) : ℚ) :=
  anchor_eval 4 (-6) 4521260802379792 1 9007199254740992 (by norm_num) (by norm_num)
    (by norm_num) (by norm_num) (by norm_num) (by norm_num) (by norm_num)

theorem anchor_8 : round64 (255 * grid ((((8 : ℕ) : ℚ)) / 255)) = .fin ((8 : ℕ) : ℚ) :=
  anchor_eval 8 (-5) 4521260802379792 2 9007199254740992 (by norm_num) (by norm_num)
    (by norm_num) (by norm_num) (by norm_num) (by norm_num) (by norm_num)

theorem anchor_16 : round64 (255 * grid ((((16 : ℕ) : ℚ)) / 255)) = .fin ((16 : ℕ) : ℚ) :=
  anchor_eval 16 (-4) 4521260802379792 3 9007199254740992 (by norm_num) (by norm_num)
    (by norm_num) (by norm_num) (by norm_num) (by norm_num) (by norm_num)

theorem anchor_32 : round64 (255 * grid ((((32 : ℕ) : ℚ)) / 255)) = .fin ((32 : ℕ) : ℚ) :=
  anchor_eval 32 (-3) 4521260802379792 4 9007199254740992 (by norm_num) (by norm_num)
    (by norm_num) (by norm_num) (by norm_num) (by norm_num) (by norm_num)

theorem anchor_64 : round64 (255 * grid ((((64 : ℕ) : ℚ)) / 255)) = .fin ((64 : ℕ) : ℚ) :=
  anchor_eval 64 (-2) 4521260802379792 5 9007199254740992 (by norm_num) (by norm_num)
    (by norm_num) (by norm_num) (by norm_num) (by norm_num) (by norm_num)

theorem anchor_128 : round64 (255 * grid ((((128 : ℕ) : ℚ)) / 255)) = .fin ((128 : ℕ) : ℚ) :=
  anchor_eval 128 (-1) 4521260802379792 6 9007199254740992 (by norm_num) (by norm_num)
    (by norm_num) (by norm_num) (by norm_num) (by norm_num) (by norm_num)

theorem anchor_255 : round64 (255 * grid ((((255 : ℕ) : ℚ)) / 255)) = .fin ((255 : ℕ) : ℚ) :=
  anchor_eval 255 0 4503599627370496 7 8972014882652160 (by norm_num) (by norm_num)
    (by norm_num) (by norm_num) (by norm_num) (by norm_num) (by norm_num)

theorem anchor_256 : round64 (255 * grid ((((256 : ℕ) : ℚ)) / 255)) = .fin ((256 : ℕ) : ℚ) :=
  anchor_eval 256 0 4521260802379792 7 9007199254740992 (by norm_num) (by norm_num)
    (by norm_num) (by norm_num) (by norm_num) (by norm_num) (by norm_num)

theorem anchor_510 : round64 (255 * grid ((((510 : ℕ) : ℚ)) / 255)) = .fin ((510 : ℕ) : ℚ) :=
  anchor_eval 510 1 4503599627370496 8 8972014882652160 (by norm_num) (by norm_num)
    (by norm_num) (by norm_num) (by norm_num) (by norm_num) (by norm_num)

theorem anchor_511 : round64 (255 * grid ((((511 : ℕ) : ℚ)) / 255)) = .fin ((511 : ℕ) : ℚ) :=
  anchor_eval 511 1 4512430214875144 8 8989607068696576 (by norm_num) (by norm_num)
    (by norm_num) (by norm_num) (by norm_num) (by norm_num) (by norm_num)

theorem anchor_512 : round64 (255 * grid ((((512 : ℕ) : ℚ)) / 255)) = .fin ((512 : ℕ) : ℚ) :=
  anchor_eval 512 1 4521260802379792 8 9007199254740992 (by norm_num) (by norm_num)
    (by norm_num) (by norm_num) (by norm_num) (by norm_num) (by norm_num)

theorem anchor_1020 : round64 (255 * grid ((((1020 : ℕ) : ℚ)) / 255)) = .fin ((1020 : ℕ) : ℚ) :=
  anchor_eval 1020 2 4503599627370496 9 8972014882652160 (by norm_num) (by norm_num)
    (by norm_num) (by norm_num) (by norm_num) (by norm_num) (by norm_num)

theorem anchor_1021 : round64 (255 * grid ((((1021 : ℕ) : ℚ)) / 255)) = .fin ((1021 : ℕ) : ℚ) :=
  anchor_eval 1021 2 4508014921122820 9 8980810975674368 (by norm_num) (by norm_num)
    (by norm_num) (by norm_num) (by norm_num) (by norm_num) (by norm_num)

theorem anchor_1022 : round64 (255 * grid ((((1022 : ℕ) : ℚ)) / 255)) = .fin ((1022 : ℕ) : ℚ) :=
  anchor_eval 1022 2 4512430214875144 9 8989607068696576 (by norm_num) (by norm_num)
    (by norm_num) (by norm_num) (by norm_num) (by norm_num) (by norm_num)

theorem anchor_1023 : round64 (255 * grid ((((1023 : ℕ) : ℚ)) / 255)) = .fin ((1023 : ℕ) : ℚ) :=
  anchor_eval 1023 2 4516845508627468 9 8998403161718784 (by norm_num) (by norm_num)
    (by norm_num) (by norm_num) (by norm_num) (by norm_num) (by norm_num)

theorem anchor_1024 : round64 (255 * grid ((((1024 : ℕ) : ℚ)) / 255)) = .fin ((1024 : ℕ) : ℚ) :=
  anchor_eval 1024 2 4521260802379792 9 9007199254740992 (by norm_num) (by norm_num)
    (by norm_num) (by norm_num) (by norm_num) (by norm_num) (by norm_num)

theorem anchor_2040 : round64 (255 * grid ((((2040 : ℕ) : ℚ)) / 255)) = .fin ((2040 : ℕ) : ℚ) :=
  anchor_eval 2040 3 4503599627370496 10 8972014882652160 (by norm_num) (by norm_num)
    (by norm_num) (by norm_num) (by norm_num) (by norm_num) (by norm_num)

theorem anchor_2041 : round64 (255 * grid ((((2041 : ℕ) : ℚ)) / 255)) = .fin ((2041 : ℕ) : ℚ) :=
  anchor_eval 2041 3 4505807274246658 10 8976412929163264 (by norm_num) (by norm_num)
    (by norm_num) (by norm_num) (by norm_num) (by norm_num) (by norm_num)

theorem anchor_2042 : round64 (255 * grid ((((2042 : ℕ) : ℚ)) / 255)) = .fin ((2042 : ℕ) : ℚ) :=
  anchor_eval 2042 3 4508014921122820 10 8980810975674368 (by norm_num) (by norm_num)
    (by norm_num) (by norm_num) (by norm_num) (by norm_num) (by norm_num)

theorem anchor_2043 : round64 (255 * grid ((((2043 : ℕ) : ℚ)) / 255)) = .fin ((2043 : ℕ) : ℚ) :=
  anchor_eval 2043 3 4510222567998982 10 8985209022185472 (by norm_num) (by norm_num)
    (by norm_num) (by norm_num) (by norm_num) (by norm_num) (by norm_num)

theorem anchor_2044 : round64 (255 * grid ((((2044 : ℕ) : ℚ)) / 255)) = .fin ((2044 : ℕ) : ℚ) :=
  anchor_eval 2044 3 4512430214875144 10 8989607068696576 (by norm_num) (by norm_num)
    (by norm_num) (by norm_num) (by norm_num) (by norm_num) (by norm_num)

theorem anchor_2045 : round64 (255 * grid ((((2045 : ℕ) : ℚ)) / 255)) = .fin ((2045 : ℕ) : ℚ) :=
  anchor_eval 2045 3 4514637861751306 10 8994005115207680 (by norm_num) (by norm_num)
    (by norm_num) (by norm_num) (by norm_num) (by norm_num) (by norm_num)

theorem anchor_2046 : round64 (255 * grid ((((2046 : ℕ) : ℚ)) / 255)) = .fin ((2046 : ℕ) : ℚ) :=
  anchor_eval 2046 3 4516845508627468 10 8998403161718784 (by norm_num) (by norm_num)
    (by norm_num) (by norm_num) (by norm_num) (by norm_num) (by norm_num)

theorem anchor_2047 : round64 (255 * grid ((((2047 : ℕ) : ℚ)) / 255)) = .fin ((2047 : ℕ) : ℚ) :=
  anchor_eval 2047 3 4519053155503630 10 9002801208229888 (by norm_num) (by norm_num)
    (by norm_num) (by norm_num) (by norm_num) (by norm_num) (by norm_num)

theorem anchor_2048 : round64 (255 * grid ((((2048 : ℕ) : ℚ)) / 255)) = .fin ((2048 : ℕ) : ℚ) :=
  anchor_eval 2048 3 4521260802379792 10 9007199254740992 (by norm_num) (by norm_num)
    (by norm_num) (by norm_num) (by norm_num) (by norm_num) (by norm_num)

theorem anchor_4080 : round64 (255 * grid ((((4080 : ℕ) : ℚ)) / 255)) = .fin ((4080 : ℕ) : ℚ) :=
  anchor_eval 4080 4 4503599627370496 11 8972014882652160 (by norm_num) (by norm_num)
    (by norm_num) (by norm_num) (by norm_num) (by norm_num) (by norm_num)

theorem anchor_4081 : round64 (255 * grid ((((4081 : ℕ) : ℚ)) / 255)) = .fin ((4081 : ℕ) : ℚ) :=
  anchor_eval 4081 4 4504703450808577 11 8974213905907712 (by norm_num) (by norm_num)
    (by norm_num) (by norm_num) (by norm_num) (by norm_num) (by norm_num)

theorem anchor_4082 : round64 (255 * grid ((((4082 : ℕ) : ℚ)) / 255)) = .fin ((4082 : ℕ) : ℚ) :=
  anchor_eval 4082 4 4505807274246658 11 8976412929163264 (by norm_num) (by norm_num)
    (by norm_num) (by norm_num) (by norm_num) (by norm_num) (by norm_num)

theorem anchor_4083 : round64 (255 * grid ((((4083 : ℕ) : ℚ)) / 255)) = .fin ((4083 : ℕ) : ℚ) :=
  anchor_eval 4083 4 4506911097684739 11 8978611952418816 (by norm_num) (by norm_num)
    (by norm_num) (by norm_num) (by norm_num) (by norm_num) (by norm_num)

theorem anchor_4084 : round64 (255 * grid ((((4084 : ℕ) : ℚ)) / 255)) = .fin ((4084 : ℕ) : ℚ) :=
  anchor_eval 4084 4 4508014921122820 11 8980810975674368 (by norm_num) (by norm_num)
    (by norm_num) (by norm_num) (by norm_num) (by norm_num) (by norm_num)

theorem anchor_4085 : round64 (255 * grid ((((4085 : ℕ) : ℚ)) / 255)) = .fin ((4085 : ℕ) : ℚ) :=
  anchor_eval 4085 4 4509118744560901 11 8983009998929920 (by norm_num) (by norm_num)
    (by norm_num) (by norm_num) (by norm_num) (by norm_num) (by norm_num)

theorem anchor_4086 : round64 (255 * grid ((((4086 : ℕ) : ℚ)) / 255)) = .fin ((4086 : ℕ) : ℚ) :=
  anchor_eval 4086 4 4510222567998982 11 8985209022185472 (by norm_num) (by norm_num)
    (by norm_num) (by norm_num) (by norm_num) (by norm_num) (by norm_num)

theorem anchor_4087 : round64 (255 * grid ((((4087 : ℕ) : ℚ)) / 255)) = .fin ((4087 : ℕ) : ℚ) :=
  anchor_eval 4087 4 4511326391437063 11 8987408045441024 (by norm_num) (by norm_num)
    (by norm_num) (by norm_num) (by norm_num) (by norm_num) (by norm_num)

theorem anchor_4088 : round64 (255 * grid ((((4088 : ℕ) : ℚ)) / 255)) = .fin ((4088 : ℕ) : ℚ) :=
  anchor_eval 4088 4 4512430214875144 11 8989607068696576 (by norm_num) (by norm_num)
    (by norm_num) (by norm_num) (by norm_num) (by norm_num) (by norm_num)

theorem anchor_4089 : round64 (255 * grid ((((4089 : ℕ) : ℚ)) / 255)) = .fin ((4089 : ℕ) : ℚ) :=
  anchor_eval 4089 4 4513534038313225 11 8991806091952128 (by norm_num) (by norm_num)
    (by norm_num) (by norm_num) (by norm_num) (by norm_num) (by norm_num)

theorem anchor_4090 : round64 (255 * grid ((((4090 : ℕ) : ℚ)) / 255)) = .fin ((4090 : ℕ) : ℚ) :=
  anchor_eval 4090 4 4514637861751306 11 8994005115207680 (by norm_num) (by norm_num)
    (by norm_num) (by norm_num) (by norm_num) (by norm_num) (by norm_num)

theorem anchor_4091 : round64 (255 * grid ((((4091 : ℕ) : ℚ)) / 255)) = .fin ((4091 : ℕ) : ℚ) :=
  anchor_eval 4091 4 4515741685189387 11 8996204138463232 (by norm_num) (by norm_num)
    (by norm_num) (by norm_num) (by norm_num) (by norm_num) (by norm_num)

theorem anchor_4092 : round64 (255 * grid ((((4092 : ℕ) : ℚ)) / 255)) = .fin ((4092 : ℕ) : ℚ) :=
  anchor_eval 4092 4 4516845508627468 11 8998403161718784 (by norm_num) (by norm_num)
    (by norm_num) (by norm_num) (by norm_num) (by norm_num) (by norm_num)

theorem anchor_4093 : round64 (255 * grid ((((4093 : ℕ) : ℚ)) / 255)) = .fin ((4093 : ℕ) : ℚ) :=
  anchor_eval 4093 4 4517949332065549 11 9000602184974336 (by norm_num) (by norm_num)
    (by norm_num) (by norm_num) (by norm_num) (by norm_num) (by norm_num)

theorem anchor_4094 : round64 (255 * grid ((((4094 : ℕ) : ℚ)) / 255)) = .fin ((4094 : ℕ) : ℚ) :=
  anchor_eval 4094 4 4519053155503630 11 9002801208229888 (by norm_num) (by norm_num)
    (by norm_num) (by norm_num) (by norm_num) (by norm_num) (by norm_num)

theorem anchor_4095 : round64 (255 * grid ((((4095 : ℕ) : ℚ)) / 255)) = .fin ((4095 : ℕ) : ℚ) :=
  anchor_eval 4095 4 4520156978941711 11 9005000231485440 (by norm_num) (by norm_num)
    (by norm_num) (by norm_num) (by norm_num) (by norm_num) (by norm_num)

theorem anchor_4096 : round64 (255 * grid ((((4096 : ℕ) : ℚ)) / 255)) = .fin ((4096 : ℕ) : ℚ) :=
  anchor_eval 4096 4 4521260802379792 11 9007199254740992 (by norm_num) (by norm_num)
    (by norm_num) (by norm_num) (by norm_num) (by norm_num) (by norm_num)

theorem anchor_8160 : round64 (255 * grid ((((8160 : ℕ) : ℚ)) / 255)) = .fin ((8160 : ℕ) : ℚ) :=
  anchor_eval 8160 5 4503599627370496 12 8972014882652160 (by norm_num) (by norm_num)
    (by norm_num) (by norm_num) (by norm_num) (by norm_num) (by norm_num)

/-- The index of the last palette entry: for at most 8161 anchors, `k + 1` of
them, the binary64 product `255 * (k / 255)` is `k` exactly. -/
theorem anchor_index (k : ℕ) (hk : k ≤ 8160) :
    round64 (255 * grid ((k : ℚ) / 255)) = .fin (k : ℚ) := by
  rcases (by omega : k = 0 ∨ k = 1 ∨ (2 ≤ k ∧ k < 4) ∨ (4 ≤ k ∧ k < 8) ∨ (8 ≤ k ∧ k < 16) ∨
    (16 ≤ k ∧ k < 32) ∨ (32 ≤ k ∧ k < 64) ∨ (64 ≤ k ∧ k < 128) ∨ (128 ≤ k ∧ k < 256) ∨
    (256 ≤ k ∧ k < 512) ∨ (512 ≤ k ∧ k < 1024) ∨ (1024 ≤ k ∧ k < 2048) ∨ (2048 ≤ k ∧ k < 4096) ∨
    (4096 ≤ k ∧ k < 8192)) with
    h0 | h1 | ⟨ha, hb⟩ | ⟨ha, hb⟩ | ⟨ha, hb⟩ | ⟨ha, hb⟩ | ⟨ha, hb⟩ | ⟨ha, hb⟩ | ⟨ha, hb⟩ |
      ⟨ha, hb⟩ | ⟨ha, hb⟩ | ⟨ha, hb⟩ | ⟨ha, hb⟩ | ⟨ha, hb⟩
  · subst h0
    rw [Nat.cast_zero, zero_div, grid_zero, mul_zero, round64_zero]
  · subst h1
    exact anchor_1
  · rcases (by omega : k = 2 ∨ (2 < k ∧ k < 4) ∨ (4 ≤ k ∧ k < 4)) with
      h | ⟨h1, h2⟩ | ⟨h1, h2⟩
    · subst h
      exact anchor_2
    · exact anchor_generic k 1 (by norm_num) (by norm_num; omega) (by norm_num; omega)
        (by norm_num; omega)
    · omega
  · rcases (by omega : k = 4 ∨ (4 < k ∧ k < 8) ∨ (8 ≤ k ∧ k < 8)) with
      h | ⟨h1, h2⟩ | ⟨h1, h2⟩
    · subst h
      exact anchor_4
    · exact anchor_generic k 2 (by norm_num) (by norm_num; omega) (by norm_num; omega)
        (by norm_num; omega)
    · omega
  · rcases (by omega : k = 8 ∨ (8 < k ∧ k < 16) ∨ (16 ≤ k ∧ k < 16)) with
      h | ⟨h1, h2⟩ | ⟨h1, h2⟩
    · subst h
      exact anchor_8
    · exact anchor_generic k 3 (by norm_num) (by norm_num; omega) (by norm_num; omega)
        (by norm_num; omega)
    · omega
  · rcases (by omega : k = 16 ∨ (16 < k ∧ k < 32) ∨ (32 ≤ k ∧ k < 32)) with
      h | ⟨h1, h2⟩ | ⟨h1, h2⟩
    · subst h
      exact anchor_16
    · exact anchor_generic k 4 (by norm_num) (by norm_num; omega) (by norm_num; omega)
        (by norm_num; omega)
    · omega
  · rcases (by omega : k = 32 ∨ (32 < k ∧ k < 64) ∨ (64 ≤ k ∧ k < 64)) with
      h | ⟨h1, h2⟩ | ⟨h1, h2⟩
    · subst h
      exact anchor_32
    · exact anchor_generic k 5 (by norm_num) (by norm_num; omega) (by norm_num; omega)
        (by norm_num; omega)
    · omega
  · rcases (by omega : k = 64 ∨ (64 < k ∧ k < 128) ∨ (128 ≤ k ∧ k < 128)) with
      h | ⟨h1, h2⟩ | ⟨h1, h2⟩
    · subst h
      exact anchor_64
    · exact anchor_generic k 6 (by norm_num) (by norm_num; omega) (by norm_num; omega)
        (by norm_num; omega)
    · omega
  · rcases (by omega : k = 128 ∨ (128 < k ∧ k < 255) ∨ (255 ≤ k ∧ k < 256)) with
      h | ⟨h1, h2⟩ | ⟨h1, h2⟩
    · subst h
      exact anchor_128
    · exact anchor_generic k 7 (by norm_num) (by norm_num; omega) (by norm_num; omega)
        (by norm_num; omega)
    · have h : k = 255 := by omega
      subst h
      exact anchor_255
  · rcases (by omega : k = 256 ∨ (256 < k ∧ k < 510) ∨ (510 ≤ k ∧ k < 512)) with
      h | ⟨h1, h2⟩ | ⟨h1, h2⟩
    · subst h
      exact anchor_256
    · exact anchor_generic k 8 (by norm_num) (by norm_num; omega) (by norm_num; omega)
        (by norm_num; omega)
    · rcases (by omega : k = 510 ∨ k = 511) with
        h | h
      · subst h
        exact anchor_510
      · subst h
        exact anchor_511
  · rcases (by omega : k = 512 ∨ (512 < k ∧ k < 1020) ∨ (1020 ≤ k ∧ k < 1024)) with
      h | ⟨h1, h2⟩ | ⟨h1, h2⟩
    · subst h
      exact anchor_512
    · exact anchor_generic k 9 (by norm_num) (by norm_num; omega) (by norm_num; omega)
        (by norm_num; omega)
    · rcases (by omega : k = 1020 ∨ k = 1021 ∨ k = 1022 ∨ k = 1023) with
        h | h | h | h
      · subst h
        exact anchor_1020
      · subst h
        exact anchor_1021
      · subst h
        exact anchor_1022
      · subst h
        exact anchor_1023
  · rcases (by omega : k = 1024 ∨ (1024 < k ∧ k < 2040) ∨ (2040 ≤ k ∧ k < 2048)) with
      h | ⟨h1, h2⟩ | ⟨h1, h2⟩
    · subst h
      exact anchor_1024
    · exact anchor_generic k 10 (by norm_num) (by norm_num; omega) (by norm_num; omega)
        (by norm_num; omega)
    · rcases (by omega : k = 2040 ∨ k = 2041 ∨ k = 2042 ∨ k = 2043 ∨ k = 2044 ∨ k = 2045 ∨
      k = 2046 ∨ k = 2047) with
        h | h | h | h | h | h | h | h
      · subst h
        exact anchor_2040
      · subst h
        exact anchor_2041
      · subst h
        exact anchor_2042
      · subst h
        exact anchor_2043
      · subst h
        exact anchor_2044
      · subst h
        exact anchor_2045
      · subst h
        exact anchor_2046
      · subst h
        exact anchor_2047
  · rcases (by omega : k = 2048 ∨ (2048 < k ∧ k < 4080) ∨ (4080 ≤ k ∧ k < 4096)) with
      h | ⟨h1, h2⟩ | ⟨h1, h2⟩
    · subst h
      exact anchor_2048
    · exact anchor_generic k 11 (by norm_num) (by norm_num; omega) (by norm_num; omega)
        (by norm_num; omega)
    · rcases (by omega : k = 4080 ∨ k = 4081 ∨ k = 4082 ∨ k = 4083 ∨ k = 4084 ∨ k = 4085 ∨
      k = 4086 ∨ k = 4087 ∨ k = 4088 ∨ k = 4089 ∨ k = 4090 ∨ k = 4091 ∨ k = 4092 ∨ k = 4093 ∨
      k = 4094 ∨ k = 4095) with
        h | h | h | h | h | h | h | h | h | h | h | h | h | h | h | h
      · subst h
        exact anchor_4080
      · subst h
        exact anchor_4081
      · subst h
        exact anchor_4082
      · subst h
        exact anchor_4083
      · subst h
        exact anchor_4084
      · subst h
        exact anchor_4085
      · subst h
        exact anchor_4086
      · subst h
        exact anchor_4087
      · subst h
        exact anchor_4088
      · subst h
        exact anchor_4089
      · subst h
        exact anchor_4090
      · subst h
        exact anchor_4091
      · subst h
        exact anchor_4092
      · subst h
        exact anchor_4093
      · subst h
        exact anchor_4094
      · subst h
        exact anchor_4095
  · rcases (by omega : k = 4096 ∨ (4096 < k ∧ k < 8160) ∨ (8160 ≤ k ∧ k < 8161)) with
      h | ⟨h1, h2⟩ | ⟨h1, h2⟩
    · subst h
      exact anchor_4096
    · exact anchor_generic k 12 (by norm_num) (by norm_num; omega) (by norm_num; omega)
        (by norm_num; omega)
    · have h : k = 8160 := by omega
      subst h
      exact anchor_8160

/-! ## `createPalette` -/

theorem mapM_ok {α β : Type} (f : α → Except JSError β) (l : List α)
    (h : ∀ a ∈ l, ∃ b, f a = .ok b) :
    ∃ bs, l.mapM f = .ok bs ∧ bs.length = l.length ∧
      ∀ k (hk : k < l.length), ∃ b, bs[k]? = some b ∧ f l[k] = .ok b := by
  induction l with
  | nil => exact ⟨[], rfl, rfl, fun k hk => absurd hk (Nat.not_lt_zero k)⟩
  | cons a l ih =>
    obtain ⟨b, hb⟩ := h a (List.mem_cons_self a l)
    obtain ⟨bs, hbs, hlen, hget⟩ := ih (fun x hx => h x (List.mem_cons_of_mem a hx))
    refine ⟨b :: bs, ?_, by simp [hlen], ?_⟩
    · rw [List.mapM_cons, hb, hbs]; rfl
    · intro k hk
      cases k with
      | zero => exact ⟨b, by simp, hb⟩
      | succ k =>
        obtain ⟨b', hb', hf⟩ := hget k (by simpa using hk)
        exact ⟨b', by simpa using hb', by simpa using hf⟩

/-- A `map` whose callback can only raise a TypeError, and does at some
element, raises a TypeError. -/
theorem mapM_typeError {α β : Type} (f : α → Except JSError β) (l : List α)
    (hall : ∀ a ∈ l, ∀ e, f a = .error e → e = .typeError)
    (hex : ∃ a ∈ l, f a = .error .typeError) : l.mapM f = .error .typeError := by
  induction l with
  | nil => obtain ⟨a, ha, -⟩ := hex; cases ha
  | cons a l ih =>
    rw [List.mapM_cons]
    cases hfa : f a with
    | error e =>
      rw [hall a (List.mem_cons_self a l) e hfa]; rfl
    | ok b =>
      obtain ⟨x, hx, hfx⟩ := hex
      have hxl : x ∈ l := by
        rcases List.mem_cons.mp hx with h | h
        · rw [h, hfa] at hfx; cases hfx
        · exact h
      rw [ih (fun y hy => hall y (List.mem_cons_of_mem a hy)) ⟨x, hxl, hfx⟩]
      rfl

theorem toIndex_intCast (z : ℤ) (hz : 0 ≤ z) : Num.toIndex (.fin (z : ℚ)) = some z.toNat := by
  obtain ⟨n, rfl⟩ := Int.eq_ofNat_of_zero_le hz
  simpa using toIndex_natCast n

theorem index_intCast {α : Type} (xs : List α) (z : ℤ) (hz : 0 ≤ z) (hlt : z < xs.length) :
    ∃ v, index xs (.fin (z : ℚ)) = some v ∧ xs[z.toNat]? = some v := by
  have hlt' : z.toNat < xs.length := by omega
  refine ⟨xs[z.toNat], ?_, List.getElem?_eq_getElem hlt'⟩
  simp only [index, toIndex_intCast z hz]
  exact List.getElem?_eq_getElem hlt'

/-- The step of `createPalette` for `n` anchors: the rounded quotient
`(n - 1) / 255`. -/
theorem palette_step (n : Nat) (h1 : 1 ≤ n) (hn : n ≤ 2 ^ 53) :
    div64 (sub64 (Num.ofNat n) 1) (sub64 (Num.ofNat 256) 1)
      = .fin (grid (((n - 1 : ℕ) : ℚ) / 255)) := by
  have ha : sub64 (Num.ofNat n) 1 = .fin ((n - 1 : ℕ) : ℚ) := by
    rw [Num.ofNat_eq, Num.one_eq, sub64_fin]
    have : (n : ℚ) - 1 = ((n - 1 : ℕ) : ℚ) := by rw [Nat.cast_sub h1]; norm_num
    rw [this, round64_natCast _ (by omega)]
  have hb : sub64 (Num.ofNat 256) 1 = .fin 255 := by
    rw [Num.ofNat_eq, Num.one_eq, sub64_fin]
    have : ((256 : ℕ) : ℚ) - 1 = ((255 : ℕ) : ℚ) := by norm_num
    rw [this, round64_natCast _ (by norm_num)]
    norm_num
  rw [ha, hb, div64_fin _ _ (by norm_num)]
  apply round64_of_lt
  have h0 : (0 : ℚ) ≤ ((n - 1 : ℕ) : ℚ) / 255 := by positivity
  rw [abs_of_nonneg h0]
  have h2 : ((n - 1 : ℕ) : ℚ) ≤ ((2 ^ 53 : ℕ) : ℚ) := by
    have : n - 1 ≤ 2 ^ 53 := by omega
    exact_mod_cast this
  have h3 : ((n - 1 : ℕ) : ℚ) / 255 ≤ ((n - 1 : ℕ) : ℚ) :=
    div_le_self (by positivity) (by norm_num)
  have h4 : (((2 ^ 53 : ℕ) : ℚ)) = 2 ^ (53 : ℤ) := by norm_num
  have h5 : (2 : ℚ) ^ (53 : ℤ) < 2 ^ (1023 : ℤ) :=
    zpow_lt_zpow_right₀ (by norm_num) (by norm_num)
  rw [h4] at h2
  exact lt_of_le_of_lt (le_trans h3 h2) h5

/-- The fractional index of entry `i`, `i * step`, lies between 0 and the
index of the last anchor. -/
theorem palette_index_range (k i : ℕ) (hk : k ≤ 8160) (hi : i ≤ 255) :
    ∃ t : ℚ, mul64 (Num.ofNat i) (.fin (grid ((k : ℚ) / 255))) = .fin t ∧ 0 ≤ t ∧ t ≤ k := by
  have hs : 0 ≤ grid ((k : ℚ) / 255) := grid_nonneg _ (by positivity)
  have hi' : (i : ℚ) ≤ 255 := by exact_mod_cast hi
  have hle : (i : ℚ) * grid ((k : ℚ) / 255) ≤ 255 * grid ((k : ℚ) / 255) :=
    mul_le_mul_of_nonneg_right hi' hs
  have h0 : (0 : ℚ) ≤ (i : ℚ) * grid ((k : ℚ) / 255) := mul_nonneg (by positivity) hs
  have hup := round64_mono hle
  have hdown := round64_mono h0
  rw [anchor_index k hk] at hup
  rw [round64_zero] at hdown
  rw [Num.ofNat_eq, mul64_fin]
  rcases round64_cases ((i : ℚ) * grid ((k : ℚ) / 255)) with ⟨hr, -⟩ | ⟨hr, -⟩ | ⟨hr, -⟩
  · rw [hr] at hup hdown ⊢
    exact ⟨_, rfl, hdown, hup⟩
  · rw [hr] at hup; exact absurd hup (fun h => h)
  · rw [hr] at hdown; exact absurd hdown (fun h => h)

theorem paletteEntry_ok (rgb : List RGB) (k : ℕ) (hlen : rgb.length = k + 1) (hk : k ≤ 8160)
    (i : Nat) (hi : i ≤ 255) :
    ∃ e, paletteEntry rgb (.fin (grid ((k : ℚ) / 255))) i = .ok e := by
  obtain ⟨t, ht, ht0, ht1⟩ := palette_index_range k i hk hi
  have hfloor0 : 0 ≤ ⌊t⌋ := Int.floor_nonneg.mpr ht0
  have hceil0 : 0 ≤ ⌈t⌉ := Int.ceil_nonneg ht0
  have hceil1 : ⌈t⌉ < (rgb.length : ℤ) := by
    have : ⌈t⌉ ≤ (k : ℤ) := by rw [Int.ceil_le]; exact_mod_cast ht1
    rw [hlen]; push_cast; omega
  have hfloor1 : ⌊t⌋ < (rgb.length : ℤ) := lt_of_le_of_lt (Int.floor_le_ceil _) hceil1
  obtain ⟨lo, hlo, -⟩ := index_intCast rgb _ hfloor0 hfloor1
  obtain ⟨up, hup, -⟩ := index_intCast rgb _ hceil0 hceil1
  simp only [paletteEntry, ht, floor_fin, ceil_fin, hlo, hup]
  exact ⟨_, rfl⟩

/-- The callback of `createPalette` raises nothing but a TypeError. -/
theorem paletteEntry_error (rgb : List RGB) (step : Num) (i : Nat) (e : JSError)
    (h : paletteEntry rgb step i = .error e) : e = .typeError := by
  unfold paletteEntry at h
  dsimp only at h
  split at h
  · cases h
  · injection h with h; exact h.symm

/-- An entry whose upper anchor is missing raises a TypeError. -/
theorem paletteEntry_missing (rgb : List RGB) (step : Num) (i : Nat)
    (h : index rgb (Math.ceil (mul64 (Num.ofNat i) step)) = none) :
    paletteEntry rgb step i = .error .typeError := by
  unfold paletteEntry
  dsimp only
  rw [h]
  cases index rgb (Math.floor (mul64 (Num.ofNat i) step)) <;> rfl

/-- Interpolating from a byte to itself at `t = 0` gives the byte. -/
theorem lerp_byte (r : ℕ) (hr : r ≤ 255) : lerp (.fin (r : ℚ)) (.fin (r : ℚ)) (.fin 0) = .fin r := by
  unfold lerp
  rw [sub64_fin, sub_self, round64_zero, mul64_fin, zero_mul, round64_zero, add64_fin, add_zero,
    round64_natCast r (by omega)]

/-- The palette entry at a position whose fractional index is the integer `k`
is the anchor `k`, when its channels are bytes. -/
theorem paletteEntry_at_anchor (anchors : List String) (step : Num) (i k : Nat) (a : String)
    (hidx : mul64 (Num.ofNat i) step = .fin (k : ℚ)) (hk : anchors[k]? = some a)
    (hbytes : ∃ r g b : ℕ, r ≤ 255 ∧ g ≤ 255 ∧ b ≤ 255 ∧
      colorToRGB a = ⟨.fin (r : ℚ), .fin (g : ℚ), .fin (b : ℚ)⟩) :
    paletteEntry (anchors.map colorToRGB) step i = .ok (colorToRGB a) := by
  have hget : (anchors.map colorToRGB)[k]? = some (colorToRGB a) := by
    rw [List.getElem?_map, hk]; rfl
  have hfl : ⌊(k : ℚ)⌋ = (k : ℤ) := Int.floor_natCast k
  have hce : ⌈(k : ℚ)⌉ = (k : ℤ) := Int.ceil_natCast k
  obtain ⟨r, g, b, hr, hg, hb, hc⟩ := hbytes
  simp only [paletteEntry, hidx, floor_fin, ceil_fin, hfl, hce, Int.cast_natCast,
    index_natCast, hget, sub64_fin, sub_self, round64_zero, hc, lerp_byte r hr, lerp_byte g hg,
    lerp_byte b hb]

/-! ## Well-formed anchors -/

theorem hexValue_le (c : Char) (d : Nat) (h : hexValue c = some d) : d ≤ 15 := by
  unfold hexValue at h
  simp only at h
  split_ifs at h <;> (injection h with h; omega)

theorem hexValue_range (c : Char) (h : (hexValue c).isSome = true) :
    (48 ≤ c.toNat ∧ c.toNat ≤ 57) ∨ (97 ≤ c.toNat ∧ c.toNat ≤ 102) ∨
      (65 ≤ c.toNat ∧ c.toNat ≤ 70) := by
  unfold hexValue at h
  simp only at h
  split_ifs at h with h1 h2 h3
  · exact Or.inl h1
  · exact Or.inr (Or.inl h2)
  · exact Or.inr (Or.inr h3)
  · exact absurd h (by simp)

theorem hex_not_white (c : Char) (h : (hexValue c).isSome = true) : isStrWhiteSpace c = false := by
  have hr := hexValue_range c h
  unfold isStrWhiteSpace
  generalize c.toNat = n at hr ⊢
  rw [← Bool.not_eq_true]
  simp
  omega
theorem hex_ne (c k : Char) (h : (hexValue c).isSome = true) (hk : (hexValue k).isSome = false) :
    c ≠ k := by
  intro hck
  rw [hck, hk] at h
  exact absurd h (by decide)

/-- `parseInt` of two hexadecimal digits is the byte they denote. -/
theorem parseInt16_two (c1 c2 : Char) (h1 : (hexValue c1).isSome = true)
    (h2 : (hexValue c2).isSome = true) :
    ∃ n : ℕ, n ≤ 255 ∧ parseInt16 [c1, c2] = .fin (n : ℚ) := by
  obtain ⟨d1, hd1⟩ := Option.isSome_iff_exists.mp h1
  obtain ⟨d2, hd2⟩ := Option.isSome_iff_exists.mp h2
  have hle1 := hexValue_le c1 d1 hd1
  have hle2 := hexValue_le c2 d2 hd2
  have hw : isStrWhiteSpace c1 = false := hex_not_white c1 h1
  have hminus : c1 ≠ '-' := hex_ne c1 '-' h1 (by decide)
  have hplus : c1 ≠ '+' := hex_ne c1 '+' h1 (by decide)
  have hx : c2 ≠ 'x' := hex_ne c2 'x' h2 (by decide)
  have hX : c2 ≠ 'X' := hex_ne c2 'X' h2 (by decide)
  refine ⟨16 * (16 * 0 + d1) + d2, by omega, ?_⟩
  simp [parseInt16, List.dropWhile, hw, hminus, hplus, hx, hX, List.takeWhile, h1, h2,
    hexNumber, hd1, hd2]

theorem colorToRGB_wellFormed (a : String) (h : wellFormedHex a = true) :
    ∃ r g b : ℕ, r ≤ 255 ∧ g ≤ 255 ∧ b ≤ 255 ∧
      colorToRGB a = ⟨.fin (r : ℚ), .fin (g : ℚ), .fin (b : ℚ)⟩ := by
  unfold wellFormedHex at h
  simp only [Bool.and_eq_true, decide_eq_true_eq, List.all_eq_true] at h
  obtain ⟨hlen, hall⟩ := h
  unfold colorToRGB
  generalize (if a.toList.head? = some '#' then a.toList.drop 1 else a.toList) = hex at hlen hall ⊢
  match hex, hlen with
  | [c1, c2, c3, c4, c5, c6], _ =>
    obtain ⟨r, hr, hpr⟩ := parseInt16_two c1 c2 (hall c1 (by simp)) (hall c2 (by simp))
    obtain ⟨g, hg, hpg⟩ := parseInt16_two c3 c4 (hall c3 (by simp)) (hall c4 (by simp))
    obtain ⟨b, hb, hpb⟩ := parseInt16_two c5 c6 (hall c5 (by simp)) (hall c6 (by simp))
    refine ⟨r, g, b, hr, hg, hb, ?_⟩
    have s1 : substring [c1, c2, c3, c4, c5, c6] 0 2 = [c1, c2] := rfl
    have s2 : substring [c1, c2, c3, c4, c5, c6] 2 4 = [c3, c4] := rfl
    have s3 : substring [c1, c2, c3, c4, c5, c6] 4 6 = [c5, c6] := rfl
    simp only [s1, s2, s3, hpr, hpg, hpb]

/-- For a non-empty list of at most 8161 anchors `createPalette` returns 256
entries, each the result of its callback at that position. -/
theorem createPalette_ok (anchors : List String) (hne : anchors ≠ [])
    (hlen : anchors.length ≤ 8161) :
    ∃ pal, createPalette anchors = .ok pal ∧ pal.length = 256 ∧
      ∀ k, k < 256 → ∃ e, pal[k]? = some e ∧
        paletteEntry (anchors.map colorToRGB)
          (.fin (grid (((anchors.length - 1 : ℕ) : ℚ) / 255))) k = .ok e := by
  have hn : 1 ≤ anchors.length := List.length_pos.mpr hne
  have hstep := palette_step (anchors.map colorToRGB).length
    (by rw [List.length_map]; exact hn) (by rw [List.length_map]; omega)
  rw [List.length_map] at hstep
  obtain ⟨pal, hpal, hplen, hget⟩ := mapM_ok
    (paletteEntry (anchors.map colorToRGB) (.fin (grid (((anchors.length - 1 : ℕ) : ℚ) / 255))))
    (List.range 256) (by
      intro i hi
      exact paletteEntry_ok (anchors.map colorToRGB) (anchors.length - 1)
        (by rw [List.length_map]; omega) (by omega) i
        (by have := List.mem_range.mp hi; omega))
  refine ⟨pal, ?_, by rw [hplen, List.length_range], ?_⟩
  · show (List.range 256).mapM (paletteEntry (anchors.map colorToRGB)
      (div64 (sub64 (Num.ofNat (anchors.map colorToRGB).length) 1)
        (sub64 (Num.ofNat 256) 1))) = _
    rw [List.length_map, hstep]
    exact hpal
  · intro k hk
    obtain ⟨e, he, hf⟩ := hget k (by rw [List.length_range]; exact hk)
    rw [List.getElem_range] at hf
    exact ⟨e, he, hf⟩

/-- C3 (amended). For a non-empty list of at most 8161 well-formed six-digit
hex anchors, `createPalette` returns exactly 256 entries; entry 0 is
`colorToRGB` of the first anchor and entry 255 is `colorToRGB` of the last; for
a single anchor every entry is that anchor's colour. The channels of every
anchor's colour are integers in `[0, 255]`. -/
theorem createPalette_endpoints (anchors : List String) (hne : anchors ≠ [])
    (hlen : anchors.length ≤ 8161) (hwf : ∀ a ∈ anchors, wellFormedHex a = true) :
    ∃ pal, createPalette anchors = .ok pal ∧ pal.length = 256 ∧
      pal[0]? = some (colorToRGB (anchors.head hne)) ∧
      pal[255]? = some (colorToRGB (anchors.getLast hne)) ∧
      (anchors.length = 1 → ∀ e ∈ pal, e = colorToRGB (anchors.head hne)) ∧
      (∀ a ∈ anchors, ∃ r g b : ℕ, r ≤ 255 ∧ g ≤ 255 ∧ b ≤ 255 ∧
        colorToRGB a = ⟨.fin (r : ℚ), .fin (g : ℚ), .fin (b : ℚ)⟩) := by
  obtain ⟨pal, hpal, hplen, hget⟩ := createPalette_ok anchors hne hlen
  have hn : 1 ≤ anchors.length := List.length_pos.mpr hne
  have hhead : anchors[0]? = some (anchors.head hne) := by
    cases anchors with
    | nil => exact absurd rfl hne
    | cons a l => simp
  have hlast : anchors[anchors.length - 1]? = some (anchors.getLast hne) := by
    rw [List.getLast_eq_getElem]
    exact List.getElem?_eq_getElem (by omega)
  have hbytes : ∀ a ∈ anchors, ∃ r g b : ℕ, r ≤ 255 ∧ g ≤ 255 ∧ b ≤ 255 ∧
      colorToRGB a = ⟨.fin (r : ℚ), .fin (g : ℚ), .fin (b : ℚ)⟩ :=
    fun a ha => colorToRGB_wellFormed a (hwf a ha)
  refine ⟨pal, hpal, hplen, ?_, ?_, ?_, hbytes⟩
  · obtain ⟨e, he, hf⟩ := hget 0 (by decide)
    have hidx : mul64 (Num.ofNat 0) (.fin (grid (((anchors.length - 1 : ℕ) : ℚ) / 255)))
        = .fin ((0 : ℕ) : ℚ) := by
      rw [Num.ofNat_eq, mul64_fin, Nat.cast_zero, zero_mul, round64_zero]
    rw [paletteEntry_at_anchor anchors _ 0 0 _ hidx hhead
      (hbytes _ (List.head_mem hne))] at hf
    rw [he]; injection hf with hf; rw [hf]
  · obtain ⟨e, he, hf⟩ := hget 255 (by decide)
    have hidx : mul64 (Num.ofNat 255) (.fin (grid (((anchors.length - 1 : ℕ) : ℚ) / 255)))
        = .fin ((anchors.length - 1 : ℕ) : ℚ) := by
      rw [Num.ofNat_eq, mul64_fin]
      have := anchor_index (anchors.length - 1) (by omega)
      rw [← this]
      norm_num
    rw [paletteEntry_at_anchor anchors _ 255 (anchors.length - 1) _ hidx hlast
      (hbytes _ (List.getLast_mem hne))] at hf
    rw [he]; injection hf with hf; rw [hf]
  · intro hone e hmem
    obtain ⟨k, hk⟩ := List.mem_iff_getElem?.mp hmem
    have hk256 : k < 256 := by
      have := (List.getElem?_eq_some.mp hk).1
      rw [hplen] at this
      exact this
    obtain ⟨e', he', hf⟩ := hget k hk256
    have hidx : mul64 (Num.ofNat k) (.fin (grid (((anchors.length - 1 : ℕ) : ℚ) / 255)))
        = .fin ((0 : ℕ) : ℚ) := by
      rw [hone, Num.ofNat_eq, mul64_fin]
      norm_num
      rw [grid_zero, mul_zero, round64_zero]
    rw [paletteEntry_at_anchor anchors _ k 0 _ hidx hhead
      (hbytes _ (List.head_mem hne))] at hf
    rw [hk] at he'
    injection he' with he'
    injection hf with hf
    rw [he', hf]

theorem createPalette_endpoints_witness :
    ∃ pal, createPalette ["000000", "ffffff"] = .ok pal ∧ pal.length = 256 ∧
      pal[0]? = some ⟨.fin 0, .fin 0, .fin 0⟩ ∧
      pal[255]? = some ⟨.fin 255, .fin 255, .fin 255⟩ := by
  obtain ⟨pal, hpal, hlen, h0, h255, -, -⟩ := createPalette_endpoints ["000000", "ffffff"]
    (by decide) (by decide) (by decide)
  refine ⟨pal, hpal, hlen, ?_, ?_⟩
  · rw [h0]; decide
  · rw [h255]; decide

/-- The step for 8162 anchors and the index of the last entry: `8161 / 255`
rounds up, and `255` times it rounds to `8161 + 2 ^ -40`. -/
theorem index_8161 :
    round64 (255 * grid (((8161 : ℕ) : ℚ) / 255)) = .fin (8973114394279937 / 2 ^ 40) := by
  have hq : (0 : ℚ) < ((8161 : ℕ) : ℚ) / 255 := by norm_num
  have hb : binade (((8161 : ℕ) : ℚ) / 255) = 5 :=
    binade_eq _ 5 (by norm_num) (by rw [abs_of_pos hq]; norm_num)
      (by rw [abs_of_pos hq]; norm_num)
  rw [grid_eval _ 5 4504151539089537 hb (by rw [abs_lt]; constructor <;> norm_num)]
  have hp : (0 : ℚ) < 255 * (((4504151539089537 : ℤ) : ℚ) * 2 ^ ((5 : ℤ) - 52)) := by norm_num
  rw [round64_eval _ 12 8973114394279937 (by norm_num) (by norm_num)
    (by rw [abs_of_pos hp]; norm_num) (by rw [abs_of_pos hp]; norm_num)
    (by rw [abs_lt]; constructor <;> norm_num)]
  congr 1
  norm_num

/-- C3, as stated, fails for long anchor lists. With 8162 well-formed anchors
the step `8161 / 255` rounds up in binary64, the index of entry 255 is
`8161.000000000001`, its `Math.ceil` is 8162, and reading `.r` of the missing
anchor `rgb[8162]` raises a TypeError: no palette is returned. -/
theorem createPalette_8162_anchors :
    (List.replicate 8162 "000000") ≠ [] ∧
    (∀ a ∈ List.replicate 8162 "000000", wellFormedHex a = true) ∧
    createPalette (List.replicate 8162 "000000") = .error .typeError := by
  refine ⟨?_, ?_, ?_⟩
  · intro h
    have := congrArg List.length h
    rw [List.length_replicate, List.length_nil] at this
    omega
  · intro a ha
    rw [List.eq_of_mem_replicate ha]
    decide
  · have hlen : ((List.replicate 8162 "000000").map colorToRGB).length = 8162 := by
      rw [List.length_map, List.length_replicate]
    have hstep := palette_step 8162 (by norm_num) (by norm_num)
    show (List.range 256).mapM (paletteEntry ((List.replicate 8162 "000000").map colorToRGB)
      (div64 (sub64 (Num.ofNat ((List.replicate 8162 "000000").map colorToRGB).length) 1)
        (sub64 (Num.ofNat 256) 1))) = _
    rw [hlen, hstep]
    apply mapM_typeError
    · intro i _ e he
      exact paletteEntry_error _ _ _ _ he
    · refine ⟨255, List.mem_range.mpr (by norm_num), ?_⟩
      apply paletteEntry_missing
      have h1 : (8162 - 1 : ℕ) = 8161 := by norm_num
      rw [Num.ofNat_eq, mul64_fin, h1]
      have h2 : ((255 : ℕ) : ℚ) = 255 := by norm_num
      rw [h2, index_8161, ceil_fin]
      have hceil : ⌈(8973114394279937 : ℚ) / 2 ^ 40⌉ = ((8162 : ℕ) : ℤ) := by
        rw [Int.ceil_eq_iff]; constructor <;> norm_num
      rw [hceil, Int.cast_natCast, index_natCast]
      exact List.getElem?_eq_none (by rw [hlen])

/-! ## Sorting and the `dsm` layer -/

theorem notAfter_sub (a b : ℚ) : notAfter (Num.fin a - Num.fin b) = true ↔ a ≤ b := by
  simp [notAfter]

/-- Sorting finite samples with the comparator `(x, y) => x - y` sorts them by
their values. -/
theorem sort_fin (qs : List ℚ) :
    sort (fun x y => x - y) (qs.map Num.fin)
      = (qs.insertionSort (fun a b => a ≤ b)).map Num.fin := by
  unfold sort
  symm
  apply List.map_insertionSort
  intro a _ b _
  exact (notAfter_sub a b).symm

theorem sorted_extremes (l : List ℚ) (hs : l.Sorted (fun a b => a ≤ b)) (hne : l ≠ []) :
    ∀ q ∈ l, l.head hne ≤ q ∧ q ≤ l.getLast hne := by
  intro q hq
  obtain ⟨i, hi, rfl⟩ := List.getElem_of_mem hq
  have hlen : 0 < l.length := List.length_pos.mpr hne
  constructor
  · have h0 := hs.rel_get_of_le (a := ⟨0, hlen⟩) (b := ⟨i, hi⟩) (Nat.zero_le i)
    simp only [List.get_eq_getElem] at h0
    rw [List.head_eq_getElem]
    exact h0
  · have h1 := hs.rel_get_of_le (a := ⟨i, hi⟩) (b := ⟨l.length - 1, by omega⟩)
      (by show i ≤ l.length - 1; omega)
    simp only [List.get_eq_getElem] at h1
    rw [List.getLast_eq_getElem]
    exact h1

/-- The sorted copy of a non-empty band of finite samples starts with its
smallest sample and ends with its largest. -/
theorem sort_extremes (qs : List ℚ) (hne : qs ≠ []) :
    ∃ mn mx : ℚ, mn ∈ qs ∧ mx ∈ qs ∧ (∀ q ∈ qs, mn ≤ q ∧ q ≤ mx) ∧
      (sort (fun x y => x - y) (qs.map Num.fin))[0]? = some (.fin mn) ∧
      (sort (fun x y => x - y) (qs.map Num.fin)).getLast? = some (.fin mx) := by
  have hne' : qs.insertionSort (fun a b => a ≤ b) ≠ [] := by
    intro h
    have := List.length_insertionSort (fun a b : ℚ => a ≤ b) qs
    rw [h] at this
    exact hne (List.length_eq_zero.mp this.symm)
  have hs : (qs.insertionSort (fun a b => a ≤ b)).Sorted (fun a b => a ≤ b) :=
    List.sorted_insertionSort _ qs
  refine ⟨(qs.insertionSort (fun a b => a ≤ b)).head hne',
    (qs.insertionSort (fun a b => a ≤ b)).getLast hne', ?_, ?_, ?_, ?_, ?_⟩
  · exact (List.mem_insertionSort _).mp (List.head_mem hne')
  · exact (List.mem_insertionSort _).mp (List.getLast_mem hne')
  · intro q hq
    exact sorted_extremes _ hs hne' q ((List.mem_insertionSort _).mpr hq)
  · rw [sort_fin, List.getElem?_map, ← List.head?_eq_getElem?, List.head?_eq_head hne']
    rfl
  · rw [sort_fin, List.getLast?_map, List.getLast?_eq_getLast _ hne']
    rfl

/-- C8. For a non-empty elevation band of finite numbers the `dsm` handler
builds a layer whose range is `[min, max]`, the smallest and the largest
sample of the band (both members of it, bounding every sample); its legend
labels are `min.toFixed(1)` and `max.toFixed(1)` followed by `" m"`, and its
render passes the same `min` and `max` to `renderPalette`. -/
theorem dsmLayer_range (bigToString : ℚ → String) (pal : Palettes) (layerId : String)
    (mask data : Raster) (qs : List ℚ) (hne : qs ≠ [])
    (hband : data.rasters[0]? = some (qs.map Num.fin)) :
    ∃ (layer : Layer) (mn mx : ℚ),
      dsmLayer bigToString pal layerId mask data = .ok layer ∧
      mn ∈ qs ∧ mx ∈ qs ∧ (∀ q ∈ qs, mn ≤ q ∧ q ≤ mx) ∧
      layer.palette = some ⟨pal.rainbowPalette, toFixed bigToString (.fin mn) 1 ++ " m",
        toFixed bigToString (.fin mx) 1 ++ " m"⟩ ∧
      ∀ showRoofOnly month day, layer.render showRoofOnly month day = collect [
        renderPalette ⟨data, if showRoofOnly then some mask else none,
          some pal.rainbowPalette, some (.fin mn), some (.fin mx), none⟩] := by
  obtain ⟨mn, mx, hmn, hmx, hall, h0, hlast⟩ := sort_extremes qs hne
  refine ⟨⟨layerId, mask.bounds,
      some ⟨pal.rainbowPalette, toFixed bigToString (.fin mn) 1 ++ " m",
        toFixed bigToString (.fin mx) 1 ++ " m"⟩,
      fun showRoofOnly _ _ => collect [
        renderPalette ⟨data, if showRoofOnly then some mask else none,
          some pal.rainbowPalette, some (.fin mn), some (.fin mx), none⟩]⟩,
    mn, mx, ?_, hmn, hmx, hall, rfl, ?_⟩
  · simp only [dsmLayer, hband, h0, hlast]
  · intro showRoofOnly month day
    rfl

/-! ## `renderPalette` -/

/-- On a proper range of binary64 numbers every sample that is not NaN
normalises to a number in `[0, 1]`. -/
theorem normalize_unit (lo hi : ℚ) (h : lo < hi) (hlo : isDouble lo) (hhi : isDouble hi)
    (hfin : round64 (hi - lo) ≠ .pinf) (x : Num) (hx : x ≠ .nan) :
    ∃ v : ℚ, normalize x (.fin hi) (.fin lo) = .fin v ∧ 0 ≤ v ∧ v ≤ 1 := by
  obtain ⟨d, hd, hdeq⟩ := round64_sub_pos lo hi h hlo hhi hfin
  have hden : sub64 (.fin hi) (.fin lo) = .fin d := by rw [sub64_fin, hdeq]
  rw [normalize_eq, hden]
  obtain ⟨v, hv, hv0, hv1, -⟩ := clamp_unit _ (div64_not_nan _ d hd (sub64_not_nan x lo hx))
  exact ⟨v, hv, hv0, hv1⟩

/-- A normalised sample maps to a palette index in `0 .. 255`. -/
theorem paletteIndex_valid (v : ℚ) (h0 : 0 ≤ v) (h1 : v ≤ 1) :
    ∃ z : ℤ, 0 ≤ z ∧ z < 256 ∧
      Math.round (mul64 (.fin v) (sub64 (Num.ofNat 256) 1)) = .fin (z : ℚ) := by
  have hb : sub64 (Num.ofNat 256) 1 = .fin 255 := by
    rw [Num.ofNat_eq, Num.one_eq, sub64_fin]
    have : ((256 : ℕ) : ℚ) - 1 = ((255 : ℕ) : ℚ) := by norm_num
    rw [this, round64_natCast _ (by norm_num)]
    norm_num
  have h255 : round64 255 = .fin 255 := by
    have := round64_natCast 255 (by norm_num)
    exact_mod_cast this
  have hup := round64_mono (show v * 255 ≤ 255 by linarith)
  have hdown := round64_mono (show (0 : ℚ) ≤ v * 255 by linarith)
  rw [h255] at hup
  rw [round64_zero] at hdown
  rw [hb, mul64_fin]
  rcases round64_cases (v * 255) with ⟨hr, -⟩ | ⟨hr, -⟩ | ⟨hr, -⟩
  · rw [hr] at hup hdown ⊢
    have ht0 : 0 ≤ grid (v * 255) := hdown
    have ht1 : grid (v * 255) ≤ 255 := hup
    refine ⟨⌊grid (v * 255) + 1 / 2⌋, ?_, ?_, rfl⟩
    · apply Int.floor_nonneg.mpr; linarith
    · rw [Int.floor_lt]; push_cast; linarith
  · rw [hr] at hup; exact absurd hup (fun h => h)
  · rw [hr] at hdown; exact absurd hdown (fun h => h)

theorem paletteChannel_ok (palette : List RGB) (hlen : palette.length = 256)
    (channel : RGB → Num) (z : ℤ) (h0 : 0 ≤ z) (h1 : z < 256) :
    ∃ v, paletteChannel palette channel (.fin (z : ℚ)) = .ok v := by
  obtain ⟨e, he, -⟩ := index_intCast palette z h0 (by rw [hlen]; exact_mod_cast h1)
  exact ⟨channel e, by simp only [paletteChannel, he]⟩

theorem mapM_error {α β : Type} (f : α → Except JSError β) (a : α) (l : List α) (e : JSError)
    (h : f a = .error e) : (a :: l).mapM f = .error e := by
  rw [List.mapM_cons, h]; rfl

theorem band_eq (r : Raster) (k : Nat) (values : List Num) (h : r.rasters[k]? = some values) :
    band r k = .ok values := by
  simp only [band, h]

/-- The last step of `renderPalette` once its palette, its band and its three
index maps are known. -/
theorem renderPalette_eq (o : PaletteOptions) (palette : List RGB) (values rs gs bs : List Num)
    (hpal : createPalette (o.colors.getD ["000000", "ffffff"]) = .ok palette)
    (hband : o.data.rasters[o.index.getD 0]? = some values)
    (hrs : ((values.map (fun x => normalize x (o.max.getD 1) (o.min.getD 0))).map
      (fun x => Math.round (mul64 x (sub64 (Num.ofNat palette.length) 1)))).mapM
        (paletteChannel palette RGB.r) = .ok rs)
    (hgs : ((values.map (fun x => normalize x (o.max.getD 1) (o.min.getD 0))).map
      (fun x => Math.round (mul64 x (sub64 (Num.ofNat palette.length) 1)))).mapM
        (paletteChannel palette RGB.g) = .ok gs)
    (hbs : ((values.map (fun x => normalize x (o.max.getD 1) (o.min.getD 0))).map
      (fun x => Math.round (mul64 x (sub64 (Num.ofNat palette.length) 1)))).mapM
        (paletteChannel palette RGB.b) = .ok bs) :
    renderPalette o
      = renderRGB ⟨o.data.width, o.data.height, [rs, gs, bs], o.data.bounds⟩ o.mask := by
  unfold renderPalette
  rw [hpal]
  dsimp only
  rw [band_eq _ _ _ hband]
  dsimp only
  rw [hrs, hgs, hbs]

theorem renderPalette_error (o : PaletteOptions) (palette : List RGB) (values : List Num)
    (hpal : createPalette (o.colors.getD ["000000", "ffffff"]) = .ok palette)
    (hband : o.data.rasters[o.index.getD 0]? = some values)
    (hrs : ((values.map (fun x => normalize x (o.max.getD 1) (o.min.getD 0))).map
      (fun x => Math.round (mul64 x (sub64 (Num.ofNat palette.length) 1)))).mapM
        (paletteChannel palette RGB.r) = .error .typeError) :
    renderPalette o = .error .typeError := by
  unfold renderPalette
  rw [hpal]
  dsimp only
  rw [band_eq _ _ _ hband]
  dsimp only
  rw [hrs]

/-- When a palette of at most 8161 anchors is built, the band exists, none of
its samples is NaN, the range is a proper range of binary64 numbers and the
canvas is not empty, `renderPalette` returns a canvas of the size `renderRGB`
gives it, with four bytes for each of its pixels. -/
theorem renderPalette_ok (o : PaletteOptions) (values : List Num) (lo hi : ℚ)
    (hcolors : o.colors.getD ["000000", "ffffff"] ≠ [])
    (hclen : (o.colors.getD ["000000", "ffffff"]).length ≤ 8161)
    (hband : o.data.rasters[o.index.getD 0]? = some values)
    (hfin : ∀ v ∈ values, v ≠ .nan)
    (hlo : o.min.getD 0 = .fin lo) (hhi : o.max.getD 1 = .fin hi) (hlt : lo < hi)
    (hdlo : isDouble lo) (hdhi : isDouble hi) (hwidth : round64 (hi - lo) ≠ .pinf)
    (hdata : 0 < o.data.width ∧ 0 < o.data.height)
    (hmask : ∀ m, o.mask = some m → 0 < m.width ∧ 0 < m.height ∧ 0 < m.rasters.length) :
    ∃ c, renderPalette o = .ok c ∧
      c.width = (match o.mask with
        | some m => m.width
        | none => o.data.width) ∧
      c.height = (match o.mask with
        | some m => m.height
        | none => o.data.height) ∧
      c.data.length = c.width * c.height * 4 := by
  obtain ⟨palette, hpal, hplen, -⟩ := createPalette_ok _ hcolors hclen
  have hidx : ∀ (channel : RGB → Num), ∀ i ∈ (values.map (fun x =>
      normalize x (o.max.getD 1) (o.min.getD 0))).map
        (fun x => Math.round (mul64 x (sub64 (Num.ofNat palette.length) 1))),
      ∃ v, paletteChannel palette channel i = .ok v := by
    intro channel i hi
    simp only [List.map_map, List.mem_map, Function.comp] at hi
    obtain ⟨v, hv, rfl⟩ := hi
    obtain ⟨t, ht, ht0, ht1⟩ := normalize_unit lo hi hlt hdlo hdhi hwidth v (hfin v hv)
    obtain ⟨z, hz0, hz1, hz⟩ := paletteIndex_valid t ht0 ht1
    rw [hlo, hhi, hplen, ht, hz]
    exact paletteChannel_ok palette hplen channel z hz0 hz1
  obtain ⟨rs, hrs, -, -⟩ := mapM_ok _ _ (hidx RGB.r)
  obtain ⟨gs, hgs, -, -⟩ := mapM_ok _ _ (hidx RGB.g)
  obtain ⟨bs, hbs, -, -⟩ := mapM_ok _ _ (hidx RGB.b)
  rw [renderPalette_eq o palette values rs gs bs hpal hband hrs hgs hbs]
  obtain ⟨hnone, hsome⟩ := renderRGB_ok
    ⟨o.data.width, o.data.height, [rs, gs, bs], o.data.bounds⟩ rs gs bs rfl rfl rfl
  cases hm : o.mask with
  | none =>
    refine ⟨_, hnone hdata.1 hdata.2, rfl, rfl, ?_⟩
    exact (renderLoop_pixel o.data.width o.data.height o.data.width o.data.height rs gs bs none
      0 0 hdata.1 hdata.2).1
  | some m =>
    obtain ⟨hmw, hmh, hmb⟩ := hmask m hm
    refine ⟨_, hsome m _ (List.getElem?_eq_getElem hmb) hmw hmh, rfl, rfl, ?_⟩
    dsimp only
    exact (renderLoop_pixel o.data.width o.data.height m.width m.height rs gs bs (some _)
      0 0 hmw hmh).1

/-- When the first sample of the band normalises to NaN, `renderPalette` raises
a TypeError: `palette[NaN]` is `undefined`. -/
theorem renderPalette_nan (o : PaletteOptions) (v : Num) (rest : List Num)
    (hcolors : o.colors.getD ["000000", "ffffff"] ≠ [])
    (hclen : (o.colors.getD ["000000", "ffffff"]).length ≤ 8161)
    (hband : o.data.rasters[o.index.getD 0]? = some (v :: rest))
    (hnan : normalize v (o.max.getD 1) (o.min.getD 0) = .nan) :
    renderPalette o = .error .typeError := by
  obtain ⟨palette, hpal, -, -⟩ := createPalette_ok _ hcolors hclen
  have hmul : ∀ x : Num, Math.round (mul64 Num.nan x) = .nan := by
    intro x; cases x <;> rfl
  apply renderPalette_error o palette (v :: rest) hpal hband
  simp only [List.map_cons, hnan, hmul]
  exact mapM_error _ _ _ _ rfl

theorem normalize_degenerate (c : ℚ) : normalize (.fin c) (.fin c) (.fin c) = .nan := by
  rw [normalize_eq, sub64_fin, sub_self, round64_zero]
  show clamp (Num.round (Num.fin 0 / Num.fin 0)) 0 1 = _
  rw [Num.fin_div_zero, if_pos rfl]
  rfl

/-- C5. The code at the failing input: with `max = min = 5`, `normalize(5, 5, 5)`
is NaN; `renderPalette` on the constant raster raises a TypeError, and so does
the render of the `dsm` layer built from it. -/
theorem normalize_degenerate_range (bigToString : ℚ → String) :
    normalize (.fin 5) (.fin 5) (.fin 5) = .nan ∧
    renderPalette ⟨⟨2, 2, [[.fin 5, .fin 5, .fin 5, .fin 5]], ⟨.fin 1, .fin 0, .fin 1, .fin 0⟩⟩,
      none, none, some (.fin 5), some (.fin 5), none⟩ = .error .typeError ∧
    ∃ layer, dsmLayer bigToString ⟨[], ["0000ff", "ff0000"], [], []⟩ "dsm"
        ⟨2, 2, [[.fin 1, .fin 1, .fin 1, .fin 1]], ⟨.fin 1, .fin 0, .fin 1, .fin 0⟩⟩
        ⟨2, 2, [[.fin 5, .fin 5, .fin 5, .fin 5]], ⟨.fin 1, .fin 0, .fin 1, .fin 0⟩⟩
          = .ok layer ∧
      layer.render false 0 0 = .error .typeError := by
  refine ⟨normalize_degenerate 5, ?_, ?_⟩
  · exact renderPalette_nan _ (.fin 5) [.fin 5, .fin 5, .fin 5] (by decide) (by decide) rfl
      (normalize_degenerate 5)
  · obtain ⟨mn, mx, hmn, hmx, -, h0, hlast⟩ := sort_extremes [5, 5, 5, 5] (by decide)
    have hmn5 : mn = 5 := by simpa using hmn
    have hmx5 : mx = 5 := by simpa using hmx
    subst hmn5
    subst hmx5
    refine ⟨⟨"dsm", ⟨.fin 1, .fin 0, .fin 1, .fin 0⟩,
      some ⟨["0000ff", "ff0000"], toFixed bigToString (.fin 5) 1 ++ " m",
        toFixed bigToString (.fin 5) 1 ++ " m"⟩,
      fun showRoofOnly _ _ => collect [
        renderPalette ⟨⟨2, 2, [[.fin 5, .fin 5, .fin 5, .fin 5]],
            ⟨.fin 1, .fin 0, .fin 1, .fin 0⟩⟩,
          if showRoofOnly then some ⟨2, 2, [[.fin 1, .fin 1, .fin 1, .fin 1]],
            ⟨.fin 1, .fin 0, .fin 1, .fin 0⟩⟩ else none,
          some ["0000ff", "ff0000"], some (.fin 5), some (.fin 5), none⟩]⟩, ?_, ?_⟩
    · have hband : (⟨2, 2, [[.fin 5, .fin 5, .fin 5, .fin 5]],
          ⟨.fin 1, .fin 0, .fin 1, .fin 0⟩⟩ : Raster).rasters[0]?
          = some (List.map Num.fin [5, 5, 5, 5]) := rfl
      simp only [dsmLayer, hband, h0, hlast]
    have := renderPalette_nan
      ⟨⟨2, 2, [[.fin 5, .fin 5, .fin 5, .fin 5]], ⟨.fin 1, .fin 0, .fin 1, .fin 0⟩⟩,
        none, some ["0000ff", "ff0000"], some (.fin 5), some (.fin 5), none⟩
      (.fin 5) [.fin 5, .fin 5, .fin 5] (by decide) (by decide) rfl (normalize_degenerate 5)
    show collect [renderPalette _] = _
    simp only [Bool.false_eq_true, if_false]
    rw [this]
    rfl

/-! ## Bit operations and the `hourlyShade` layer -/

theorem toUint32_natCast (n : Nat) : toUint32 (.fin (n : ℚ)) = n % 2 ^ 32 := by
  have h0 : (0 : ℚ) ≤ (n : ℚ) := Nat.cast_nonneg n
  simp only [toUint32, h0, if_true, Int.floor_natCast]
  norm_cast

theorem int32_small (u : Nat) (h : u < 2 ^ 31) : int32 u = (u : ℤ) := by
  have hmod : u % 2 ^ 32 = u := Nat.mod_eq_of_lt (by omega)
  simp only [int32, hmod, h, if_true]

theorem and_two_pow_eq (n k : Nat) : n &&& 2 ^ k = if n.testBit k then 2 ^ k else 0 := by
  apply Nat.eq_of_testBit_eq
  intro i
  rw [Nat.testBit_and, Nat.testBit_two_pow]
  by_cases hik : k = i
  · subst hik
    cases hb : n.testBit k <;> simp [Nat.testBit_two_pow_self]
  · cases hb : n.testBit k <;> simp [hik, Nat.testBit_two_pow_of_ne hik]

theorem two_pow_lt (k : Nat) (hk : k ≤ 30) : 2 ^ k < 2 ^ 31 :=
  Nat.pow_lt_pow_right (by decide) (by omega)

/-- The mask `1 << (day - 1)` for a day of the month. -/
theorem shiftLeft_day (d : Nat) (h1 : 1 ≤ d) (h31 : d ≤ 31) :
    shiftLeft 1 (Num.fin (d : ℚ) - 1) = .fin ((2 ^ (d - 1) : ℕ) : ℚ) := by
  have hsub : (Num.fin (d : ℚ) - 1 : Num) = .fin ((d - 1 : ℕ) : ℚ) := by
    rw [Num.lit_eq, Num.fin_sub, Nat.cast_sub h1]
  have hone : (1 : Num) = .fin ((1 : ℕ) : ℚ) := rfl
  rw [hsub, hone]
  simp only [shiftLeft, toUint32_natCast]
  have hd : (d - 1) % 2 ^ 32 % 32 = d - 1 := by omega
  have h1' : 1 % 2 ^ 32 = 1 := by decide
  rw [hd, h1', Nat.one_mul, int32_small _ (two_pow_lt _ (by omega))]
  norm_cast

/-- The sample the `hourlyShade` layer extracts from a non-negative integer
pixel: the bit `day - 1` in place, `2 ^ (day - 1)` when it is set and `0` when
it is clear. -/
theorem bitAnd_day (n d : Nat) (h1 : 1 ≤ d) (h31 : d ≤ 31) :
    bitAnd (.fin (n : ℚ)) (shiftLeft 1 (Num.fin (d : ℚ) - 1))
      = .fin (((if n.testBit (d - 1) then 2 ^ (d - 1) else 0 : ℕ) : ℕ) : ℚ) := by
  rw [shiftLeft_day d h1 h31]
  simp only [bitAnd, toUint32_natCast]
  have hpow : 2 ^ (d - 1) % 2 ^ 32 = 2 ^ (d - 1) :=
    Nat.mod_eq_of_lt (lt_trans (two_pow_lt _ (by omega)) (by decide))
  rw [hpow, and_two_pow_eq, Nat.testBit_mod_two_pow]
  have hlt : d - 1 < 32 := by omega
  simp only [hlt, decide_True, Bool.true_and]
  have hsmall : (if n.testBit (d - 1) = true then 2 ^ (d - 1) else 0) < 2 ^ 31 := by
    split
    · exact two_pow_lt _ (by omega)
    · decide
  rw [int32_small _ hsmall]
  norm_cast

/-- Every result of `&` is a finite number. -/
theorem bitAnd_fin (a b : Num) : ∃ q : ℚ, bitAnd a b = .fin q := ⟨_, rfl⟩

theorem isDouble_zero : isDouble 0 := round64_zero

theorem isDouble_one : isDouble 1 := round64_one

theorem normalize_bit (n k : Nat) (hk : k ≤ 52) :
    normalize (.fin (((if n.testBit k then 2 ^ k else 0 : ℕ) : ℕ) : ℚ)) (.fin 1) (.fin 0)
      = .fin (if n.testBit k then 1 else 0) := by
  have hpow : 2 ^ k ≤ 2 ^ 53 := Nat.pow_le_pow_right (by norm_num) (by omega)
  have hle : (if n.testBit k then 2 ^ k else 0 : ℕ) ≤ 2 ^ 53 := by
    split
    · exact hpow
    · exact Nat.zero_le _
  rw [normalize_eq, sub64_fin, sub64_fin, sub_zero, sub_zero, round64_one,
    round64_natCast _ hle, div64_fin _ _ (by norm_num), div_one, round64_natCast _ hle,
    Num.zero_eq, Num.one_eq, clamp_fin]
  cases hb : n.testBit k
  · simp
  · have : (1 : ℚ) ≤ (2 : ℚ) ^ k := one_le_pow₀ (by norm_num)
    simp [this]

theorem shadeData_ok (months : List Raster) (month : Nat) (day : Num) (m : Raster)
    (hmonth : months[month]? = some m) :
    shadeData months (.fin (month : ℚ)) day = .ok ⟨m.width, m.height,
      m.rasters.map (fun values => values.map (fun x => bitAnd x (shiftLeft 1 (day - 1)))),
      m.bounds⟩ := by
  simp only [shadeData, index_natCast, hmonth]

theorem collect_ok {α : Type} (xs : List (Except JSError α)) (h : ∀ x ∈ xs, ∃ a, x = .ok a) :
    ∃ as, collect xs = .ok as ∧ as.length = xs.length ∧
      ∀ k (hk : k < xs.length), ∃ a, as[k]? = some a ∧ xs[k] = .ok a := by
  obtain ⟨as, has, hlen, hget⟩ := mapM_ok id xs h
  exact ⟨as, has, hlen, hget⟩

/-- C7 (amended). For a month index selecting a fetched raster with at least 24
bands and a day in `1 .. 31`, a non-empty palette of at most 8161 anchors and
non-empty canvases, the `hourlyShade` render returns exactly 24 images, whatever
`showRoofOnly` is. Image `h` is the canvas `renderPalette` returns for band `h`
of the extracted raster against the range `[0, 1]`, with the mask when
`showRoofOnly` is set; it has the size of the mask, or of the month's raster
without it, and four bytes for each pixel. The extracted raster holds, for
every non-negative integer pixel of band `h`, `2 ^ (day - 1)` when bit
`day - 1` of the pixel is set and `0` when it is clear; normalised against
`[0, 1]` that sample becomes `1` or `0`. -/
theorem hourlyShade_render (pal : Palettes) (layerId : String) (mask : Raster)
    (months : List Raster) (month d : Nat) (m : Raster) (showRoofOnly : Bool)
    (hcolors : pal.sunlightPalette ≠ []) (hclen : pal.sunlightPalette.length ≤ 8161)
    (hmonth : months[month]? = some m) (hbands : 24 ≤ m.rasters.length)
    (hday : 1 ≤ d ∧ d ≤ 31) (hm : 0 < m.width ∧ 0 < m.height)
    (hmask : 0 < mask.width ∧ 0 < mask.height ∧ 0 < mask.rasters.length) :
    ∃ (data : Raster) (imgs : List Canvas),
      shadeData months (.fin (month : ℚ)) (.fin (d : ℚ)) = .ok data ∧
      (hourlyShadeLayer pal layerId mask months).render showRoofOnly
        (.fin (month : ℚ)) (.fin (d : ℚ)) = .ok imgs ∧
      imgs.length = 24 ∧
      (∀ hour : ℕ, hour < 24 → ∃ c : Canvas, imgs[hour]? = some c ∧
        renderPalette ⟨data, if showRoofOnly then some mask else none,
          some pal.sunlightPalette, some 0, some 1, some hour⟩ = .ok c ∧
        c.width = (if showRoofOnly then mask.width else m.width) ∧
        c.height = (if showRoofOnly then mask.height else m.height) ∧
        c.data.length = c.width * c.height * 4) ∧
      ∀ (hour : ℕ) (values : List Num), hour < 24 → m.rasters[hour]? = some values →
        ∃ bits : List Num, data.rasters[hour]? = some bits ∧ bits.length = values.length ∧
          ∀ k n : ℕ, values[k]? = some (Num.fin (n : ℚ)) →
            bits[k]? = some
              (Num.fin (((if n.testBit (d - 1) then 2 ^ (d - 1) else 0 : ℕ) : ℕ) : ℚ)) ∧
            normalize (Num.fin (((if n.testBit (d - 1) then 2 ^ (d - 1) else 0 : ℕ) : ℕ) : ℚ))
              1 0 = Num.fin (if n.testBit (d - 1) then 1 else 0) := by
  have hdata := shadeData_ok months month (.fin (d : ℚ)) m hmonth
  have hall : ∀ hour : ℕ, hour < 24 → ∃ c : Canvas,
      renderPalette ⟨⟨m.width, m.height,
          m.rasters.map (fun values => values.map
            (fun x => bitAnd x (shiftLeft 1 (Num.fin (d : ℚ) - 1)))), m.bounds⟩,
        if showRoofOnly then some mask else none,
        some pal.sunlightPalette, some 0, some 1, some hour⟩ = .ok c ∧
      c.width = (if showRoofOnly then mask.width else m.width) ∧
      c.height = (if showRoofOnly then mask.height else m.height) ∧
      c.data.length = c.width * c.height * 4 := by
    intro hour hhour
    have hlt : hour < m.rasters.length := by omega
    obtain ⟨c, hc, hw, hh, hl⟩ := renderPalette_ok
      ⟨⟨m.width, m.height,
          m.rasters.map (fun values => values.map
            (fun x => bitAnd x (shiftLeft 1 (Num.fin (d : ℚ) - 1)))), m.bounds⟩,
        if showRoofOnly then some mask else none,
        some pal.sunlightPalette, some 0, some 1, some hour⟩
      ((m.rasters[hour]).map (fun x => bitAnd x (shiftLeft 1 (Num.fin (d : ℚ) - 1)))) 0 1
      hcolors hclen
      (by
        show (m.rasters.map _)[hour]? = _
        rw [List.getElem?_map, List.getElem?_eq_getElem hlt]; rfl)
      (by
        intro v hv
        obtain ⟨x, -, rfl⟩ := List.mem_map.mp hv
        obtain ⟨q, hq⟩ := bitAnd_fin x (shiftLeft 1 (Num.fin (d : ℚ) - 1))
        rw [hq]; simp)
      Num.zero_eq Num.one_eq (by norm_num) isDouble_zero isDouble_one
      (by rw [sub_zero, round64_one]; simp) hm
      (by
        intro m' hm'
        cases showRoofOnly with
        | true =>
          simp only [if_true] at hm'
          injection hm' with hm'
          subst hm'
          exact hmask
        | false => simp at hm')
    refine ⟨c, hc, ?_, ?_, hl⟩
    · rw [hw]; cases showRoofOnly <;> rfl
    · rw [hh]; cases showRoofOnly <;> rfl
  have hmem : ∀ x ∈ (List.range 24).map (fun hour =>
      renderPalette ⟨⟨m.width, m.height,
          m.rasters.map (fun values => values.map
            (fun x => bitAnd x (shiftLeft 1 (Num.fin (d : ℚ) - 1)))), m.bounds⟩,
        if showRoofOnly then some mask else none,
        some pal.sunlightPalette, some 0, some 1, some hour⟩), ∃ c, x = .ok c := by
    intro x hx
    obtain ⟨hour, hhour, rfl⟩ := List.mem_map.mp hx
    obtain ⟨c, hc, -⟩ := hall hour (List.mem_range.mp hhour)
    exact ⟨c, hc⟩
  obtain ⟨imgs, himgs, hlen, hget⟩ := collect_ok _ hmem
  have hlen24 : imgs.length = 24 := by rw [hlen, List.length_map, List.length_range]
  refine ⟨_, imgs, hdata, ?_, hlen24, ?_, ?_⟩
  · show collect ((List.range 24).map (fun hour =>
        match shadeData months (.fin (month : ℚ)) (.fin (d : ℚ)) with
        | .error e => .error e
        | .ok data =>
          renderPalette ⟨data, if showRoofOnly then some mask else none,
            some pal.sunlightPalette, some 0, some 1, some hour⟩)) = .ok imgs
    rw [hdata]
    exact himgs
  · intro hour hhour
    obtain ⟨c, hc, hw, hh, hl⟩ := hall hour hhour
    obtain ⟨a, ha, hxa⟩ := hget hour (by rw [List.length_map, List.length_range]; exact hhour)
    rw [List.getElem_map, List.getElem_range, hc] at hxa
    injection hxa with hxa
    subst hxa
    exact ⟨c, ha, hc, hw, hh, hl⟩
  · intro hour values _ hvalues
    refine ⟨values.map (fun x => bitAnd x (shiftLeft 1 (Num.fin (d : ℚ) - 1))), ?_,
      List.length_map _ _, ?_⟩
    · show (m.rasters.map _)[hour]? = _
      rw [List.getElem?_map, hvalues]; rfl
    · intro k n hk
      refine ⟨?_, ?_⟩
      · rw [List.getElem?_map, hk]
        show some (bitAnd _ _) = _
        rw [bitAnd_day n d hday.1 hday.2]
      · rw [Num.one_eq, Num.zero_eq]
        exact normalize_bit n (d - 1) (by omega)

theorem hourlyShade_render_witness :
    ∃ imgs : List Canvas, (hourlyShadeLayer ⟨[], [], [], ["000000", "ffffff"]⟩ "hourlyShade"
        ⟨1, 1, [[.fin 1]], ⟨.fin 1, .fin 0, .fin 1, .fin 0⟩⟩
        [⟨1, 1, List.replicate 24 [.fin 2], ⟨.fin 1, .fin 0, .fin 1, .fin 0⟩⟩]).render true
          (.fin ((0 : ℕ) : ℚ)) (.fin ((2 : ℕ) : ℚ)) = .ok imgs ∧ imgs.length = 24 ∧
      ∃ c : Canvas, imgs[23]? = some c ∧ c.width = 1 ∧ c.height = 1 ∧ c.data.length = 4 := by
  obtain ⟨data, imgs, -, himgs, hlen, himg, -⟩ :=
    hourlyShade_render ⟨[], [], [], ["000000", "ffffff"]⟩ "hourlyShade"
      ⟨1, 1, [[.fin 1]], ⟨.fin 1, .fin 0, .fin 1, .fin 0⟩⟩
      [⟨1, 1, List.replicate 24 [.fin 2], ⟨.fin 1, .fin 0, .fin 1, .fin 0⟩⟩] 0 2
      ⟨1, 1, List.replicate 24 [.fin 2], ⟨.fin 1, .fin 0, .fin 1, .fin 0⟩⟩ true
      (by decide) (by decide) rfl (by decide) (by decide) (by decide) (by decide)
  obtain ⟨c, hc, -, hw, hh, hl⟩ := himg 23 (by decide)
  simp only [if_true] at hw hh
  exact ⟨imgs, himgs, hlen, c, hc, hw, hh, by rw [hl, hw, hh]⟩

/-- C7, as stated, fails for a day after the first: for day 2 and a pixel 2,
whose bit 1 is set, the sample extracted from band 0 is 2, not 1. -/
theorem shadeData_sample_not_one :
    ∃ data, shadeData [⟨1, 1, List.replicate 24 [.fin ((2 : ℕ) : ℚ)],
        ⟨.fin 1, .fin 0, .fin 1, .fin 0⟩⟩] (.fin ((0 : ℕ) : ℚ)) (.fin ((2 : ℕ) : ℚ))
        = .ok data ∧
      Nat.testBit 2 (2 - 1) = true ∧
      data.rasters[0]? = some [.fin 2] ∧ (Num.fin 2 ≠ Num.fin 1) := by
  refine ⟨_, shadeData_ok _ 0 _ _ rfl, by decide, ?_, ?_⟩
  · show some [bitAnd (.fin ((2 : ℕ) : ℚ)) (shiftLeft 1 (Num.fin ((2 : ℕ) : ℚ) - 1))] = _
    rw [bitAnd_day 2 2 (by decide) (by decide), if_pos (by decide)]
    norm_num
  · intro h
    injection h with h
    norm_num at h

/-! ## `getLayer` -/

theorem handlers_keys (bigToString : ℚ → String) (pal : Palettes) (net : Network)
    (layerId : String) (urls : Urls) (apiKey : String) :
    (handlers bigToString pal net layerId urls apiKey).map Prod.fst
      = ["mask", "dsm", "rgb", "annualFlux", "monthlyFlux", "hourlyShade"] := rfl

/-- C6 (amended). `getLayer` fails with the error `layerId is undefined or empty`
for an undefined or empty id, and with an error that lists the six valid ids
for every other id that is neither one of the six nor the name of a member
inherited from `Object.prototype`; in both cases it throws before any handler
runs. For each of the six ids it calls the handler stored under that id, which
fetches the mask and that layer's own URLs. -/
theorem getLayer_dispatch (bigToString : ℚ → String) (pal : Palettes) (net : Network)
    (urls : Urls) (apiKey : String) :
    getLayer bigToString pal net none urls apiKey
      = .threw (.error "layerId is undefined or empty") ∧
    getLayer bigToString pal net (some "") urls apiKey
      = .threw (.error "layerId is undefined or empty") ∧
    (∀ id : String, id ≠ "" →
      id ∉ ["mask", "dsm", "rgb", "annualFlux", "monthlyFlux", "hourlyShade"] →
      id ∉ objectPrototypeKeys →
      getLayer bigToString pal net (some id) urls apiKey
        = .threw (.error ("Invalid layerId: " ++ id ++ ". Available types are: " ++
          "mask, dsm, rgb, annualFlux, monthlyFlux, hourlyShade"))) ∧
    (∀ id : String, id ∈ ["mask", "dsm", "rgb", "annualFlux", "monthlyFlux", "hourlyShade"] →
      ∃ handler, (handlers bigToString pal net id urls apiKey).lookup id = some handler ∧
        getLayer bigToString pal net (some id) urls apiKey = .called id (handler ())) ∧
    (getLayer bigToString pal net (some "mask") urls apiKey).fetched
      = [solarUrl urls.maskUrl apiKey] ∧
    (getLayer bigToString pal net (some "dsm") urls apiKey).fetched
      = [solarUrl urls.maskUrl apiKey, solarUrl urls.dsmUrl apiKey] ∧
    (getLayer bigToString pal net (some "rgb") urls apiKey).fetched
      = [solarUrl urls.maskUrl apiKey, solarUrl urls.rgbUrl apiKey] ∧
    (getLayer bigToString pal net (some "annualFlux") urls apiKey).fetched
      = [solarUrl urls.maskUrl apiKey, solarUrl urls.annualFluxUrl apiKey] ∧
    (getLayer bigToString pal net (some "monthlyFlux") urls apiKey).fetched
      = [solarUrl urls.maskUrl apiKey, solarUrl urls.monthlyFluxUrl apiKey] ∧
    (getLayer bigToString pal net (some "hourlyShade") urls apiKey).fetched
      = solarUrl urls.maskUrl apiKey ::
        urls.hourlyShadeUrls.map (fun url => solarUrl url apiKey) := by
  refine ⟨rfl, rfl, ?_, ?_, rfl, rfl, rfl, rfl, rfl, ?_⟩
  rotate_left 2
  · show (downloadGeoTIFF net urls.maskUrl apiKey ::
        urls.hourlyShadeUrls.map (fun url => downloadGeoTIFF net url apiKey)).map Prod.fst = _
    simp [downloadGeoTIFF, Function.comp]
  · intro id hne hnot hproto
    have hkeys : ¬ (id ∈ (handlers bigToString pal net id urls apiKey).map Prod.fst ∨
        id ∈ objectPrototypeKeys) := by
      rw [handlers_keys]; exact fun h => h.elim hnot hproto
    simp only [getLayer, hne, if_false, hkeys, not_false_eq_true, if_true]
    rw [handlers_keys]
    rfl
  · intro id hid
    simp only [List.mem_cons, List.mem_singleton, List.not_mem_nil, or_false] at hid
    rcases hid with rfl | rfl | rfl | rfl | rfl | rfl
    · exact ⟨_, rfl, rfl⟩
    · exact ⟨_, rfl, rfl⟩
    · exact ⟨_, rfl, rfl⟩
    · exact ⟨_, rfl, rfl⟩
    · exact ⟨_, rfl, rfl⟩
    · exact ⟨_, rfl, rfl⟩

theorem getLayer_dispatch_witness :
    getLayer (fun _ => "") ⟨[], [], [], []⟩ (fun _ => .error .typeError) (some "bogus")
        ⟨"", "", "", "", "", []⟩ ""
      = .threw (.error ("Invalid layerId: " ++ "bogus" ++ ". Available types are: " ++
          "mask, dsm, rgb, annualFlux, monthlyFlux, hourlyShade")) :=
  (getLayer_dispatch (fun _ => "") ⟨[], [], [], []⟩ (fun _ => .error .typeError)
    ⟨"", "", "", "", "", []⟩ "").2.2.1 "bogus" (by decide) (by decide) (by decide)

/-- C6, as stated, fails for the empty and the undefined id: the error raised
names none of the six valid ids. -/
theorem getLayer_empty_id_error :
    getLayer (fun _ => "") ⟨[], [], [], []⟩ (fun _ => .error .typeError) (some "")
        ⟨"", "", "", "", "", []⟩ ""
      = .threw (.error "layerId is undefined or empty") ∧
    getLayer (fun _ => "") ⟨[], [], [], []⟩ (fun _ => .error .typeError) none
        ⟨"", "", "", "", "", []⟩ ""
      = .threw (.error "layerId is undefined or empty") ∧
    ∀ id ∈ ["mask", "dsm", "rgb", "annualFlux", "monthlyFlux", "hourlyShade"],
      includes "layerId is undefined or empty".toList id.toList = false := by
  refine ⟨rfl, rfl, ?_⟩
  decide

/-- An id that names a member inherited from `Object.prototype` passes both
guards of `getLayer`, although it is none of the six layer ids. -/
theorem getLayer_inherited (bigToString : ℚ → String) (pal : Palettes) (net : Network)
    (urls : Urls) (apiKey : String) :
    getLayer bigToString pal net (some "toString") urls apiKey = .inherited "toString" :=
  rfl

/-! ## `downloadGeoTIFF` -/

/-- The request URL of `downloadGeoTIFF`: the key is appended exactly when the
text `solar.googleapis.com` occurs somewhere in the URL. -/
theorem downloadGeoTIFF_url (net : Network) (url apiKey : String) :
    (includes url.toList "solar.googleapis.com".toList = true →
      (downloadGeoTIFF net url apiKey).1 = url ++ "&key=" ++ apiKey) ∧
    (includes url.toList "solar.googleapis.com".toList = false →
      (downloadGeoTIFF net url apiKey).1 = url) := by
  constructor
  · intro h
    show (if includes url.toList "solar.googleapis.com".toList = true
      then url ++ "&key=" ++ apiKey else url) = _
    rw [if_pos h]
  · intro h
    show (if includes url.toList "solar.googleapis.com".toList = true
      then url ++ "&key=" ++ apiKey else url) = _
    rw [if_neg (by rw [h]; decide)]

/-- C9. The code at the failing input: a URL whose host is `evil.example` and
whose query mentions `solar.googleapis.com` is fetched with the key appended. -/
theorem downloadGeoTIFF_key_to_other_host (net : Network) :
    urlHost "https://evil.example/tile?src=solar.googleapis.com" = "evil.example" ∧
    "evil.example" ≠ "solar.googleapis.com" ∧
    (downloadGeoTIFF net "https://evil.example/tile?src=solar.googleapis.com" "SECRET").1
      = "https://evil.example/tile?src=solar.googleapis.com&key=SECRET" := by
  refine ⟨by decide, by decide, ?_⟩
  show solarUrl "https://evil.example/tile?src=solar.googleapis.com" "SECRET" = _
  decide

theorem dsmLayer_range_witness :
    ∃ layer, dsmLayer (fun _ => "") ⟨[], ["0000ff", "ff0000"], [], []⟩ "dsm"
        ⟨2, 2, [[.fin 1, .fin 1, .fin 1, .fin 1]], ⟨.fin 1, .fin 0, .fin 1, .fin 0⟩⟩
        ⟨2, 2, [List.map Num.fin [1, 2, 3, 4]], ⟨.fin 1, .fin 0, .fin 1, .fin 0⟩⟩
          = .ok layer ∧
      layer.palette = some ⟨["0000ff", "ff0000"], "1.0 m", "4.0 m"⟩ := by
  obtain ⟨layer, mn, mx, hlayer, hmn, hmx, hall, hpal, -⟩ := dsmLayer_range (fun _ => "")
    ⟨[], ["0000ff", "ff0000"], [], []⟩ "dsm"
    ⟨2, 2, [[.fin 1, .fin 1, .fin 1, .fin 1]], ⟨.fin 1, .fin 0, .fin 1, .fin 0⟩⟩
    ⟨2, 2, [List.map Num.fin [1, 2, 3, 4]], ⟨.fin 1, .fin 0, .fin 1, .fin 0⟩⟩
    [1, 2, 3, 4] (by decide) rfl
  have h1 := (hall 1 (by simp)).1
  have h4 := (hall 4 (by simp)).2
  have hmn1 : mn = 1 := by
    simp only [List.mem_cons, List.mem_singleton, List.not_mem_nil, or_false] at hmn
    rcases hmn with h | h | h | h
    · exact h
    · rw [h] at h1; norm_num at h1
    · rw [h] at h1; norm_num at h1
    · rw [h] at h1; norm_num at h1
  have hmx4 : mx = 4 := by
    simp only [List.mem_cons, List.mem_singleton, List.not_mem_nil, or_false] at hmx
    rcases hmx with h | h | h | h
    · rw [h] at h4; norm_num at h4
    · rw [h] at h4; norm_num at h4
    · rw [h] at h4; norm_num at h4
    · exact h
  subst hmn1
  subst hmx4
  have hfloor1 : ⌊|(1 : ℚ)| * 10 ^ 1 + 1 / 2⌋₊ = 10 := by
    rw [Nat.floor_eq_iff (by norm_num)]; norm_num
  have hfloor4 : ⌊|(4 : ℚ)| * 10 ^ 1 + 1 / 2⌋₊ = 40 := by
    rw [Nat.floor_eq_iff (by norm_num)]; norm_num
  have hbig1 : ¬ ((10 : ℚ) ^ 21 ≤ |(1 : ℚ)|) := by norm_num
  have hbig4 : ¬ ((10 : ℚ) ^ 21 ≤ |(4 : ℚ)|) := by norm_num
  have hlabel1 : toFixed (fun _ => "") (.fin 1) 1 ++ " m" = "1.0 m" := by
    simp only [toFixed, hbig1, hfloor1, if_false]
    decide
  have hlabel4 : toFixed (fun _ => "") (.fin 4) 1 ++ " m" = "4.0 m" := by
    simp only [toFixed, hbig4, hfloor4, if_false]
    decide
  refine ⟨layer, hlayer, ?_⟩
  rw [hpal, hlabel1, hlabel4]

end Solar
